import Mathlib

/-!
# FTP-3DS session engine: a shallow embedding of `source/ftp.c`

The definitions below follow `source/ftp.c` function by function and keep its names.

Conventions of the embedding

* A C string is the list of its characters before the terminating NUL
  (`List Char`); a pointer into a string is the suffix that starts there.
* File descriptors are `Int`; as in the source a descriptor is open when it is
  `>= 0` and the value `-1` marks a closed one.
* The `flags` bit set is a record with one boolean per `SESSION_*` mask.
* Every answer of the operating system (return codes of `socket`, `stat`,
  `send`, ...) is an explicit input: `Env` for the calls made while one command
  is handled, `XferEnv` for one call of a transfer routine.
* The width of `unsigned long` is the parameter `w` (32 on the 3DS, 64 on an
  LP64 host).
* A routine whose loop may run for ever takes a `fuel` argument and yields
  `none` when the fuel does not suffice; `none` is also the outcome of a step
  that dereferences a null pointer.
* What the session sends and what it changes on the filesystem is recorded in
  the ghost field `events` of the session (it has no counterpart in the C
  struct).  `console_print` diagnostics are not recorded.
* Conditional code follows the portable branch (the one without `_3DS`).
-/

namespace FTP

/-! ## Constants -/

def XFER_BUFFERSIZE : Nat := 32768
def FILE_BUFFERSIZE : Nat := 65536
def CMD_BUFFERSIZE : Nat := 1024
/-- Size of the `cwd` field, `sizeof(session->cwd)`. -/
def CWD_SIZE : Nat := 4096

/-! ## C library functions on strings -/

/-- Library `strstr(hay, needle)`: the suffix of `hay` starting at the first
occurrence of `needle`, `none` for a null result. -/
def strstr : List Char → List Char → Option (List Char)
  | [], needle => if needle.isEmpty then some [] else none
  | c :: cs, needle =>
    if needle.isPrefixOf (c :: cs) then some (c :: cs) else strstr cs needle

/-- Library `isspace` in the C locale. -/
def isspace (c : Char) : Bool :=
  c = ' ' || c = '\t' || c = '\n' || c = '\x0b' || c = '\x0c' || c = '\r'

/-- Library `isdigit`. -/
def isdigit (c : Char) : Bool := '0' ≤ c && c ≤ '9'

/-- Sign of library `strcasecmp(a, b)`: the first difference of the
lower-cased characters decides, the end of a string counting as 0. -/
def strcasecmp : List Char → List Char → Int
  | [], [] => 0
  | [], _ :: _ => -1
  | _ :: _, [] => 1
  | a :: as, b :: bs =>
    if a.toLower = b.toLower then strcasecmp as bs
    else if a.toLower < b.toLower then -1 else 1

/-- Text printed by `%u`, `%d` (for a non-negative value) and `%llu`. -/
def utoa (n : Nat) : List Char := Nat.toDigits 10 n

/-! ## Data model -/

/-- session state -/
inductive session_state_t
  | COMMAND_STATE
  | DATA_CONNECT_STATE
  | DATA_TRANSFER_STATE
  deriving DecidableEq

/-- The part of `struct sockaddr_in` the program uses: the IPv4 address as the
number `a*2^24 + b*2^16 + c*2^8 + d` of `a.b.c.d`, and the port, both as
plain values (byte order is a matter of representation). -/
structure sockaddr_in where
  sin_addr : Nat
  sin_port : Nat
  deriving DecidableEq

/-- The bits of `flags`: one boolean per `SESSION_*` mask. -/
structure session_flags where
  SESSION_BINARY : Bool
  SESSION_PASV : Bool
  SESSION_PORT : Bool
  SESSION_RECV : Bool
  SESSION_SEND : Bool
  SESSION_RENAME : Bool
  deriving DecidableEq

/-- The file types told apart by `S_ISDIR` and `S_ISLNK`. -/
inductive file_kind
  | directory
  | symlink
  | regular
  deriving DecidableEq

/-- One directory entry as `readdir` returns it, together with what `lstat`
answers for it. -/
structure dirent where
  d_name : List Char
  lstat_rc : Int
  st_kind : file_kind
  st_size : Nat
  deriving DecidableEq

/-- The union of `dp` and `fp`: a null pointer, an open directory (the entries
`readdir` has still to return), a file open for reading (the bytes not yet
read) or a file open for writing. -/
inductive handle_t
  | null
  | dir (rest : List dirent)
  | file_rb (rest : List Char)
  | file_wb (path : List Char)
  deriving DecidableEq

/-- The three transfer callbacks. -/
inductive transfer_t
  | list_transfer
  | retrieve_transfer
  | store_transfer
  deriving DecidableEq

/-- What a session does to the outside world. -/
inductive Event
  | cmd_send (bytes : List Char)
  | data_send (bytes : List Char)
  | fs_create (path : List Char)
  | fs_write (bytes : List Char)
  | fs_unlink (path : List Char)
  | fs_mkdir (path : List Char)
  | fs_rmdir (path : List Char)
  | fs_rename (old new : List Char)
  deriving DecidableEq

/-- ftp session (`struct ftp_session_t`); `file_buffer` and the list links are
left out, `events` is the ghost record of effects. -/
structure ftp_session_t where
  cwd : List Char
  peer_addr : sockaddr_in
  pasv_addr : sockaddr_in
  cmd_fd : Int
  pasv_fd : Int
  data_fd : Int
  flags : session_flags
  state : session_state_t
  transfer : Option transfer_t
  buffer : List Char
  tmp_buffer : List Char
  bufferpos : Nat
  buffersize : Nat
  filepos : Nat
  filesize : Nat
  handle : handle_t
  events : List Event
  deriving DecidableEq

/-- Answers of the operating system to the calls made while one command is
handled or one connection is set up. -/
structure Env where
  socket_rc : Int
  bind_rc : Int
  listen_rc : Int
  getsockname_rc : Int
  sockname : sockaddr_in
  connect_rc : Int
  accept_rc : Int
  fcntl_getfl : Int
  fcntl_setfl : Int
  strdup_ok : Bool
  malloc_ok : Bool
  greeting_rc : Int
  stat_rc : Int
  stat_kind : file_kind
  lstat_rc : Int
  opendir_rc : Option (List dirent)
  fopen_ok : Bool
  fstat_rc : Int
  fstat_size : Nat
  file_bytes : List Char
  unlink_rc : Int
  mkdir_rc : Int
  rmdir_rc : Int
  rename_rc : Int
  deriving DecidableEq

/-- Answers of the operating system to the calls made by one call of a
transfer routine. -/
structure XferEnv where
  send_rc : Int
  recv_rc : Int
  recv_bytes : List Char
  errno_wouldblock : Bool
  fread_rc : Nat
  fwrite_rc : Nat
  deriving DecidableEq

/-- The values of `errno` the replies print. -/
inductive errno_t
  | EINVAL
  | ENAMETOOLONG
  | ENOMEM
  deriving DecidableEq

/-- Library `strerror` for the values the replies print (the texts of glibc). -/
def strerror : errno_t → List Char
  | .EINVAL => "Invalid argument".toList
  | .ENAMETOOLONG => "File name too long".toList
  | .ENOMEM => "Cannot allocate memory".toList

/-! ## Socket and file helpers -/

/-- set a socket to non-blocking -/
def ftp_set_socket_nonblocking (env : Env) : Int :=
  if env.fcntl_getfl = -1 then -1
  else if env.fcntl_setfl ≠ 0 then -1
  else 0

/-- close command socket on ftp session -/
def ftp_session_close_cmd (s : ftp_session_t) : ftp_session_t :=
  { s with cmd_fd := -1 }

/-- close listen socket on ftp session -/
def ftp_session_close_pasv (s : ftp_session_t) : ftp_session_t :=
  { s with pasv_fd := -1 }

/-- close data socket on ftp session -/
def ftp_session_close_data (s : ftp_session_t) : ftp_session_t :=
  { s with
    data_fd := -1
    flags := { s.flags with SESSION_RECV := false, SESSION_SEND := false } }

/-- close open file for ftp session -/
def ftp_session_close_file (s : ftp_session_t) : ftp_session_t :=
  { s with handle := handle_t.null }

/-- close current working directory for ftp session -/
def ftp_session_close_cwd (s : ftp_session_t) : ftp_session_t :=
  { s with handle := handle_t.null }

/-- set state for ftp session -/
def ftp_session_set_state (s : ftp_session_t) (state : session_state_t) :
    ftp_session_t :=
  let s := { s with state := state }
  match state with
  | .COMMAND_STATE =>
    let s := if s.pasv_fd ≥ 0 then ftp_session_close_pasv s else s
    if s.data_fd ≥ 0 then ftp_session_close_data s else s
  | .DATA_CONNECT_STATE =>
    if s.data_fd ≥ 0 then ftp_session_close_data s else s
  | .DATA_TRANSFER_STATE =>
    if s.pasv_fd ≥ 0 then ftp_session_close_pasv s else s

/-- The bytes `ftp_send_response` hands to `send`: code, a blank (`- ` for
211) and the formatted text, or the bare code when that does not fit the
`CMD_BUFFERSIZE` buffer. -/
def response_bytes (code : Nat) (text : List Char) : List Char :=
  let head := utoa code ++ (if code ≠ 211 then " ".toList else "- ".toList)
  if head.length + text.length ≥ CMD_BUFFERSIZE then utoa code ++ "\r\n".toList
  else head ++ text

/-- send ftp response to ftp session's peer; `text` is the formatted message.
The return value of `send` is not modelled: no handler's caller reads it. -/
def ftp_send_response (s : ftp_session_t) (code : Nat) (text : List Char) :
    ftp_session_t :=
  { s with events := s.events ++ [Event.cmd_send (response_bytes code text)] }

/-! ## Path sandbox -/

/-- The loop of `cd_up`: `i` is the offset of `p` in `cwd`, `slash` the
offset of the last `/` seen so far (`none` for the null pointer). -/
def cd_up_loop : List Char → Nat → Option Nat → Option Nat
  | [], _, slash => slash
  | c :: cs, i, slash => cd_up_loop cs (i + 1) (if c = '/' then some i else slash)

/-- `cd_up`: cut `cwd` at its last `/`; an empty result becomes `/`.  When
`cwd` has no `/` the source stores through a null pointer: `none`. -/
def cd_up (s : ftp_session_t) : Option ftp_session_t :=
  match cd_up_loop s.cwd 0 none with
  | none => none
  | some slash =>
    let cwd := s.cwd.take slash
    some { s with cwd := if cwd.length = 0 then cwd ++ ['/'] else cwd }

/-- The first loop of `validate_path`.  `some true`: a `/..` followed by the
end of the string or by `/` was found (the function returns -1); `some false`:
`strstr` found nothing, the loop is left; `none`: out of fuel.  As in the
source, `p` is set to the match and searched again from there. -/
def validate_path_scan : Nat → List Char → Option Bool
  | 0, _ => none
  | fuel + 1, p =>
    match strstr p ['/', '.', '.'] with
    | none => some false
    | some q =>
      match q.drop 3 with
      | [] => some true
      | c :: _ => if c = '/' then some true else validate_path_scan fuel q

/-- `validate_path`: 0 or -1, `none` when the fuel does not suffice. -/
def validate_path (fuel : Nat) (args : List Char) : Option Int :=
  match validate_path_scan fuel args with
  | none => none
  | some true => some (-1)
  | some false =>
    if (strstr args ['/', '/']).isSome then some (-1) else some 0

/-- The loop `while(p > buffer && *--p == '/') *p = 0;` of `build_path`: `p`
is the offset of the pointer in the buffer; storing the terminator at offset
`p` cuts the string there. -/
def build_path_strip : Nat → List Char → List Char
  | 0, buffer => buffer
  | p + 1, buffer =>
    if buffer.get? p = some '/' then build_path_strip p (buffer.take p)
    else buffer

/-- `build_path`: the result (`Except.ok ()` for 0, the `errno` for -1)
together with the session, whose `buffer` holds the path. -/
def build_path (fuel : Nat) (s : ftp_session_t) (args : List Char) :
    Option (Except errno_t Unit × ftp_session_t) :=
  let s := { s with buffer := [] }
  match validate_path fuel args with
  | none => none
  | some rc =>
    if rc ≠ 0 then some (.error .EINVAL, s)
    else
      let finish (s : ftp_session_t) : Except errno_t Unit × ftp_session_t :=
        let stripped := build_path_strip s.buffer.length s.buffer
        (.ok (), { s with buffer := if stripped.length = 0 then ['/'] else stripped })
      if args.head? = some '/' then
        if args.length > XFER_BUFFERSIZE - 1 then some (.error .ENAMETOOLONG, s)
        else some (finish { s with buffer := args })
      else
        let full := if s.cwd = ['/'] then '/' :: args else s.cwd ++ '/' :: args
        -- snprintf stores at most sizeof(buffer)-1 characters and returns full.length
        let s := { s with buffer := full.take (XFER_BUFFERSIZE - 1) }
        if full.length ≥ XFER_BUFFERSIZE then some (.error .ENAMETOOLONG, s)
        else some (finish s)

/-! ## Transfer engine -/

/-- The text `sprintf` writes for one directory entry in `list_transfer`. -/
def list_line (dent : dirent) : List Char :=
  (match dent.st_kind with
    | .directory => 'd'
    | .symlink => 'l'
    | .regular => '-') ::
  ("rwxrwxrwx 1 3DS 3DS ".toList ++ utoa dent.st_size ++ " Jan 1 1970 ".toList
    ++ dent.d_name ++ "\r\n".toList)

/-- The second half of `list_transfer`: `send` of the window from `bufferpos`
to `buffersize` on the data socket. -/
def list_transfer_send (e : XferEnv) (s : ftp_session_t) : Int × ftp_session_t :=
  let rc := e.send_rc
  if rc ≤ 0 then
    if rc < 0 ∧ e.errno_wouldblock then (-1, s)
    else
      let s := ftp_session_close_cwd s
      let s := ftp_session_set_state s .COMMAND_STATE
      (-1, ftp_send_response s 426 "Connection broken during transfer\r\n".toList)
  else
    (0, { s with
          bufferpos := s.bufferpos + rc.toNat
          events := s.events ++
            [Event.data_send ((s.buffer.drop s.bufferpos).take rc.toNat)] })

/-- `list_transfer`: the return value and the session; `none` when `dp` is
not an open directory. -/
def list_transfer (e : XferEnv) (s : ftp_session_t) : Option (Int × ftp_session_t) :=
  if s.bufferpos = s.buffersize then
    match s.handle with
    | .dir [] =>
      let s := ftp_session_close_cwd s
      let s := ftp_session_set_state s .COMMAND_STATE
      some (-1, ftp_send_response s 226 "OK\r\n".toList)
    | .dir (dent :: rest) =>
      let s := { s with handle := .dir rest }
      if dent.d_name = ['.'] ∨ dent.d_name = ['.', '.'] then some (0, s)
      else
        let path := if s.cwd = ['/'] then '/' :: dent.d_name
                    else s.cwd ++ '/' :: dent.d_name
        let s := { s with buffer := path.take (XFER_BUFFERSIZE - 1) }
        if dent.lstat_rc ≠ 0 then
          let s := ftp_session_close_cwd s
          let s := ftp_session_set_state s .COMMAND_STATE
          some (-1, ftp_send_response s 550 "unavailable\r\n".toList)
        else
          let line := list_line dent
          some (list_transfer_send e
            { s with buffer := line, buffersize := line.length, bufferpos := 0 })
    | _ => none
  else some (list_transfer_send e s)

/-- read from an open file for ftp session: `fread` reports `e.fread_rc`
items (an unsigned count, so the result is never negative). -/
def ftp_session_read_file (e : XferEnv) (s : ftp_session_t) : Option (Int × ftp_session_t) :=
  match s.handle with
  | .file_rb rest =>
    let rc : Int := (e.fread_rc : Int)
    if rc < 0 then some (-1, s)
    else some (rc, { s with
                     buffer := rest.take e.fread_rc
                     handle := .file_rb (rest.drop e.fread_rc)
                     filepos := s.filepos + e.fread_rc })
  | _ => none

/-- The second half of `retrieve_transfer`: `send` of the window from
`bufferpos` to `buffersize` on the data socket. -/
def retrieve_transfer_send (e : XferEnv) (s : ftp_session_t) : Int × ftp_session_t :=
  let rc := e.send_rc
  if rc ≤ 0 then
    if rc < 0 ∧ e.errno_wouldblock then (-1, s)
    else
      let s := ftp_session_close_file s
      let s := ftp_session_set_state s .COMMAND_STATE
      (-1, ftp_send_response s 426 "Connection broken during transfer\r\n".toList)
  else
    (0, { s with
          bufferpos := s.bufferpos + rc.toNat
          events := s.events ++
            [Event.data_send ((s.buffer.drop s.bufferpos).take rc.toNat)] })

/-- `retrieve_transfer`: the return value and the session. -/
def retrieve_transfer (e : XferEnv) (s : ftp_session_t) : Option (Int × ftp_session_t) :=
  if s.bufferpos = s.buffersize then
    match ftp_session_read_file e s with
    | none => none
    | some (rc, s) =>
      if rc ≤ 0 then
        let s := ftp_session_close_file s
        let s := ftp_session_set_state s .COMMAND_STATE
        if rc < 0 then some (-1, ftp_send_response s 451 "Failed to read file\r\n".toList)
        else some (-1, ftp_send_response s 226 "OK\r\n".toList)
      else some (retrieve_transfer_send e { s with bufferpos := 0, buffersize := rc.toNat })
  else some (retrieve_transfer_send e s)

/-- write to an open file for ftp session: `fwrite` reports `e.fwrite_rc`
items written. -/
def ftp_session_write_file (e : XferEnv) (s : ftp_session_t) : Int × ftp_session_t :=
  let rc : Int := (e.fwrite_rc : Int)
  if rc < 0 then (-1, s)
  else (rc, { s with
              filepos := s.filepos + e.fwrite_rc
              events := s.events ++
                [Event.fs_write ((s.buffer.drop s.bufferpos).take e.fwrite_rc)] })

/-- The second half of `store_transfer`: the window from `bufferpos` to
`buffersize` is written to the file. -/
def store_transfer_write (e : XferEnv) (s : ftp_session_t) : Int × ftp_session_t :=
  let r := ftp_session_write_file e s
  if r.1 ≤ 0 then
    let s := ftp_session_close_file r.2
    let s := ftp_session_set_state s .COMMAND_STATE
    (-1, ftp_send_response s 451 "Failed to write file\r\n".toList)
  else (0, { r.2 with bufferpos := r.2.bufferpos + r.1.toNat })

/-- `store_transfer`: the return value and the session. -/
def store_transfer (e : XferEnv) (s : ftp_session_t) : Option (Int × ftp_session_t) :=
  if s.bufferpos = s.buffersize then
    let rc := e.recv_rc
    if rc ≤ 0 then
      if rc < 0 ∧ e.errno_wouldblock then some (-1, s)
      else
        let s := ftp_session_close_file s
        let s := ftp_session_set_state s .COMMAND_STATE
        if rc = 0 then some (-1, ftp_send_response s 226 "OK\r\n".toList)
        else some (-1, ftp_send_response s 426 "Connection broken during transfer\r\n".toList)
    else
      some (store_transfer_write e
        { s with buffer := e.recv_bytes, bufferpos := 0, buffersize := rc.toNat })
  else some (store_transfer_write e s)

/-- Call through the `transfer` function pointer; `none` for a null pointer. -/
def call_transfer (e : XferEnv) (s : ftp_session_t) : Option (Int × ftp_session_t) :=
  match s.transfer with
  | none => none
  | some .list_transfer => list_transfer e s
  | some .retrieve_transfer => retrieve_transfer e s
  | some .store_transfer => store_transfer e s

/-- `ftp_session_transfer`: call the transfer routine until it returns
non-zero.  The list holds the answers for the successive calls; `none` when
the routine asks for another turn after the last of them. -/
def ftp_session_transfer : List XferEnv → ftp_session_t → Option ftp_session_t
  | [], _ => none
  | e :: es, s =>
    match call_transfer e s with
    | none => none
    | some (rc, s) => if rc = 0 then ftp_session_transfer es s else some s

/-! ## Data connections -/

/-- accept PASV connection for ftp session -/
def ftp_session_accept (env : Env) (s : ftp_session_t) : Int × ftp_session_t :=
  if s.flags.SESSION_PASV then
    let s := { s with flags := { s.flags with SESSION_PASV := false } }
    let s := ftp_send_response s 150 "Ready\r\n".toList
    let new_fd := env.accept_rc
    if new_fd < 0 then
      let s := ftp_session_set_state s .COMMAND_STATE
      (-1, ftp_send_response s 425 "Failed to establish connection\r\n".toList)
    else if ftp_set_socket_nonblocking env ≠ 0 then
      let s := ftp_session_set_state s .COMMAND_STATE
      (-1, ftp_send_response s 425 "Failed to establish connection\r\n".toList)
    else
      let s := ftp_session_set_state s .DATA_TRANSFER_STATE
      (0, { s with data_fd := new_fd })
  else
    (-1, ftp_send_response s 503 "Bad sequence of commands\r\n".toList)

/-- connect to peer for ftp session -/
def ftp_session_connect (env : Env) (s : ftp_session_t) : Int × ftp_session_t :=
  let s := { s with flags := { s.flags with SESSION_PORT := false } }
  let s := { s with data_fd := env.socket_rc }
  if s.data_fd < 0 then (-1, s)
  else if env.connect_rc ≠ 0 then (-1, { s with data_fd := -1 })
  else if ftp_set_socket_nonblocking env ≠ 0 then (-1, s)
  else (0, s)

/-! ## Library `inet_aton` -/

/-- Value of `c` as a digit of the given base, `none` when it is not one. -/
def digit_in_base (base : Nat) (c : Char) : Option Nat :=
  let v : Option Nat :=
    if '0' ≤ c ∧ c ≤ '9' then some (c.toNat - '0'.toNat)
    else if 'a' ≤ c ∧ c ≤ 'f' then some (c.toNat - 'a'.toNat + 10)
    else if 'A' ≤ c ∧ c ≤ 'F' then some (c.toNat - 'A'.toNat + 10)
    else none
  match v with
  | some d => if d < base then some d else none
  | none => none

/-- The digit loop of library `strtoul`: the value read and the rest. -/
def strtoul_digits (base : Nat) : List Char → Nat → Nat × List Char
  | [], val => (val, [])
  | c :: cs, val =>
    match digit_in_base base c with
    | some d => strtoul_digits base cs (val * base + d)
    | none => (val, c :: cs)

/-- Library `strtoul(cp, &endp, 0)` on a text that starts with a digit: `0x`
before a hexadecimal digit selects base 16, another leading `0` base 8, else
base 10.  The value is not reduced: the caller rejects what exceeds 32 bits. -/
def strtoul_auto : List Char → Nat × List Char
  | '0' :: x :: h :: rest =>
    if (x = 'x' ∨ x = 'X') ∧ (digit_in_base 16 h).isSome then
      strtoul_digits 16 (h :: rest) 0
    else strtoul_digits 8 (x :: h :: rest) 0
  | '0' :: rest => strtoul_digits 8 rest 0
  | cp => strtoul_digits 10 cp 0

/-- The loop of library `inet_aton` over the parts of a numbers-and-dots
text; `parts` are the bytes stored so far.  It runs at most four times: a
fourth dot is refused. -/
def inet_aton_loop : Nat → List Char → List Nat → Option Nat
  | 0, _, _ => none
  | k + 1, cp, parts =>
    match cp with
    | [] => none
    | c :: _ =>
      if !isdigit c then none
      else
        let (val, rest) := strtoul_auto cp
        if val > 0xffffffff then none
        else
          match rest with
          | '.' :: rest1 =>
            if parts.length > 2 ∨ val > 0xff then none
            else inet_aton_loop k rest1 (parts ++ [val])
          | _ =>
            if (match rest with
                | [] => false
                | t :: _ => !(t.toNat < 128 && isspace t)) then none
            else
              let max := [0xffffffff, 0xffffff, 0xffff, 0xff].getD parts.length 0
              if val > max then none
              else some ((parts.getD 0 0) * 2 ^ 24 + (parts.getD 1 0) * 2 ^ 16
                          + (parts.getD 2 0) * 2 ^ 8 + val)

/-- Library `inet_aton` (glibc): the address as a number, `none` for the
result 0. -/
def inet_aton (cp : List Char) : Option Nat := inet_aton_loop 4 cp []

/-! ## Command handlers -/

/-- Conversion of a value to `short` (two's complement, 16 bits). -/
def to_short (x : Int) : Int := (x + 32768) % 65536 - 32768

/-- The first loop of `PORT` over the copy of the argument, `commas` being the
count so far: every comma becomes a dot, except the one met when the count is
3, which becomes the terminator.  Result: the text before the terminator, the
text after it (`portstr`, `none` while no terminator was stored) and the final
count. -/
def PORT_commas : List Char → Nat → List Char × Option (List Char) × Nat
  | [], commas => ([], none, commas)
  | c :: cs, commas =>
    if c = ',' then
      if commas ≠ 3 then
        let r := PORT_commas cs (commas + 1)
        ('.' :: r.1, r.2.1, r.2.2)
      else
        let r := PORT_commas cs (commas + 1)
        ([], some r.1, r.2.2)
    else
      let r := PORT_commas cs commas
      (c :: r.1, r.2.1, r.2.2)

/-- The second loop of `PORT` over `portstr`: `first` tells that `p == portstr`,
`val` is the `unsigned long` of `w` bits, `port` the `short`.  `none` stands
for the 501 reply inside the loop. -/
def PORT_loop (w : Nat) : List Char → Bool → Nat → Int → Option (Nat × Int)
  | [], _, val, port => some (val, port)
  | c :: cs, first, val, port =>
    if !isdigit c then
      if first ∨ c ≠ '.' ∨ val > 0xFF then none
      else PORT_loop w cs false 0 (to_short (to_short (port * 256) + val))
    else PORT_loop w cs false ((val * 10 + (c.toNat - '0'.toNat)) % 2 ^ w) port

def ALLO (s : ftp_session_t) (_args : List Char) : ftp_session_t :=
  let s := ftp_session_set_state s .COMMAND_STATE
  ftp_send_response s 202 "superfluous command\r\n".toList

def APPE (s : ftp_session_t) (_args : List Char) : ftp_session_t :=
  let s := ftp_session_set_state s .COMMAND_STATE
  ftp_send_response s 502 "unavailable\r\n".toList

def CDUP (s : ftp_session_t) (_args : List Char) : Option ftp_session_t :=
  let s := ftp_session_set_state s .COMMAND_STATE
  match cd_up s with
  | none => none
  | some s => some (ftp_send_response s 200 "OK\r\n".toList)

def CWD (fuel : Nat) (env : Env) (s : ftp_session_t) (args : List Char) :
    Option ftp_session_t :=
  let s := ftp_session_set_state s .COMMAND_STATE
  if args = ['.', '.'] then
    match cd_up s with
    | none => none
    | some s => some (ftp_send_response s 200 "OK\r\n".toList)
  else
    match build_path fuel s args with
    | none => none
    | some (.error e, s) => some (ftp_send_response s 553 (strerror e ++ "\r\n".toList))
    | some (.ok _, s) =>
      if env.stat_rc ≠ 0 then some (ftp_send_response s 550 "unavailable\r\n".toList)
      else if env.stat_kind ≠ .directory then
        some (ftp_send_response s 553 "not a directory\r\n".toList)
      else
        -- strncpy(session->cwd, session->buffer, sizeof(session->cwd))
        let s := { s with cwd := s.buffer.take CWD_SIZE }
        some (ftp_send_response s 200 "OK\r\n".toList)

def DELE (fuel : Nat) (env : Env) (s : ftp_session_t) (args : List Char) :
    Option ftp_session_t :=
  let s := ftp_session_set_state s .COMMAND_STATE
  match build_path fuel s args with
  | none => none
  | some (.error e, s) => some (ftp_send_response s 553 (strerror e ++ "\r\n".toList))
  | some (.ok _, s) =>
    if env.unlink_rc ≠ 0 then
      some (ftp_send_response s 550 "failed to delete file\r\n".toList)
    else
      let s := { s with events := s.events ++ [Event.fs_unlink s.buffer] }
      some (ftp_send_response s 250 "OK\r\n".toList)

def FEAT (s : ftp_session_t) (_args : List Char) : ftp_session_t :=
  let s := ftp_session_set_state s .COMMAND_STATE
  ftp_send_response s 211 "\r\n UTF8\r\n211 End\r\n".toList

/-- open current working directory for ftp session -/
def ftp_session_open_cwd (env : Env) (s : ftp_session_t) : Int × ftp_session_t :=
  match env.opendir_rc with
  | none => (-1, { s with handle := .null })
  | some entries => (0, { s with handle := .dir entries })

def LIST (env : Env) (s : ftp_session_t) (_args : List Char) : ftp_session_t :=
  let (rc, s) := ftp_session_open_cwd env s
  if rc ≠ 0 then
    let s := ftp_session_set_state s .COMMAND_STATE
    ftp_send_response s 550 "unavailable\r\n".toList
  else if s.flags.SESSION_PORT then
    let s := ftp_session_set_state s .DATA_TRANSFER_STATE
    let (rc, s) := ftp_session_connect env s
    if rc ≠ 0 then
      let s := ftp_session_set_state s .COMMAND_STATE
      ftp_send_response s 425 "can't open data connection\r\n".toList
    else
      let s := { s with flags := { s.flags with SESSION_RECV := false, SESSION_SEND := true } }
      let s := { s with transfer := some .list_transfer, bufferpos := 0, buffersize := 0 }
      ftp_send_response s 150 "Ready\r\n".toList
  else if s.flags.SESSION_PASV then
    let s := { s with flags := { s.flags with SESSION_RECV := false, SESSION_SEND := true } }
    let s := { s with transfer := some .list_transfer, bufferpos := 0, buffersize := 0 }
    ftp_session_set_state s .DATA_CONNECT_STATE
  else
    let s := ftp_session_set_state s .COMMAND_STATE
    ftp_send_response s 503 "Bad sequence of commands\r\n".toList

def MKD (fuel : Nat) (env : Env) (s : ftp_session_t) (args : List Char) :
    Option ftp_session_t :=
  let s := ftp_session_set_state s .COMMAND_STATE
  match build_path fuel s args with
  | none => none
  | some (.error e, s) => some (ftp_send_response s 553 (strerror e ++ "\r\n".toList))
  | some (.ok _, s) =>
    if env.mkdir_rc ≠ 0 then
      some (ftp_send_response s 550 "failed to create directory\r\n".toList)
    else
      let s := { s with events := s.events ++ [Event.fs_mkdir s.buffer] }
      some (ftp_send_response s 250 "OK\r\n".toList)

def MODE (s : ftp_session_t) (args : List Char) : ftp_session_t :=
  let s := ftp_session_set_state s .COMMAND_STATE
  if strcasecmp args "S".toList = 0 then ftp_send_response s 200 "OK\r\n".toList
  else ftp_send_response s 504 "unavailable\r\n".toList

def NLST (s : ftp_session_t) (_args : List Char) : ftp_session_t :=
  let s := ftp_session_set_state s .COMMAND_STATE
  ftp_send_response s 504 "unavailable\r\n".toList

def NOOP (s : ftp_session_t) (_args : List Char) : ftp_session_t :=
  ftp_send_response s 200 "OK\r\n".toList

def OPTS (s : ftp_session_t) (args : List Char) : ftp_session_t :=
  let s := ftp_session_set_state s .COMMAND_STATE
  if strcasecmp args "UTF8".toList = 0
      ∨ strcasecmp args "UTF8 ON".toList = 0
      ∨ strcasecmp args "UTF8 NLST".toList = 0 then
    ftp_send_response s 200 "OK\r\n".toList
  else ftp_send_response s 504 "invalid argument\r\n".toList

def PASS (s : ftp_session_t) (_args : List Char) : ftp_session_t :=
  let s := ftp_session_set_state s .COMMAND_STATE
  ftp_send_response s 230 "OK\r\n".toList

/-- The text `PASV` builds for its reply: the dotted quad of the address, then
`,p1,p2`, every dot replaced by a comma. -/
def PASV_text (a : sockaddr_in) : List Char :=
  let quad := utoa (a.sin_addr / 2 ^ 24 % 256) ++ '.' :: utoa (a.sin_addr / 2 ^ 16 % 256)
    ++ '.' :: utoa (a.sin_addr / 2 ^ 8 % 256) ++ '.' :: utoa (a.sin_addr % 256)
  let port := a.sin_port % 65536
  let buffer := quad ++ ',' :: utoa (port / 256) ++ ',' :: utoa (port % 256)
  buffer.map (fun c => if c = '.' then ',' else c)

def PASV (env : Env) (s : ftp_session_t) (_args : List Char) : ftp_session_t :=
  let s := ftp_session_set_state s .COMMAND_STATE
  let s := { s with flags := { s.flags with SESSION_PASV := false, SESSION_PORT := false } }
  let s := { s with pasv_fd := env.socket_rc }
  if s.pasv_fd < 0 then ftp_send_response s 451 "\r\n".toList
  else
    -- next_data_port() is 0 in the portable build
    let s := { s with pasv_addr := { s.pasv_addr with sin_port := 0 } }
    if env.bind_rc ≠ 0 then
      ftp_send_response (ftp_session_close_pasv s) 451 "\r\n".toList
    else if env.listen_rc ≠ 0 then
      ftp_send_response (ftp_session_close_pasv s) 451 "\r\n".toList
    else if env.getsockname_rc ≠ 0 then
      ftp_send_response (ftp_session_close_pasv s) 451 "\r\n".toList
    else
      let s := { s with pasv_addr := env.sockname }
      let s := { s with flags := { s.flags with SESSION_PASV := true } }
      ftp_send_response s 227 (PASV_text s.pasv_addr ++ "\r\n".toList)

def PORT (w : Nat) (env : Env) (s : ftp_session_t) (args : List Char) : ftp_session_t :=
  let s := ftp_session_set_state s .COMMAND_STATE
  let s := { s with flags := { s.flags with SESSION_PASV := false, SESSION_PORT := false } }
  if !env.strdup_ok then ftp_send_response s 425 (strerror .ENOMEM ++ "\r\n".toList)
  else
    let r := PORT_commas args 0
    let addrstr := r.1
    let commas := r.2.2
    if commas ≠ 5 then ftp_send_response s 501 (strerror .EINVAL ++ "\r\n".toList)
    else
      match inet_aton addrstr with
      | none => ftp_send_response s 501 (strerror .EINVAL ++ "\r\n".toList)
      | some sin_addr =>
        match PORT_loop w (r.2.1.getD []) true 0 0 with
        | none => ftp_send_response s 501 (strerror .EINVAL ++ "\r\n".toList)
        | some (val, port) =>
          if val > 0xFF ∨ port > 0xFF then
            ftp_send_response s 501 (strerror .EINVAL ++ "\r\n".toList)
          else
            let port := to_short (to_short (port * 256) + val)
            -- htons takes the value as a 16-bit unsigned number
            let addr : sockaddr_in := { sin_addr := sin_addr, sin_port := (port % 65536).toNat }
            let s := { s with peer_addr := addr }
            let s := { s with flags := { s.flags with SESSION_PORT := true } }
            ftp_send_response s 200 "OK\r\n".toList

def PWD (s : ftp_session_t) (_args : List Char) : ftp_session_t :=
  let s := ftp_session_set_state s .COMMAND_STATE
  ftp_send_response s 257 ('"' :: s.cwd ++ "\"\r\n".toList)

def QUIT (s : ftp_session_t) (_args : List Char) : ftp_session_t :=
  let s := ftp_send_response s 221 "disconnecting\r\n".toList
  ftp_session_close_cmd s

def REST (s : ftp_session_t) (_args : List Char) : ftp_session_t :=
  let s := ftp_session_set_state s .COMMAND_STATE
  ftp_send_response s 502 "unavailable\r\n".toList

/-- open file for reading for ftp session -/
def ftp_session_open_file_read (env : Env) (s : ftp_session_t) : Int × ftp_session_t :=
  if !env.fopen_ok then (-1, { s with handle := .null })
  else
    let s := { s with handle := .file_rb env.file_bytes }
    if env.fstat_rc ≠ 0 then (-1, ftp_session_close_file s)
    else (0, { s with filesize := env.fstat_size, filepos := 0 })

def RETR (fuel : Nat) (env : Env) (s : ftp_session_t) (args : List Char) :
    Option ftp_session_t :=
  match build_path fuel s args with
  | none => none
  | some (.error e, s) =>
    let s := ftp_session_set_state s .COMMAND_STATE
    some (ftp_send_response s 553 (strerror e ++ "\r\n".toList))
  | some (.ok _, s) =>
    let (rc, s) := ftp_session_open_file_read env s
    if rc ≠ 0 then
      let s := ftp_session_set_state s .COMMAND_STATE
      some (ftp_send_response s 450 "failed to open file\r\n".toList)
    else if s.flags.SESSION_PORT then
      let s := ftp_session_set_state s .DATA_TRANSFER_STATE
      let (rc, s) := ftp_session_connect env s
      if rc ≠ 0 then
        let s := ftp_session_set_state s .COMMAND_STATE
        some (ftp_send_response s 425 "can't open data connection\r\n".toList)
      else
        let s := { s with flags := { s.flags with SESSION_RECV := false, SESSION_SEND := true } }
        let s := { s with transfer := some .retrieve_transfer, bufferpos := 0, buffersize := 0 }
        some (ftp_send_response s 150 "Ready\r\n".toList)
    else if s.flags.SESSION_PASV then
      let s := { s with flags := { s.flags with SESSION_RECV := false, SESSION_SEND := true } }
      let s := { s with transfer := some .retrieve_transfer, bufferpos := 0, buffersize := 0 }
      some (ftp_session_set_state s .DATA_CONNECT_STATE)
    else
      let s := ftp_session_set_state s .COMMAND_STATE
      some (ftp_send_response s 503 "Bad sequence of commands\r\n".toList)

def RMD (fuel : Nat) (env : Env) (s : ftp_session_t) (args : List Char) :
    Option ftp_session_t :=
  let s := ftp_session_set_state s .COMMAND_STATE
  match build_path fuel s args with
  | none => none
  | some (.error e, s) => some (ftp_send_response s 553 (strerror e ++ "\r\n".toList))
  | some (.ok _, s) =>
    if env.rmdir_rc ≠ 0 then
      some (ftp_send_response s 550 "failed to delete directory\r\n".toList)
    else
      let s := { s with events := s.events ++ [Event.fs_rmdir s.buffer] }
      some (ftp_send_response s 250 "OK\r\n".toList)

def RNFR (fuel : Nat) (env : Env) (s : ftp_session_t) (args : List Char) :
    Option ftp_session_t :=
  let s := ftp_session_set_state s .COMMAND_STATE
  match build_path fuel s args with
  | none => none
  | some (.error e, s) => some (ftp_send_response s 553 (strerror e ++ "\r\n".toList))
  | some (.ok _, s) =>
    if env.lstat_rc ≠ 0 then
      some (ftp_send_response s 450 "no such file or directory\r\n".toList)
    else
      let s := { s with flags := { s.flags with SESSION_RENAME := true } }
      some (ftp_send_response s 350 "OK\r\n".toList)

def RNTO (fuel : Nat) (env : Env) (s : ftp_session_t) (args : List Char) :
    Option ftp_session_t :=
  let s := ftp_session_set_state s .COMMAND_STATE
  if !s.flags.SESSION_RENAME then
    some (ftp_send_response s 503 "Bad sequence of commands\r\n".toList)
  else
    let s := { s with flags := { s.flags with SESSION_RENAME := false } }
    let s := { s with tmp_buffer := s.buffer }
    match build_path fuel s args with
    | none => none
    | some (.error e, s) => some (ftp_send_response s 554 (strerror e ++ "\r\n".toList))
    | some (.ok _, s) =>
      if env.rename_rc ≠ 0 then
        some (ftp_send_response s 550 "failed to rename file/directory\r\n".toList)
      else
        let s := { s with events := s.events ++ [Event.fs_rename s.tmp_buffer s.buffer] }
        some (ftp_send_response s 250 "OK\r\n".toList)

/-- open file for writing for ftp session; a successful `fopen(.., "wb")`
creates or truncates the file. -/
def ftp_session_open_file_write (env : Env) (s : ftp_session_t) : Int × ftp_session_t :=
  if !env.fopen_ok then (-1, { s with handle := .null })
  else
    (0, { s with
          handle := .file_wb s.buffer
          events := s.events ++ [Event.fs_create s.buffer]
          filepos := 0 })

def STOR (fuel : Nat) (env : Env) (s : ftp_session_t) (args : List Char) :
    Option ftp_session_t :=
  match build_path fuel s args with
  | none => none
  | some (.error e, s) =>
    let s := ftp_session_set_state s .COMMAND_STATE
    some (ftp_send_response s 553 (strerror e ++ "\r\n".toList))
  | some (.ok _, s) =>
    let (rc, s) := ftp_session_open_file_write env s
    if rc ≠ 0 then
      let s := ftp_session_set_state s .COMMAND_STATE
      some (ftp_send_response s 450 "failed to open file\r\n".toList)
    else if s.flags.SESSION_PORT then
      let s := ftp_session_set_state s .DATA_TRANSFER_STATE
      let (rc, s) := ftp_session_connect env s
      if rc ≠ 0 then
        let s := ftp_session_set_state s .COMMAND_STATE
        some (ftp_send_response s 425 "can't open data connection\r\n".toList)
      else
        let s := { s with flags := { s.flags with SESSION_SEND := false, SESSION_RECV := true } }
        let s := { s with transfer := some .store_transfer, bufferpos := 0, buffersize := 0 }
        some (ftp_send_response s 150 "Ready\r\n".toList)
    else if s.flags.SESSION_PASV then
      let s := { s with flags := { s.flags with SESSION_SEND := false, SESSION_RECV := true } }
      let s := { s with transfer := some .store_transfer, bufferpos := 0, buffersize := 0 }
      some (ftp_session_set_state s .DATA_CONNECT_STATE)
    else
      let s := ftp_session_set_state s .COMMAND_STATE
      some (ftp_send_response s 503 "Bad sequence of commands\r\n".toList)

def STOU (s : ftp_session_t) (_args : List Char) : ftp_session_t :=
  let s := ftp_session_set_state s .COMMAND_STATE
  ftp_send_response s 502 "unavailable\r\n".toList

def STRU (s : ftp_session_t) (args : List Char) : ftp_session_t :=
  let s := ftp_session_set_state s .COMMAND_STATE
  if strcasecmp args "F".toList = 0 then ftp_send_response s 200 "OK\r\n".toList
  else ftp_send_response s 504 "unavailable\r\n".toList

def SYST (s : ftp_session_t) (_args : List Char) : ftp_session_t :=
  let s := ftp_session_set_state s .COMMAND_STATE
  ftp_send_response s 215 "UNIX Type: L8\r\n".toList

def TYPE (s : ftp_session_t) (_args : List Char) : ftp_session_t :=
  let s := ftp_session_set_state s .COMMAND_STATE
  ftp_send_response s 200 "OK\r\n".toList

def USER (s : ftp_session_t) (_args : List Char) : ftp_session_t :=
  let s := ftp_session_set_state s .COMMAND_STATE
  ftp_send_response s 230 "OK\r\n".toList

/-! ## Command parser and dispatch -/

/-- The handlers a table entry can point to. -/
inductive handler_t
  | ALLO | APPE | CDUP | CWD | DELE | FEAT | LIST | MKD | MODE | NLST | NOOP
  | OPTS | PASS | PASV | PORT | PWD | QUIT | REST | RETR | RMD | RNFR | RNTO
  | STOR | STOU | STRU | SYST | TYPE | USER
  deriving DecidableEq

/-- ftp command descriptor -/
structure ftp_command_t where
  name : List Char
  handler : handler_t
  deriving DecidableEq

/-- The table `ftp_commands`, in the order of the source. -/
def ftp_commands : List ftp_command_t :=
  [ ⟨"ALLO".toList, .ALLO⟩, ⟨"APPE".toList, .APPE⟩, ⟨"CDUP".toList, .CDUP⟩,
    ⟨"CWD".toList, .CWD⟩, ⟨"DELE".toList, .DELE⟩, ⟨"FEAT".toList, .FEAT⟩,
    ⟨"LIST".toList, .LIST⟩, ⟨"MKD".toList, .MKD⟩, ⟨"MODE".toList, .MODE⟩,
    ⟨"NLST".toList, .NLST⟩, ⟨"NOOP".toList, .NOOP⟩, ⟨"OPTS".toList, .OPTS⟩,
    ⟨"PASS".toList, .PASS⟩, ⟨"PASV".toList, .PASV⟩, ⟨"PORT".toList, .PORT⟩,
    ⟨"PWD".toList, .PWD⟩, ⟨"QUIT".toList, .QUIT⟩, ⟨"REST".toList, .REST⟩,
    ⟨"RETR".toList, .RETR⟩, ⟨"RMD".toList, .RMD⟩, ⟨"RNFR".toList, .RNFR⟩,
    ⟨"RNTO".toList, .RNTO⟩, ⟨"STOR".toList, .STOR⟩, ⟨"STOU".toList, .STOU⟩,
    ⟨"STRU".toList, .STRU⟩, ⟨"SYST".toList, .SYST⟩, ⟨"TYPE".toList, .TYPE⟩,
    ⟨"USER".toList, .USER⟩, ⟨"XCUP".toList, .CDUP⟩, ⟨"XMKD".toList, .MKD⟩,
    ⟨"XPWD".toList, .PWD⟩, ⟨"XRMD".toList, .RMD⟩ ]

/-- number of ftp commands -/
def num_ftp_commands : Nat := ftp_commands.length

/-- compare ftp command descriptors; the key carries only a name. -/
def ftp_command_cmp (key : List Char) (c2 : ftp_command_t) : Int :=
  strcasecmp key c2.name

/-- The loop of library `bsearch` on the half-open range from `l` to `u`; each
turn shrinks the range, so `u - l + 1` turns of fuel are never used up. -/
def bsearch_loop (key : List Char) (base : List ftp_command_t) :
    Nat → Nat → Nat → Option ftp_command_t
  | 0, _, _ => none
  | fuel + 1, l, u =>
    if l < u then
      let idx := (l + u) / 2
      match base.get? idx with
      | none => none
      | some p =>
        let c := ftp_command_cmp key p
        if c < 0 then bsearch_loop key base fuel l idx
        else if c > 0 then bsearch_loop key base fuel (idx + 1) u
        else some p
    else none

/-- Library `bsearch` over the command table; `none` is the null result. -/
def bsearch (key : List Char) (base : List ftp_command_t) : Option ftp_command_t :=
  bsearch_loop key base (base.length + 1) 0 base.length

/-- Call through the `handler` pointer of a table entry. -/
def call_handler (w fuel : Nat) (env : Env) (h : handler_t) (s : ftp_session_t)
    (args : List Char) : Option ftp_session_t :=
  match h with
  | .ALLO => some (ALLO s args)
  | .APPE => some (APPE s args)
  | .CDUP => CDUP s args
  | .CWD => CWD fuel env s args
  | .DELE => DELE fuel env s args
  | .FEAT => some (FEAT s args)
  | .LIST => some (LIST env s args)
  | .MKD => MKD fuel env s args
  | .MODE => some (MODE s args)
  | .NLST => some (NLST s args)
  | .NOOP => some (NOOP s args)
  | .OPTS => some (OPTS s args)
  | .PASS => some (PASS s args)
  | .PASV => some (PASV env s args)
  | .PORT => some (PORT w env s args)
  | .PWD => some (PWD s args)
  | .QUIT => some (QUIT s args)
  | .REST => some (REST s args)
  | .RETR => RETR fuel env s args
  | .RMD => RMD fuel env s args
  | .RNFR => RNFR fuel env s args
  | .RNTO => RNTO fuel env s args
  | .STOR => STOR fuel env s args
  | .STOU => some (STOU s args)
  | .STRU => some (STRU s args)
  | .SYST => some (SYST s args)
  | .TYPE => some (TYPE s args)
  | .USER => some (USER s args)

/-- The command line in the receive buffer: the received bytes, of which the
last of 1024 is overwritten by the terminator, up to the first NUL, CR or LF. -/
def command_line (received : List Char) : List Char :=
  ((received.take CMD_BUFFERSIZE).take (CMD_BUFFERSIZE - 1)).takeWhile
    (fun c => c ≠ '\x00' ∧ c ≠ '\r' ∧ c ≠ '\n')

/-- The command name: the line up to its first white-space character. -/
def command_name (line : List Char) : List Char :=
  line.takeWhile (fun c => !isspace c)

/-- The argument string: what follows the white-space character that ends the
name, the empty string when there is none. -/
def command_args (line : List Char) : List Char :=
  (line.dropWhile (fun c => !isspace c)).drop 1

/-- read command for ftp session; `recv` is what `recv` on the command socket
delivers: `none` for an error, else the bytes (none of them for a closed
connection). -/
def ftp_session_read_command (w fuel : Nat) (recv : Option (List Char)) (env : Env)
    (s : ftp_session_t) : Option ftp_session_t :=
  match recv with
  | none => some (ftp_session_close_cmd s)
  | some received =>
    if (received.take CMD_BUFFERSIZE).length = 0 then some (ftp_session_close_cmd s)
    else
      let line := command_line received
      let name := command_name line
      let args := command_args line
      match bsearch name ftp_commands with
      | none =>
        some (ftp_send_response s 502
          ("invalid command -> ".toList ++ name ++ ' ' :: args ++ "\r\n".toList))
      | some command =>
        let s :=
          if strcasecmp command.name "RNTO".toList ≠ 0 then
            { s with flags := { s.flags with SESSION_RENAME := false } }
          else s
        call_handler w fuel env command.handler s args

/-! ## Session poll -/

/-- The `revents` bits of `poll`; `other` stands for any further bit. -/
structure revents_t where
  POLLIN : Bool
  POLLOUT : Bool
  POLLERR : Bool
  POLLHUP : Bool
  other : Bool
  deriving DecidableEq

/-- Everything the outside world contributes to one call of
`ftp_session_poll`. -/
structure PollIn where
  poll_rc : Int
  revents : revents_t
  recv : Option (List Char)
  env : Env
  xfer : List XferEnv
  deriving DecidableEq

/-- poll sockets for ftp session: the session as the `switch` leaves it.  The
caller destroys the session when `cmd_fd` is closed afterwards. -/
def ftp_session_poll (w fuel : Nat) (inp : PollIn) (s : ftp_session_t) :
    Option ftp_session_t :=
  if inp.poll_rc < 0 then some s
  else if inp.poll_rc > 0 then
    let r := inp.revents
    if r.POLLIN ∨ r.POLLOUT ∨ r.POLLERR ∨ r.POLLHUP ∨ r.other then
      match s.state with
      | .COMMAND_STATE =>
        if r.POLLERR ∨ r.POLLHUP then some (ftp_session_close_cmd s)
        else if r.POLLIN then ftp_session_read_command w fuel inp.recv inp.env s
        else some s
      | .DATA_CONNECT_STATE =>
        if r.POLLERR ∨ r.POLLHUP then
          let s := ftp_session_set_state s .COMMAND_STATE
          some (ftp_send_response s 426 "Data connection failed\r\n".toList)
        else if r.POLLIN then
          let (rc, s) := ftp_session_accept inp.env s
          if rc ≠ 0 then some (ftp_session_set_state s .COMMAND_STATE) else some s
        else some s
      | .DATA_TRANSFER_STATE =>
        if r.POLLERR ∨ r.POLLHUP then
          let s := ftp_session_set_state s .COMMAND_STATE
          some (ftp_send_response s 426 "Data connection failed\r\n".toList)
        else if r.POLLIN ∨ r.POLLOUT then ftp_session_transfer inp.xfer s
        else some s
    else some s
  else some s

/-- allocate new ftp session: the session-local part of `ftp_session_new`
(the links of the session list are not part of this record).  `junk` is the
content of the freshly allocated memory; `none` when no session comes to
exist or it is destroyed at once. -/
def ftp_session_new (env : Env) (junk : ftp_session_t) : Option ftp_session_t :=
  let new_fd := env.accept_rc
  if new_fd < 0 then none
  else if !env.malloc_ok then none
  else
    let s : ftp_session_t :=
      { junk with
        cwd := ['/']
        peer_addr := { junk.peer_addr with sin_addr := 0 }
        cmd_fd := new_fd
        pasv_fd := -1
        data_fd := -1
        flags := ⟨false, false, false, false, false, false⟩
        state := .COMMAND_STATE
        transfer := none
        events := [] }
    if env.getsockname_rc ≠ 0 then none
    else
      let s := { s with pasv_addr := env.sockname }
      let s := ftp_send_response s 200 "Hello!\r\n".toList
      if env.greeting_rc ≤ 0 then none else some s

/-- The life of one session under the server loop: one `ftp_session_poll` per
input, as long as the session is not destroyed (its `cmd_fd` is open). -/
def run (w fuel : Nat) : List PollIn → ftp_session_t → Option ftp_session_t
  | [], s => some s
  | inp :: rest, s =>
    if s.cmd_fd < 0 then none
    else
      match ftp_session_poll w fuel inp s with
      | none => none
      | some s1 => run w fuel rest s1

/-- A session state is reachable when a new session gets there by some
sequence of polls that all return. -/
def Reachable (w : Nat) (s : ftp_session_t) : Prop :=
  ∃ (fuel : Nat) (env : Env) (junk s0 : ftp_session_t) (inputs : List PollIn),
    ftp_session_new env junk = some s0 ∧ run w fuel inputs s0 = some s

/-! ## Path sandbox: what the specification says -/

/-- The specification's `..` component: a `/..` that ends the argument or is
followed by `/`. -/
def has_dotdot_component (args : List Char) : Prop :=
  ∃ pre post, args = pre ++ ['/', '.', '.'] ++ post ∧ (post = [] ∨ post.head? = some '/')

/-- The arguments the specification wants rejected with `EINVAL`. -/
def spec_rejects (args : List Char) : Prop :=
  ['/', '/'] <:+: args ∨ has_dotdot_component args

/-- A well-formed working directory: it begins with `/` and does not end in
`/` unless it is `/`. -/
def cwd_wf (cwd : List Char) : Prop :=
  cwd.head? = some '/' ∧ (cwd = ['/'] ∨ cwd.getLast? ≠ some '/')

instance (cwd : List Char) : Decidable (cwd_wf cwd) := by
  unfold cwd_wf
  exact inferInstance

/-- The joined path of the specification, before stripping. -/
def spec_unstripped (cwd args : List Char) : List Char :=
  if args.head? = some '/' then args
  else if cwd = ['/'] then '/' :: args
  else cwd ++ '/' :: args

/-- The resolved path of the specification: the joined path without its
trailing `/` characters, or `/` when nothing is left. -/
def spec_path (cwd args : List Char) : List Char :=
  let t := (spec_unstripped cwd args).rdropWhile (fun c => c = '/')
  if t = [] then ['/'] else t

/-- The components of a path: the texts between its `/` characters. -/
def path_components (path : List Char) : List (List Char) := path.splitOn '/'

/-! ## Sample inputs -/

/-- A session record with every field cleared. -/
def zero_session : ftp_session_t :=
  { cwd := [], peer_addr := ⟨0, 0⟩, pasv_addr := ⟨0, 0⟩, cmd_fd := 0, pasv_fd := 0,
    data_fd := 0, flags := ⟨false, false, false, false, false, false⟩,
    state := .COMMAND_STATE, transfer := none, buffer := [], tmp_buffer := [],
    bufferpos := 0, buffersize := 0, filepos := 0, filesize := 0, handle := .null,
    events := [] }

/-- An environment in which every call succeeds: a new socket gets descriptor
5, an accepted data connection descriptor 6, the local address is 127.0.0.1
port 5000, paths name directories, the directory opened is empty and so is
the file. -/
def env_ok : Env :=
  { socket_rc := 5, bind_rc := 0, listen_rc := 0, getsockname_rc := 0,
    sockname := ⟨2130706433, 5000⟩, connect_rc := 0, accept_rc := 6, fcntl_getfl := 0,
    fcntl_setfl := 0, strdup_ok := true, malloc_ok := true, greeting_rc := 10,
    stat_rc := 0, stat_kind := .directory, lstat_rc := 0, opendir_rc := some [],
    fopen_ok := true, fstat_rc := 0, fstat_size := 0, file_bytes := [],
    unlink_rc := 0, mkdir_rc := 0, rmdir_rc := 0, rename_rc := 0 }

/-- The environment in which the sample session is created: the accepted
command connection gets descriptor 4. -/
def env_new : Env := { env_ok with accept_rc := 4 }

/-- The session `ftp_session_new` creates in `env_new`. -/
def session0 : ftp_session_t :=
  { zero_session with
    cwd := ['/'], cmd_fd := 4, pasv_fd := -1, data_fd := -1,
    pasv_addr := ⟨2130706433, 5000⟩,
    events := [Event.cmd_send "200 Hello!\r\n".toList] }

/-- One poll in which the command socket is readable and delivers `line`. -/
def poll_line (env : Env) (line : String) : PollIn :=
  { poll_rc := 1, revents := ⟨true, false, false, false, false⟩,
    recv := some line.toList, env := env, xfer := [] }

/-- The state a fresh session (`session0`) is in after the given polls, on a
platform with 32-bit `unsigned long`; `session0` itself if a poll does not
return. -/
def run0 (inputs : List PollIn) : ftp_session_t :=
  (run 32 1 inputs session0).getD session0

/-- The value of a decimal digit string read after the value `v`. -/
def digits_value (v : Nat) (ds : List Char) : Nat :=
  ds.foldl (fun v c => v * 10 + (c.toNat - '0'.toNat)) v

/-- The `PORT` argument `h1,h2,h3,h4,p1,p2`, each number written in decimal
without leading zeros (as `%u` prints it). -/
def PORT_args (h1 h2 h3 h4 p1 p2 : Nat) : List Char :=
  utoa h1 ++ ',' :: (utoa h2 ++ ',' :: (utoa h3 ++ ',' :: (utoa h4 ++
    ',' :: (utoa p1 ++ ',' :: utoa p2))))

/-- The IPv4 address `h1.h2.h3.h4` as a number. -/
def ipv4 (h1 h2 h3 h4 : Nat) : Nat := h1 * 2 ^ 24 + h2 * 2 ^ 16 + h3 * 2 ^ 8 + h4

/-- One poll in which the command socket is readable and delivers `bytes`. -/
def poll_bytes (env : Env) (bytes : List Char) : PollIn :=
  { poll_rc := 1, revents := ⟨true, false, false, false, false⟩,
    recv := some bytes, env := env, xfer := [] }

/-- The command line `CWD` followed by a blank and `args`, met by a filesystem
that says the path is a directory. -/
def cwd_line (args : List Char) : PollIn :=
  poll_bytes env_ok ('C' :: 'W' :: 'D' :: ' ' :: args)

/-- Six `CWD` commands with relative arguments: four times 1000 letters `a`,
then 90 letters `a`, then `b`. -/
def long_cwd_inputs : List PollIn :=
  [ cwd_line (List.replicate 1000 'a'), cwd_line (List.replicate 1000 'a'),
    cwd_line (List.replicate 1000 'a'), cwd_line (List.replicate 1000 'a'),
    cwd_line (List.replicate 90 'a'), cwd_line ['b'] ]

/-- A plain argument: a non-empty text of letters `a` and `b`. -/
def plain (args : List Char) : Prop := args ≠ [] ∧ ∀ c ∈ args, c = 'a' ∨ c = 'b'

/-! ## Invariants -/

/-- The descriptor discipline the code maintains.  In Command state the data
socket is closed and the listener is open only while `SESSION_PASV` is set; in
DataConnect state the data socket is closed; in DataTransfer state the data
socket is open and the listener is closed. -/
def fd_inv (s : ftp_session_t) : Prop :=
  (s.state = .COMMAND_STATE →
    s.data_fd < 0 ∧ (0 ≤ s.pasv_fd → s.flags.SESSION_PASV = true)) ∧
  (s.state = .DATA_CONNECT_STATE → s.data_fd < 0) ∧
  (s.state = .DATA_TRANSFER_STATE → 0 ≤ s.data_fd ∧ s.pasv_fd < 0)

/-- One poll in which the listener or the data socket is ready and the
transfer routine gets the given answers. -/
def poll_ready (env : Env) (xfer : List XferEnv) : PollIn :=
  { poll_rc := 1, revents := ⟨true, true, false, false, false⟩,
    recv := none, env := env, xfer := xfer }

/-- The invariant of the working directory: well formed and without `//`. -/
def cwd_ok (cwd : List Char) : Prop := cwd_wf cwd ∧ ¬ ['/', '/'] <:+: cwd

/-! ## Listing lines: what the specification says -/

/-- The listing line as the specification writes it, with the words
`owner group` in the place of owner and group. -/
def spec_list_line (dent : dirent) : List Char :=
  (if dent.st_kind = .directory then 'd' else if dent.st_kind = .symlink then 'l' else '-') ::
  ("rwxrwxrwx 1 owner group ".toList ++ utoa dent.st_size ++ " Jan 1 1970 ".toList
    ++ dent.d_name ++ "\r\n".toList)

/-! ## More sample inputs -/

/-- A regular file `f` of 5 bytes as a directory entry. -/
def entry_f : dirent := ⟨['f'], 0, .regular, 5⟩

/-- An environment like `env_ok` in which the directory opened holds the
entry `f` and the file opened holds the bytes `abc`. -/
def env_files : Env :=
  { env_ok with opendir_rc := some [entry_f], file_bytes := ['a', 'b', 'c'], fstat_size := 3 }

/-- One poll that reports the given `revents` bits and nothing to read. -/
def poll_revents (r : revents_t) : PollIn :=
  { poll_rc := 1, revents := r, recv := none, env := env_ok, xfer := [] }

/-- The session as a transfer routine leaves it when it ends the transfer. -/
def transfer_closed (s1 : ftp_session_t) : Prop :=
  s1.state = .COMMAND_STATE ∧ s1.handle = .null ∧ s1.flags.SESSION_RECV = false ∧
    s1.flags.SESSION_SEND = false

/-! ## The command buffer, byte by byte -/

/-- The static `buffer` of `ftp_session_read_command` after `memset`, after
`recv` has stored the received bytes (at most `CMD_BUFFERSIZE` of them) and
after `buffer[sizeof(buffer)-1] = 0`. -/
def recv_buffer (received : List Char) : List Char :=
  let got := received.take CMD_BUFFERSIZE
  (got ++ List.replicate (CMD_BUFFERSIZE - got.length) '\x00').set (CMD_BUFFERSIZE - 1) '\x00'

/-- The loop `while(*args && *args != '\r' && *args != '\n') ++args;` and the
store `*args = 0` behind it: the buffer with the terminator where the loop
stops. -/
def cut_line : List Char → List Char
  | [] => []
  | c :: cs =>
    if c ≠ '\x00' ∧ c ≠ '\r' ∧ c ≠ '\n' then c :: cut_line cs else '\x00' :: cs

/-- The loop `while(*args && !isspace((int)*args)) ++args;` and the statement
`if(*args) *args++ = 0;` behind it: the buffer after the store, and what the
pointer `args` points to in the end. -/
def split_args : List Char → List Char × List Char
  | [] => ([], [])
  | c :: cs =>
    if c ≠ '\x00' ∧ isspace c = false then
      let r := split_args cs
      (c :: r.1, r.2)
    else if c ≠ '\x00' then ('\x00' :: cs, cs)
    else (c :: cs, c :: cs)

/-- The C string a pointer points to: the bytes before the first NUL. -/
def c_string (p : List Char) : List Char := p.takeWhile (fun c => c ≠ '\x00')

/-- The command name (`key.name`, the string at the start of the buffer) and
the argument string (`args`) that `ftp_session_read_command` hands on. -/
def read_command_split (received : List Char) : List Char × List Char :=
  let r := split_args (cut_line (recv_buffer received))
  (c_string r.1, c_string r.2)

/-- The line in the words of the specification: the received bytes up to the
first CR, LF or NUL, capped at 1023 bytes. -/
def spec_line (received : List Char) : List Char :=
  (received.takeWhile (fun c => c ≠ '\r' ∧ c ≠ '\n' ∧ c ≠ '\x00')).take 1023

/-! ## Replies -/

/-- The replies sent on the command channel so far. -/
def replies (s : ftp_session_t) : List (List Char) :=
  s.events.filterMap (fun e => match e with
    | .cmd_send b => some b
    | _ => none)

/-- Between `s` and `s1` exactly one reply was sent. -/
def one_reply (s s1 : ftp_session_t) : Prop := ∃ r, replies s1 = replies s ++ [r]

/-- The rule for `LIST`, `RETR` and `STOR`: no reply when the handler has
entered DataConnect state (the passive route), one reply otherwise. -/
def transfer_reply (s s1 : ftp_session_t) : Prop :=
  (s1.state = .DATA_CONNECT_STATE ∧ replies s1 = replies s) ∨
    (s1.state ≠ .DATA_CONNECT_STATE ∧ one_reply s s1)

/-! ## The peer and the filesystem during a transfer -/

/-- One turn of the outside world during a transfer: whether the socket call
of the turn would block, and how many bytes the socket call (`n`) and the file
call (`m`) handle at most. -/
structure turn_t where
  block : Bool
  n : Nat
  m : Nat
  deriving DecidableEq

/-- The count a call returns that is offered `len` bytes and handles at most
`n` of them: at least 1 and, for `len > 0`, at most `len`. -/
def clamp (n len : Nat) : Nat := max 1 (min n len)

/-- The answer of `send` in a turn to a request of `len` bytes: it would
block, or it takes between 1 and `len` bytes. -/
def send_answers (t : turn_t) (len : Nat) : XferEnv :=
  { send_rc := if t.block then -1 else ((clamp t.n len : Nat) : Int)
    errno_wouldblock := t.block
    recv_rc := 0, recv_bytes := [], fread_rc := 0, fwrite_rc := 0 }

/-- The number of bytes the next call of `list_transfer` offers to `send`. -/
def list_window (s : ftp_session_t) : Nat :=
  if s.bufferpos = s.buffersize then
    match s.handle with
    | .dir (dent :: _) => (list_line dent).length
    | _ => 0
  else s.buffersize - s.bufferpos

/-- The answers to one call of `list_transfer`. -/
def list_answers (t : turn_t) (w : Unit) (s : ftp_session_t) : XferEnv × Unit :=
  (send_answers t (list_window s), w)

/-- The number of bytes `fread` delivers in a turn: none at the end of the
file, else between 1 and what the buffer and the file hold. -/
def fread_count (t : turn_t) (s : ftp_session_t) : Nat :=
  match s.handle with
  | .file_rb rest => if rest = [] then 0 else clamp t.m (min XFER_BUFFERSIZE rest.length)
  | _ => 0

/-- The answers to one call of `retrieve_transfer`. -/
def retrieve_answers (t : turn_t) (w : Unit) (s : ftp_session_t) : XferEnv × Unit :=
  if s.bufferpos = s.buffersize then
    ({ send_answers t (fread_count t s) with fread_rc := fread_count t s }, w)
  else (send_answers t (s.buffersize - s.bufferpos), w)

/-- The answers to one call of `store_transfer`; `b` is what the peer has
still to send before it closes the connection, the second component what is
left of it afterwards.  `recv` would block, or reports the closed connection
when nothing is left, or delivers between 1 and `XFER_BUFFERSIZE` of the
bytes; `fwrite` writes between 1 and all of the bytes it is given. -/
def store_answers (t : turn_t) (b : List Char) (s : ftp_session_t) : XferEnv × List Char :=
  if s.bufferpos = s.buffersize then
    if t.block then
      ({ send_rc := 0, errno_wouldblock := true, recv_rc := -1, recv_bytes := [],
         fread_rc := 0, fwrite_rc := 0 }, b)
    else if b = [] then
      ({ send_rc := 0, errno_wouldblock := false, recv_rc := 0, recv_bytes := [],
         fread_rc := 0, fwrite_rc := 0 }, b)
    else
      let k := clamp t.n (min XFER_BUFFERSIZE b.length)
      ({ send_rc := 0, errno_wouldblock := false, recv_rc := (k : Int),
         recv_bytes := b.take k, fread_rc := 0, fwrite_rc := clamp t.m k }, b.drop k)
  else
    ({ send_rc := 0, errno_wouldblock := false, recv_rc := 0, recv_bytes := [],
       fread_rc := 0, fwrite_rc := clamp t.m (s.buffersize - s.bufferpos) }, b)

/-- The calls of the transfer routine one after the other, as the loop of
`ftp_session_transfer` and the polls that follow a would-block return make
them, one turn of the outside world per call, until the routine has left
DataTransfer state.  `none` when the turns are used up before that or a call
does not return. -/
def transfer_run {σ : Type} (answers : turn_t → σ → ftp_session_t → XferEnv × σ) :
    List turn_t → σ → ftp_session_t → Option ftp_session_t
  | [], _, s => if s.state = .DATA_TRANSFER_STATE then none else some s
  | t :: ts, w, s =>
    if s.state = .DATA_TRANSFER_STATE then
      match call_transfer (answers t w s).1 s with
      | none => none
      | some (_, s1) => transfer_run answers ts (answers t w s).2 s1
    else some s

/-- The number of turns in which the socket call does not block. -/
def unblocked (turns : List turn_t) : Nat := (turns.filter (fun t => !t.block)).length

/-- The entries of a directory other than `.` and `..`. -/
def listed (entries : List dirent) : List dirent :=
  entries.filter (fun d => ¬ (d.d_name = ['.'] ∨ d.d_name = ['.', '.']))

/-- The bytes of the window between `bufferpos` and `buffersize`. -/
def pending (s : ftp_session_t) : List Char :=
  (s.buffer.drop s.bufferpos).take (s.buffersize - s.bufferpos)

/-- A session as `LIST`, `RETR` or `STOR` leaves it on the way into a
transfer: in DataTransfer state, with the transfer routine set and an empty
window. -/
def armed (tr : transfer_t) (s : ftp_session_t) : Prop :=
  s.state = .DATA_TRANSFER_STATE ∧ s.transfer = some tr ∧ s.bufferpos = s.buffersize

/-- An environment like `env_ok` in which the directory opened holds `.`,
`..` and the entry `f`. -/
def env_list : Env :=
  { env_ok with
    opendir_rc := some [⟨['.'], 0, .directory, 0⟩, ⟨['.', '.'], 0, .directory, 0⟩, entry_f] }

/-- A session armed by `PORT` and `LIST` in a directory that holds `.`, `..`
and `f`. -/
def list_session : ftp_session_t :=
  run0 [poll_line env_ok "PORT 127,0,0,1,0,20\r\n", poll_line env_list "LIST\r\n"]

/-- A session armed by `PORT` and `STOR f`. -/
def store_session : ftp_session_t :=
  run0 [poll_line env_ok "PORT 127,0,0,1,0,20\r\n", poll_line env_ok "STOR f\r\n"]

/-- A session armed by `PORT` and `RETR f`, the file holding `abc`. -/
def retrieve_session : ftp_session_t :=
  run0 [poll_line env_ok "PORT 127,0,0,1,0,20\r\n", poll_line env_files "RETR f\r\n"]

/-- One turn in which the socket would block, then `k` turns in which the
socket call handles up to `n` bytes and the file call up to `m`. -/
def sample_turns (k n m : Nat) : List turn_t := ⟨true, 0, 0⟩ :: List.replicate k ⟨false, n, m⟩

/-! ## The window of the work buffer -/

/-- Longest name `readdir` returns: the field `d_name` of `struct dirent` is an
array of `NAME_MAX + 1` bytes. -/
def NAME_MAX : Nat := 255

/-- What the C types say about a directory entry: the name fits `d_name` and
the size is an `unsigned long long`. -/
def dirent_fits (d : dirent) : Prop := d.d_name.length ≤ NAME_MAX ∧ d.st_size < 2 ^ 64

instance (d : dirent) : Decidable (dirent_fits d) := by
  unfold dirent_fits
  exact inferInstance

/-- Every entry the open directory has still to return fits its C type. -/
def handle_fits (s : ftp_session_t) : Prop :=
  match s.handle with
  | .dir rest => ∀ d ∈ rest, dirent_fits d
  | _ => True

instance (s : ftp_session_t) : Decidable (handle_fits s) := by
  unfold handle_fits
  cases s.handle <;> exact inferInstance

/-- The window lies in the work buffer: `bufferpos <= buffersize <=
sizeof(buffer)`. -/
def window_inv (s : ftp_session_t) : Prop :=
  s.bufferpos ≤ s.buffersize ∧ s.buffersize ≤ XFER_BUFFERSIZE

/-- The session at the moment one call of the transfer routine gets to its
`send` (`list_transfer`, `retrieve_transfer`) or `fwrite` (`store_transfer`):
the call is handed `buffer + bufferpos` and `buffersize - bufferpos` of this
session.  `none` when the call returns before it gets there. -/
def transfer_io_state (e : XferEnv) (s : ftp_session_t) : Option ftp_session_t :=
  match s.transfer with
  | none => none
  | some .list_transfer =>
    if s.bufferpos = s.buffersize then
      match s.handle with
      | .dir (dent :: rest) =>
        if dent.d_name = ['.'] ∨ dent.d_name = ['.', '.'] then none
        else if dent.lstat_rc ≠ 0 then none
        else
          let line := list_line dent
          some { s with
                 handle := .dir rest, buffer := line, buffersize := line.length, bufferpos := 0 }
      | _ => none
    else some s
  | some .retrieve_transfer =>
    if s.bufferpos = s.buffersize then
      match ftp_session_read_file e s with
      | none => none
      | some (rc, s) =>
        if rc ≤ 0 then none else some { s with bufferpos := 0, buffersize := rc.toNat }
    else some s
  | some .store_transfer =>
    if s.bufferpos = s.buffersize then
      if e.recv_rc ≤ 0 then none
      else some { s with buffer := e.recv_bytes, bufferpos := 0, buffersize := e.recv_rc.toNat }
    else some s

/-- The second half of the transfer routine `tr`: the call of `send` or
`fwrite` and what follows it. -/
def transfer_io (tr : transfer_t) (e : XferEnv) (s : ftp_session_t) : Int × ftp_session_t :=
  match tr with
  | .list_transfer => list_transfer_send e s
  | .retrieve_transfer => retrieve_transfer_send e s
  | .store_transfer => store_transfer_write e s

/-- Each library call of one call of the transfer routine returns at most the
count it was asked for: `recv` and `fread` at most `sizeof(buffer)`, `send` and
`fwrite` at most `buffersize - bufferpos`. -/
def answers_bounded (e : XferEnv) (s : ftp_session_t) : Prop :=
  e.recv_rc ≤ (XFER_BUFFERSIZE : Int) ∧ e.fread_rc ≤ XFER_BUFFERSIZE ∧
    match transfer_io_state e s with
    | none => True
    | some s1 =>
      e.send_rc ≤ ((s1.buffersize - s1.bufferpos : Nat) : Int) ∧
        e.fwrite_rc ≤ s1.buffersize - s1.bufferpos

instance (e : XferEnv) (s : ftp_session_t) : Decidable (answers_bounded e s) := by
  unfold answers_bounded
  cases transfer_io_state e s <;> exact inferInstance

/-- Successive calls of the transfer routine, one per answer, whatever each
of them returns; `none` when a call does not return. -/
def transfer_calls : List XferEnv → ftp_session_t → Option ftp_session_t
  | [], s => some s
  | e :: es, s =>
    match call_transfer e s with
    | none => none
    | some (_, s1) => transfer_calls es s1

/-- The answers to the successive calls are all bounded. -/
def calls_bounded : List XferEnv → ftp_session_t → Prop
  | [], _ => True
  | e :: es, s =>
    answers_bounded e s ∧
      match call_transfer e s with
      | none => True
      | some (_, s1) => calls_bounded es s1

/-- Whether the answers are all bounded can be computed. -/
def calls_bounded_dec : ∀ (es : List XferEnv) (s : ftp_session_t), Decidable (calls_bounded es s)
  | [], _ => isTrue trivial
  | e :: es, s => by
    unfold calls_bounded
    cases call_transfer e s with
    | none => exact inferInstance
    | some p =>
      have := calls_bounded_dec es p.2
      exact inferInstance

instance (es : List XferEnv) (s : ftp_session_t) : Decidable (calls_bounded es s) :=
  calls_bounded_dec es s

/-- One answer to a call of a transfer routine: `send` takes 10 bytes. -/
def send_ten : XferEnv :=
  { send_rc := 10, recv_rc := 0, recv_bytes := [], errno_wouldblock := false, fread_rc := 0,
    fwrite_rc := 0 }

/-! ## The session list -/

/-- One allocated `ftp_session_t`: the session record together with its links
`next` and `prev`.  A pointer to a session is the address of its node, `none`
is the null pointer. -/
structure node_t where
  session : ftp_session_t
  next : Option Nat
  prev : Option Nat

/-- The memory that holds the sessions (`none`: no session is allocated at the
address) and the global `sessions`, the head of the list. -/
structure list_state where
  heap : Nat → Option node_t
  sessions : Option Nat

/-- The store `p->next = v`; `none` when no session is allocated at `p`. -/
def store_next (st : list_state) (p : Nat) (v : Option Nat) : Option list_state :=
  match st.heap p with
  | none => none
  | some node =>
    some { st with heap := Function.update st.heap p (some { node with next := v }) }

/-- The store `p->prev = v`; `none` when no session is allocated at `p`. -/
def store_prev (st : list_state) (p : Nat) (v : Option Nat) : Option list_state :=
  match st.heap p with
  | none => none
  | some node =>
    some { st with heap := Function.update st.heap p (some { node with prev := v }) }

/-- The `else` branch of the unlinking in `ftp_session_destroy`:
`session->prev->next = session->next; if(session == sessions->prev)
sessions->prev = session->prev;`.  Every pointer is read from memory at the
moment it is used. -/
def ftp_session_destroy_inner (st : list_state) (session : Nat) : Option list_state :=
  match st.heap session with
  | none => none
  | some node =>
    match node.prev with
    | none => none
    | some pr =>
      match store_next st pr node.next with
      | none => none
      | some st =>
        match st.sessions with
        | none => none
        | some head =>
          match st.heap head, st.heap session with
          | some hnode, some node =>
            if hnode.prev = some session then store_prev st head node.prev else some st
          | _, _ => none

/-- The block `close all sockets` of `ftp_session_destroy`. -/
def ftp_session_destroy_close (s : ftp_session_t) : ftp_session_t :=
  let s := if s.cmd_fd ≥ 0 then ftp_session_close_cmd s else s
  let s := if s.pasv_fd ≥ 0 then ftp_session_close_pasv s else s
  if s.data_fd ≥ 0 then ftp_session_close_data s else s

/-- destroy ftp session: the memory afterwards and the pointer returned;
`none` when a pointer is followed at which no session is allocated. -/
def ftp_session_destroy (st : list_state) (session : Nat) :
    Option (list_state × Option Nat) :=
  match st.heap session with
  | none => none
  | some node =>
    let next := node.next
    -- close all sockets
    let s := ftp_session_destroy_close node.session
    let st := { st with
                heap := Function.update st.heap session (some { node with session := s }) }
    -- unlink from sessions list
    match (match node.next with
           | some n => store_prev st n node.prev
           | none => some st) with
    | none => none
    | some st =>
      match (if st.sessions = some session then
               match st.heap session with
               | none => none
               | some node => some { st with sessions := node.next }
             else ftp_session_destroy_inner st session) with
      | none => none
      | some st =>
        -- deallocate
        some ({ st with heap := Function.update st.heap session none }, next)

/-- The block `link to the sessions list` of `ftp_session_new` for the new
session at the address `session`. -/
def ftp_session_new_link (st : list_state) (session : Nat) : Option list_state :=
  match st.sessions with
  | none => store_prev { st with sessions := some session } session (some session)
  | some head =>
    match st.heap head with
    | none => none
    | some hnode =>
      match hnode.prev with
      | none => none
      | some tail =>
        match store_next st tail (some session) with
        | none => none
        | some st =>
          match st.heap head with
          | none => none
          | some hnode =>
            match store_prev st session hnode.prev with
            | none => none
            | some st => store_prev st head (some session)

/-- The session list is well formed and holds the sessions at the addresses
`ids`, in this order: no address occurs twice, `sessions` is the first address
(null for the empty list), and the node at each address is allocated, its
`next` is the address after it (null for the last) and its `prev` the address
before it (the last address for the first node). -/
def wf_list (st : list_state) (ids : List Nat) : Prop :=
  ids.Nodup ∧ st.sessions = ids.head? ∧
    ∀ i a, ids[i]? = some a → ∃ node, st.heap a = some node ∧ node.next = ids[i + 1]? ∧
      node.prev = if i = 0 then ids.getLast? else ids[i - 1]?

/-- A change of the fields of the session at `p` other than its links; `none`
when no session is allocated at `p`. -/
def with_session (st : list_state) (p : Nat) (f : ftp_session_t → ftp_session_t) :
    Option list_state :=
  match st.heap p with
  | none => none
  | some node =>
    some { st with
           heap := Function.update st.heap p (some { node with session := f node.session }) }

/-- allocate new ftp session, with the session list.  `a` is the address
`malloc` returns when it succeeds and `junk` the content of the memory there.
The fields of the new session are those of `ftp_session_new`. -/
def ftp_session_new_in_list (env : Env) (junk : ftp_session_t) (a : Nat) (st : list_state) :
    Option list_state :=
  let new_fd := env.accept_rc
  if new_fd < 0 then some st
  else if !env.malloc_ok then some st
  else
    -- initialize session
    let s : ftp_session_t :=
      { junk with
        cwd := ['/']
        peer_addr := { junk.peer_addr with sin_addr := 0 }
        cmd_fd := new_fd
        pasv_fd := -1
        data_fd := -1
        flags := ⟨false, false, false, false, false, false⟩
        state := .COMMAND_STATE
        transfer := none
        events := [] }
    let st := { st with
                heap := Function.update st.heap a (some { session := s, next := none, prev := none }) }
    -- link to the sessions list
    match ftp_session_new_link st a with
    | none => none
    | some st =>
      -- copy socket address to pasv address
      if env.getsockname_rc ≠ 0 then
        match with_session st a
            (fun s => ftp_send_response s 451 "Failed to get connection info\r\n".toList) with
        | none => none
        | some st => (ftp_session_destroy st a).map Prod.fst
      else
        match with_session st a
            (fun s => ftp_send_response { s with pasv_addr := env.sockname }
              200 "Hello!\r\n".toList) with
        | none => none
        | some st =>
          if env.greeting_rc ≤ 0 then (ftp_session_destroy st a).map Prod.fst else some st

/-- poll sockets for ftp session, with the session list: the memory afterwards
and the next session.  The session at `session` is polled (`ftp_session_poll`
above); it is destroyed when its `cmd_fd` is closed afterwards. -/
def ftp_session_poll_in_list (w fuel : Nat) (inp : PollIn) (st : list_state) (session : Nat) :
    Option (list_state × Option Nat) :=
  match st.heap session with
  | none => none
  | some node =>
    match ftp_session_poll w fuel inp node.session with
    | none => none
    | some s =>
      let st := { st with
                  heap := Function.update st.heap session (some { node with session := s }) }
      -- still connected to peer; return next session
      if s.cmd_fd ≥ 0 then some (st, node.next)
      -- disconnected from peer; destroy it and return next session
      else ftp_session_destroy st session

/-- The loop `while(session != NULL) session = ftp_session_poll(session);` of
`ftp_loop`, with at most `n` turns.  `polls a` is what the outside world
contributes to the poll of the session at `a`; the last argument and the second
component of the result are the ghost record of the sessions polled so far, in
the order of the calls.  `none` when a poll does not return or `n` turns do not
suffice. -/
def ftp_loop_walk (w fuel : Nat) (polls : Nat → PollIn) :
    Nat → list_state → Option Nat → List Nat → Option (list_state × List Nat)
  | _, st, none, polled => some (st, polled)
  | 0, _, some _, _ => none
  | n + 1, st, some session, polled =>
    match ftp_session_poll_in_list w fuel (polls session) st session with
    | none => none
    | some (st, next) => ftp_loop_walk w fuel polls n st next (polled ++ [session])

/-- Everything the outside world contributes to one call of `ftp_loop`: the
result of the poll of the listener, the answers for `ftp_session_new`, and the
inputs of the polls of the sessions. -/
structure LoopIn where
  poll_rc : Int
  POLLIN : Bool
  env : Env
  junk : ftp_session_t
  addr : Nat
  polls : Nat → PollIn

/-- `ftp_loop`: the return value, the memory afterwards and the sessions
polled, in the order of the calls. -/
def ftp_loop (w fuel n : Nat) (inp : LoopIn) (st : list_state) :
    Option (Int × list_state × List Nat) :=
  if inp.poll_rc < 0 then some (-1, st, [])
  else
    match (if inp.poll_rc > 0 ∧ inp.POLLIN then
             ftp_session_new_in_list inp.env inp.junk inp.addr st
           else some st) with
    | none => none
    | some st =>
      match ftp_loop_walk w fuel inp.polls n st st.sessions [] with
      | none => none
      | some (st, polled) => some (0, st, polled)

/-- The empty session list in an empty memory. -/
def no_sessions : list_state := { heap := fun _ => none, sessions := none }

/-- Following `next` from the pointer `p` visits exactly the allocated nodes
at the addresses `ids`, in this order, and ends in null. -/
def follows_next (heap : Nat → Option node_t) : Option Nat → List Nat → Prop
  | none, [] => True
  | some p, a :: rest => p = a ∧ ∃ node, heap a = some node ∧ follows_next heap node.next rest
  | _, _ => False

/-- Well-formedness in the words of the specification: the list is empty iff
the head is null; the head's `prev` is the tail; following `next` from the head
reaches every node and ends in null. -/
def spec_well_formed (st : list_state) (ids : List Nat) : Prop :=
  (ids = [] ↔ st.sessions = none) ∧
    (∀ h node, st.sessions = some h → st.heap h = some node → node.prev = ids.getLast?) ∧
    follows_next st.heap st.sessions ids

/-- A list of three sessions at the addresses 1, 2 and 3. -/
def three_sessions : list_state :=
  { heap := fun a =>
      if a = 1 then some ⟨session0, some 2, some 3⟩
      else if a = 2 then some ⟨session0, some 3, some 1⟩
      else if a = 3 then some ⟨session0, none, some 2⟩
      else none
    sessions := some 1 }

/-! ## One tick of the server loop -/

/-- The session record at the address `a`, if one is allocated there. -/
def session_at (st : list_state) (a : Nat) : Option ftp_session_t :=
  (st.heap a).map node_t.session

/-- Whether the session at `a` is still connected after its poll: the poll
returns and leaves `cmd_fd` open. -/
def survives (w fuel : Nat) (polls : Nat → PollIn) (st : list_state) (a : Nat) : Bool :=
  match session_at st a with
  | none => false
  | some s0 =>
    match ftp_session_poll w fuel (polls a) s0 with
    | none => false
    | some s => decide (0 ≤ s.cmd_fd)

/-- A list that holds one new session, at the address 1. -/
def one_session : list_state :=
  { heap := fun a => if a = 1 then some ⟨session0, none, some 1⟩ else none
    sessions := some 1 }

/-- One call of `ftp_loop` in which the listener is quiet and every session
polled receives the line `CWD /..a`. -/
def cwd_hang_tick : LoopIn :=
  { poll_rc := 0, POLLIN := false, env := env_ok, junk := zero_session, addr := 2,
    polls := fun _ => poll_line env_ok "CWD /..a\r\n" }

/-! # Theorems -/

/-! ## Facts about the library functions -/

theorem strstr_isPrefixOf {hay needle q : List Char} (h : strstr hay needle = some q) :
    needle.isPrefixOf q = true := by
  induction hay with
  | nil =>
    simp only [strstr] at h
    split at h
    · cases needle with
      | nil => simp_all
      | cons a as => simp at *
    · simp at h
  | cons c cs ih =>
    simp only [strstr] at h
    split at h
    · simp only [Option.some.injEq] at h
      subst h
      assumption
    · exact ih h

theorem strstr_self {needle q : List Char} (h : needle.isPrefixOf q = true) :
    strstr q needle = some q := by
  cases q with
  | nil =>
    cases needle with
    | nil => simp [strstr]
    | cons a as => simp at h
  | cons c cs => simp [strstr, h]

theorem strstr_suffix {hay needle q : List Char} (h : strstr hay needle = some q) :
    q <:+ hay := by
  induction hay with
  | nil =>
    simp only [strstr] at h
    split at h
    · simp only [Option.some.injEq] at h
      subst h
      exact List.suffix_refl _
    · simp at h
  | cons c cs ih =>
    simp only [strstr] at h
    split at h
    · simp only [Option.some.injEq] at h
      subst h
      exact List.suffix_refl _
    · exact (ih h).trans (List.suffix_cons c cs)

theorem strstr_eq_none_iff {hay needle : List Char} :
    strstr hay needle = none ↔ ¬ needle <:+: hay := by
  induction hay with
  | nil =>
    cases needle with
    | nil => simp [strstr]
    | cons a as => simp [strstr]
  | cons c cs ih =>
    simp only [strstr]
    split
    · rename_i hp
      simp only [reduceCtorEq, false_iff, not_not]
      exact (List.isPrefixOf_iff_prefix.mp hp).isInfix
    · rename_i hp
      rw [ih, List.infix_cons_iff]
      simp only [List.isPrefixOf_iff_prefix] at hp
      tauto

/-! ## Path sandbox: facts -/

theorem validate_path_scan_self_none {q rest : List Char} {c : Char}
    (hp : ['/', '.', '.'].isPrefixOf q = true) (hd : q.drop 3 = c :: rest) (hc : c ≠ '/') :
    ∀ fuel, validate_path_scan fuel q = none := by
  intro fuel
  induction fuel with
  | zero => rfl
  | succ n ih => simp [validate_path_scan, strstr_self hp, hd, hc, ih]

/-- Once `strstr` finds a `/..` that is followed by another character than
`/`, the loop of `validate_path` never ends: no fuel suffices. -/
theorem validate_path_scan_none_of_match {p q rest : List Char} {c : Char}
    (h : strstr p ['/', '.', '.'] = some q) (hd : q.drop 3 = c :: rest) (hc : c ≠ '/') :
    ∀ fuel, validate_path_scan fuel p = none := by
  intro fuel
  cases fuel with
  | zero => rfl
  | succ n =>
    simp [validate_path_scan, h, hd, hc,
      validate_path_scan_self_none (strstr_isPrefixOf h) hd hc n]

theorem validate_path_scan_eq_false {fuel : Nat} {p : List Char}
    (h : validate_path_scan fuel p = some false) : strstr p ['/', '.', '.'] = none := by
  cases fuel with
  | zero => simp [validate_path_scan] at h
  | succ n =>
    simp only [validate_path_scan] at h
    split at h
    · assumption
    · rename_i q hq
      split at h
      · simp at h
      · rename_i c rest hd
        split at h
        · simp at h
        · rename_i hc
          rw [validate_path_scan_self_none (strstr_isPrefixOf hq) hd hc n] at h
          simp at h

theorem validate_path_scan_eq_true {fuel : Nat} {p : List Char}
    (h : validate_path_scan fuel p = some true) :
    ∃ q, strstr p ['/', '.', '.'] = some q ∧
      (q.drop 3 = [] ∨ (q.drop 3).head? = some '/') := by
  cases fuel with
  | zero => simp [validate_path_scan] at h
  | succ n =>
    simp only [validate_path_scan] at h
    split at h
    · simp at h
    · rename_i q hq
      refine ⟨q, hq, ?_⟩
      split at h
      · left; assumption
      · rename_i c rest hd
        split at h
        · rename_i hc
          right
          simp [hd, hc]
        · rename_i hc
          rw [validate_path_scan_self_none (strstr_isPrefixOf hq) hd hc n] at h
          simp at h

theorem prefix_drop {pat q : List Char} (h : pat.isPrefixOf q = true) :
    q = pat ++ q.drop pat.length := by
  obtain ⟨t, rfl⟩ := List.isPrefixOf_iff_prefix.mp h
  simp

theorem has_dotdot_component_of_match {p q : List Char}
    (h : strstr p ['/', '.', '.'] = some q)
    (hd : q.drop 3 = [] ∨ (q.drop 3).head? = some '/') : has_dotdot_component p := by
  obtain ⟨pre, rfl⟩ := strstr_suffix h
  refine ⟨pre, q.drop 3, ?_, hd⟩
  have := prefix_drop (strstr_isPrefixOf h)
  simp only [List.length_cons, List.length_nil] at this
  rw [List.append_assoc, ← this]

theorem not_has_dotdot_component_of_none {p : List Char}
    (h : strstr p ['/', '.', '.'] = none) : ¬ has_dotdot_component p := by
  rintro ⟨pre, post, rfl, -⟩
  exact (strstr_eq_none_iff.mp h) ⟨pre, post, rfl⟩

/-- When `validate_path` returns, it returns -1 exactly on the arguments the
specification wants rejected. -/
theorem validate_path_spec {fuel : Nat} {args : List Char} {rc : Int}
    (h : validate_path fuel args = some rc) :
    (rc = -1 ∧ spec_rejects args) ∨ (rc = 0 ∧ ¬ spec_rejects args) := by
  simp only [validate_path] at h
  split at h
  · simp at h
  · rename_i hs
    obtain ⟨q, hq, hd⟩ := validate_path_scan_eq_true hs
    left
    simp only [Option.some.injEq] at h
    exact ⟨h.symm, Or.inr (has_dotdot_component_of_match hq hd)⟩
  · rename_i hs
    have hn := validate_path_scan_eq_false hs
    split at h
    · rename_i hsl
      left
      simp only [Option.some.injEq] at h
      refine ⟨h.symm, Or.inl ?_⟩
      by_contra hc
      rw [← strstr_eq_none_iff] at hc
      simp [hc] at hsl
    · rename_i hsl
      right
      simp only [Option.some.injEq] at h
      refine ⟨h.symm, ?_⟩
      rintro (hc | hc)
      · have : strstr args ['/', '/'] ≠ none := by
          rw [Ne, strstr_eq_none_iff]
          exact not_not.mpr hc
        cases hx : strstr args ['/', '/'] with
        | none => exact this hx
        | some v => simp [hx] at hsl
      · exact not_has_dotdot_component_of_none hn hc

/-- `validate_path` accepts an argument exactly when it holds neither `/..`
nor `//` anywhere (and there is fuel for one turn of the loop). -/
theorem validate_path_eq_zero_iff {fuel : Nat} {args : List Char} :
    validate_path fuel args = some 0 ↔
      fuel ≠ 0 ∧ strstr args ['/', '.', '.'] = none ∧ strstr args ['/', '/'] = none := by
  constructor
  · intro h
    have h0 := h
    simp only [validate_path] at h
    split at h
    · simp at h
    · simp at h
    · rename_i hs
      refine ⟨?_, validate_path_scan_eq_false hs, ?_⟩
      · rintro rfl
        simp [validate_path_scan] at hs
      · split at h
        · simp at h
        · rename_i hsl
          cases hx : strstr args ['/', '/'] with
          | none => rfl
          | some v => simp [hx] at hsl
  · rintro ⟨hf, h1, h2⟩
    obtain ⟨n, rfl⟩ := Nat.exists_eq_succ_of_ne_zero hf
    simp [validate_path, validate_path_scan, h1, h2]

/-- The stripping loop of `build_path` removes exactly the trailing `/`
characters. -/
theorem build_path_strip_eq (buffer : List Char) :
    build_path_strip buffer.length buffer = buffer.rdropWhile (fun c => c = '/') := by
  induction buffer using List.reverseRecOn with
  | nil => simp [build_path_strip, List.rdropWhile]
  | append_singleton l a ih =>
    simp only [List.length_append, List.length_singleton, build_path_strip,
      List.get?_eq_getElem?, List.getElem?_concat_length, Option.some.injEq]
    by_cases ha : a = '/'
    · subst ha
      simp only [↓reduceIte, List.take_left]
      rw [ih, List.rdropWhile_concat_pos]
      simp
    · simp only [ha, ↓reduceIte]
      rw [List.rdropWhile_concat_neg]
      simpa using ha

/-- What `build_path` does with an argument that `validate_path` accepts. -/
theorem build_path_of_valid {fuel : Nat} (s : ftp_session_t) {args : List Char}
    (hv : validate_path fuel args = some 0) :
    build_path fuel s args =
      if (spec_unstripped s.cwd args).length > 32767 then
        some (.error .ENAMETOOLONG,
          { s with buffer := if args.head? = some '/' then []
                             else (spec_unstripped s.cwd args).take 32767 })
      else some (.ok (), { s with buffer := spec_path s.cwd args }) := by
  unfold build_path
  simp only [hv, ne_eq, not_true_eq_false, ↓reduceIte, spec_path, spec_unstripped,
    XFER_BUFFERSIZE, List.length_eq_zero]
  by_cases hh : args.head? = some '/'
  · simp only [hh, ↓reduceIte]
    by_cases hl : args.length > 32767
    · rw [if_pos hl, if_pos hl]
    · rw [if_neg hl, if_neg hl, build_path_strip_eq]
  · simp only [hh, ↓reduceIte]
    generalize (if s.cwd = ['/'] then '/' :: args else s.cwd ++ '/' :: args) = full
    by_cases hl : full.length > 32767
    · have h1 : full.length ≥ 32768 := hl
      rw [if_pos hl, if_pos h1]
    · have h1 : ¬ full.length ≥ 32768 := by omega
      have h2 : List.take (32768 - 1) full = full := List.take_of_length_le (by omega)
      rw [if_neg hl, if_neg h1, h2, build_path_strip_eq]

/-- Partial correctness of the traversal check in `build_path`: whenever
`build_path` returns, it fails with `EINVAL` exactly on the arguments the
specification wants rejected. -/
theorem build_path_einval_iff {fuel : Nat} {s s1 : ftp_session_t} {args : List Char}
    {r : Except errno_t Unit} (h : build_path fuel s args = some (r, s1)) :
    r = .error .EINVAL ↔ spec_rejects args := by
  cases hv : validate_path fuel args with
  | none => simp [build_path, hv] at h
  | some rc =>
    rcases validate_path_spec hv with ⟨hrc, hsp⟩ | ⟨hrc, hsp⟩
    · subst hrc
      simp [build_path, hv] at h
      simp [← h.1, hsp]
    · subst hrc
      rw [build_path_of_valid s hv] at h
      constructor
      · intro hr
        subst hr
        split at h <;> simp at h
      · intro hc
        exact absurd hc hsp

/-! ## Claims about the path sandbox -/

/-- C1 (defect in the code): the argument `/..a//` holds the substring `//`,
so the claim has `build_path` fail with `EINVAL`.  In the code the loop of
`validate_path` finds `/..` at the start, sees the `a` behind it and searches
again from the same place: `build_path` never returns, whatever the fuel and
the session. -/
theorem C1_build_path_never_returns :
    spec_rejects "/..a//".toList ∧
      ∀ (fuel : Nat) (s : ftp_session_t), build_path fuel s "/..a//".toList = none := by
  refine ⟨Or.inl ⟨"/..a".toList, [], by decide⟩, ?_⟩
  intro fuel s
  have h : validate_path_scan fuel "/..a//".toList = none :=
    @validate_path_scan_none_of_match "/..a//".toList "/..a//".toList "//".toList 'a'
      (by decide) (by decide) (by decide) fuel
  simp only [build_path, validate_path, h]

/-- C2 (defect in the code): with the well-formed working directory `/`, which
has no `..` component, `build_path` accepts the argument `../etc` and writes
`/../etc` to the work buffer, a path with the component `..`. -/
theorem C2_leading_dotdot_accepted (fuel : Nat) (s : ftp_session_t) :
    cwd_wf ['/'] ∧ ['.', '.'] ∉ path_components ['/'] ∧
      ∃ s1, build_path (fuel + 1) { s with cwd := ['/'] } "../etc".toList = some (.ok (), s1) ∧
        s1.buffer = "/../etc".toList ∧ ['.', '.'] ∈ path_components s1.buffer := by
  refine ⟨by decide, by decide, ?_⟩
  have hv : validate_path (fuel + 1) "../etc".toList = some 0 :=
    validate_path_eq_zero_iff.mpr ⟨by simp, by decide, by decide⟩
  have hlen : ¬ (spec_unstripped ['/'] "../etc".toList).length > 32767 := by decide
  rw [build_path_of_valid _ hv, if_neg hlen]
  refine ⟨_, rfl, ?_, ?_⟩
  · show spec_path ['/'] "../etc".toList = "/../etc".toList
    decide
  · show ['.', '.'] ∈ path_components (spec_path ['/'] "../etc".toList)
    decide

/-- The resolved path of the specification is non-empty, begins with `/` and
does not end in `/` unless it is `/`, for a working directory that begins
with `/`. -/
theorem spec_path_wf {cwd : List Char} (args : List Char) (hcwd : cwd.head? = some '/') :
    spec_path cwd args ≠ [] ∧ cwd_wf (spec_path cwd args) := by
  have hfull : (spec_unstripped cwd args).head? = some '/' := by
    unfold spec_unstripped
    split
    · assumption
    · split
      · rfl
      · cases cwd with
        | nil => simp at hcwd
        | cons c cs => simpa using hcwd
  unfold spec_path
  simp only
  split
  · exact ⟨by simp, by decide⟩
  · rename_i hne
    refine ⟨hne, ?_, Or.inr ?_⟩
    · obtain ⟨t, ht⟩ := List.rdropWhile_prefix (fun c => decide (c = '/')) (spec_unstripped cwd args)
      rw [← ht, List.head?_append_of_ne_nil _ hne] at hfull
      exact hfull
    · rw [List.getLast?_eq_getLast _ hne]
      have := List.rdropWhile_last_not (fun c => decide (c = '/')) (spec_unstripped cwd args) hne
      simpa using this

/-- When `validate_path` returns 0 on the argument (it holds no `//` and no
`/..` at all) and the working directory is well formed, `build_path` returns;
it fails with `ENAMETOOLONG` exactly when the joined, un-stripped path is
longer than 32767 characters; otherwise it succeeds and the work buffer holds
the joined path (the argument itself if it begins with `/`, else `/`+argument
for the working directory `/`, else cwd+`/`+argument) without its trailing `/`
characters, or `/` when nothing is left.  That result is non-empty, begins
with `/` and does not end in `/` unless it is `/`. -/
theorem build_path_result (fuel : Nat) (s : ftp_session_t) (args : List Char)
    (hcwd : cwd_wf s.cwd) (hv : validate_path fuel args = some 0) :
    ∃ r s1, build_path fuel s args = some (r, s1) ∧
      (r = .error .ENAMETOOLONG ↔ (spec_unstripped s.cwd args).length > 32767) ∧
      ((spec_unstripped s.cwd args).length ≤ 32767 →
        r = .ok () ∧ s1.buffer = spec_path s.cwd args ∧
        s1.buffer ≠ [] ∧ s1.buffer.head? = some '/' ∧
        (s1.buffer = ['/'] ∨ s1.buffer.getLast? ≠ some '/')) := by
  rw [build_path_of_valid s hv]
  by_cases hl : (spec_unstripped s.cwd args).length > 32767
  · rw [if_pos hl]
    exact ⟨_, _, rfl, by simp [hl], fun h => absurd hl (by omega)⟩
  · rw [if_neg hl]
    have hw := spec_path_wf args hcwd.1
    exact ⟨_, _, rfl, by simp [hl], fun _ => ⟨rfl, rfl, hw.1, hw.2.1, hw.2.2⟩⟩

/-- In the directory `/a` the argument `b/` resolves to `/a/b`. -/
theorem build_path_result_sample :
    ∃ s1, build_path 1 { zero_session with cwd := "/a".toList } "b/".toList = some (.ok (), s1) ∧
      s1.buffer = "/a/b".toList := by
  obtain ⟨r, s1, h1, -, h3⟩ :=
    build_path_result 1 { zero_session with cwd := "/a".toList } "b/".toList
      (by decide) (by decide)
  obtain ⟨hr, hb, -⟩ := h3 (by decide)
  subst hr
  refine ⟨s1, h1, ?_⟩
  rw [hb]
  decide

/-- A `..` component of the specification sits at some offset of the
argument: the three characters there are `/..` and what follows is the end of
the argument or begins with `/`. -/
theorem has_dotdot_component_offset {args : List Char} (h : has_dotdot_component args) :
    ∃ k, k < args.length + 1 ∧ (args.drop k).take 3 = ['/', '.', '.'] ∧
      (args.drop (k + 3) = [] ∨ (args.drop (k + 3)).head? = some '/') := by
  obtain ⟨pre, post, rfl, hp⟩ := h
  refine ⟨pre.length, ?_, ?_, ?_⟩
  · simp only [List.length_append]
    omega
  · simp
  · have : List.drop (pre.length + 3) (pre ++ ['/', '.', '.'] ++ post) = post := by
      rw [List.append_assoc, ← List.drop_drop, List.drop_left]
      rfl
    rw [this]
    exact hp

/-- C3 (defect in the code): the arguments `b/..c` and `/..a` pass the
traversal check of the specification (no `//`, and the `/..` in them is
followed neither by the end of the argument nor by `/`), so the claim has
`build_path` yield `/b/..c` and `/..a` for the working directory `/`.  In the
code the loop of `validate_path` finds the `/..`, sees the character behind it
and searches again from the same place: `build_path` never returns, whatever
the fuel and the session. -/
theorem C3_build_path_hangs_on_accepted_argument (fuel : Nat) (s : ftp_session_t) :
    ¬ spec_rejects "b/..c".toList ∧ ¬ spec_rejects "/..a".toList ∧
      spec_path "/".toList "b/..c".toList = "/b/..c".toList ∧
      spec_path "/".toList "/..a".toList = "/..a".toList ∧
      build_path fuel s "b/..c".toList = none ∧ build_path fuel s "/..a".toList = none := by
  have h1 : validate_path_scan fuel "b/..c".toList = none :=
    @validate_path_scan_none_of_match "b/..c".toList "/..c".toList [] 'c' (by decide)
      (by decide) (by decide) fuel
  have h2 : validate_path_scan fuel "/..a".toList = none :=
    @validate_path_scan_none_of_match "/..a".toList "/..a".toList [] 'a' (by decide)
      (by decide) (by decide) fuel
  refine ⟨?_, ?_, by decide, by decide, ?_, ?_⟩
  · rintro (h | h)
    · exact absurd h (by decide)
    · exact absurd (has_dotdot_component_offset h) (by decide)
  · rintro (h | h)
    · exact absurd h (by decide)
    · exact absurd (has_dotdot_component_offset h) (by decide)
  · simp only [build_path, validate_path, h1]
  · simp only [build_path, validate_path, h2]

/-! ## Effect of the helpers on state, descriptors and flags -/

section set_state
variable (s : ftp_session_t) (st : session_state_t)

@[simp] theorem set_state_state : (ftp_session_set_state s st).state = st := by
  cases st <;> simp only [ftp_session_set_state, ftp_session_close_pasv, ftp_session_close_data] <;>
    split_ifs <;> rfl

@[simp] theorem set_state_command_data_fd :
    (ftp_session_set_state s .COMMAND_STATE).data_fd = min s.data_fd (-1) := by
  simp only [ftp_session_set_state, ftp_session_close_pasv, ftp_session_close_data]
  split_ifs <;> simp_all <;> omega

@[simp] theorem set_state_command_pasv_fd :
    (ftp_session_set_state s .COMMAND_STATE).pasv_fd = min s.pasv_fd (-1) := by
  simp only [ftp_session_set_state, ftp_session_close_pasv, ftp_session_close_data]
  split_ifs <;> simp_all <;> omega

@[simp] theorem set_state_connect_data_fd :
    (ftp_session_set_state s .DATA_CONNECT_STATE).data_fd = min s.data_fd (-1) := by
  simp only [ftp_session_set_state, ftp_session_close_pasv, ftp_session_close_data]
  split_ifs <;> simp_all <;> omega

@[simp] theorem set_state_connect_pasv_fd :
    (ftp_session_set_state s .DATA_CONNECT_STATE).pasv_fd = s.pasv_fd := by
  simp only [ftp_session_set_state, ftp_session_close_pasv, ftp_session_close_data]
  split_ifs <;> rfl

@[simp] theorem set_state_transfer_data_fd :
    (ftp_session_set_state s .DATA_TRANSFER_STATE).data_fd = s.data_fd := by
  simp only [ftp_session_set_state, ftp_session_close_pasv, ftp_session_close_data]
  split_ifs <;> rfl

@[simp] theorem set_state_transfer_pasv_fd :
    (ftp_session_set_state s .DATA_TRANSFER_STATE).pasv_fd = min s.pasv_fd (-1) := by
  simp only [ftp_session_set_state, ftp_session_close_pasv, ftp_session_close_data]
  split_ifs <;> simp_all <;> omega

@[simp] theorem set_state_flags_pasv :
    (ftp_session_set_state s st).flags.SESSION_PASV = s.flags.SESSION_PASV := by
  cases st <;> simp only [ftp_session_set_state, ftp_session_close_pasv, ftp_session_close_data] <;>
    split_ifs <;> rfl

@[simp] theorem set_state_flags_port :
    (ftp_session_set_state s st).flags.SESSION_PORT = s.flags.SESSION_PORT := by
  cases st <;> simp only [ftp_session_set_state, ftp_session_close_pasv, ftp_session_close_data] <;>
    split_ifs <;> rfl

@[simp] theorem set_state_flags_rename :
    (ftp_session_set_state s st).flags.SESSION_RENAME = s.flags.SESSION_RENAME := by
  cases st <;> simp only [ftp_session_set_state, ftp_session_close_pasv, ftp_session_close_data] <;>
    split_ifs <;> rfl

@[simp] theorem set_state_cwd : (ftp_session_set_state s st).cwd = s.cwd := by
  cases st <;> simp only [ftp_session_set_state, ftp_session_close_pasv, ftp_session_close_data] <;>
    split_ifs <;> rfl

@[simp] theorem set_state_events : (ftp_session_set_state s st).events = s.events := by
  cases st <;> simp only [ftp_session_set_state, ftp_session_close_pasv, ftp_session_close_data] <;>
    split_ifs <;> rfl

@[simp] theorem set_state_cmd_fd : (ftp_session_set_state s st).cmd_fd = s.cmd_fd := by
  cases st <;> simp only [ftp_session_set_state, ftp_session_close_pasv, ftp_session_close_data] <;>
    split_ifs <;> rfl

@[simp] theorem set_state_buffer : (ftp_session_set_state s st).buffer = s.buffer := by
  cases st <;> simp only [ftp_session_set_state, ftp_session_close_pasv, ftp_session_close_data] <;>
    split_ifs <;> rfl

@[simp] theorem set_state_peer_addr : (ftp_session_set_state s st).peer_addr = s.peer_addr := by
  cases st <;> simp only [ftp_session_set_state, ftp_session_close_pasv, ftp_session_close_data] <;>
    split_ifs <;> rfl

end set_state

section connect
variable (env : Env) (s : ftp_session_t)

@[simp] theorem connect_rc :
    (ftp_session_connect env s).1 =
      if env.socket_rc < 0 then -1 else if env.connect_rc ≠ 0 then -1
      else if ftp_set_socket_nonblocking env ≠ 0 then -1 else 0 := by
  simp only [ftp_session_connect]
  split_ifs <;> rfl

@[simp] theorem connect_data_fd :
    (ftp_session_connect env s).2.data_fd =
      if env.socket_rc < 0 then env.socket_rc else if env.connect_rc ≠ 0 then -1
      else env.socket_rc := by
  simp only [ftp_session_connect]
  split_ifs <;> rfl

@[simp] theorem connect_state : (ftp_session_connect env s).2.state = s.state := by
  simp only [ftp_session_connect]
  split_ifs <;> rfl

@[simp] theorem connect_pasv_fd : (ftp_session_connect env s).2.pasv_fd = s.pasv_fd := by
  simp only [ftp_session_connect]
  split_ifs <;> rfl

@[simp] theorem connect_flags_pasv :
    (ftp_session_connect env s).2.flags.SESSION_PASV = s.flags.SESSION_PASV := by
  simp only [ftp_session_connect]
  split_ifs <;> rfl

theorem connect_ok {env : Env} {s : ftp_session_t}
    (h : ¬ (ftp_session_connect env s).1 ≠ 0) : 0 ≤ (ftp_session_connect env s).2.data_fd := by
  simp only [connect_rc, connect_data_fd] at *
  split_ifs at * <;> simp at h <;> omega

end connect

/-- `build_path` touches nothing but the work buffer. -/
theorem build_path_frame {fuel : Nat} {s s1 : ftp_session_t} {args : List Char}
    {r : Except errno_t Unit} (h : build_path fuel s args = some (r, s1)) :
    s1 = { s with buffer := s1.buffer } := by
  simp only [build_path] at h
  split at h
  · simp at h
  · split_ifs at h <;> simp only [Option.some.injEq, Prod.mk.injEq] at h <;>
      (obtain ⟨-, rfl⟩ := h; rfl)

/-- `cd_up` touches nothing but `cwd`. -/
theorem cd_up_frame {s s1 : ftp_session_t} (h : cd_up s = some s1) :
    s1 = { s with cwd := s1.cwd } := by
  simp only [cd_up] at h
  split at h
  · simp at h
  · simp only [Option.some.injEq] at h
    subst h
    rfl

/-! ## The descriptor invariant -/

theorem fd_inv_congr {s s1 : ftp_session_t} (h1 : s1.state = s.state)
    (h2 : s1.data_fd = s.data_fd) (h3 : s1.pasv_fd = s.pasv_fd)
    (h4 : s1.flags.SESSION_PASV = s.flags.SESSION_PASV) (h : fd_inv s) : fd_inv s1 := by
  simpa only [fd_inv, h1, h2, h3, h4] using h

theorem fd_inv_command (s : ftp_session_t) :
    fd_inv (ftp_session_set_state s .COMMAND_STATE) := by
  simp only [fd_inv, set_state_state, set_state_command_data_fd, set_state_command_pasv_fd]
  exact ⟨fun _ => ⟨by omega, fun h => by omega⟩, by simp, by simp⟩

theorem fd_inv_response {s : ftp_session_t} (code : Nat) (text : List Char) (h : fd_inv s) :
    fd_inv (ftp_send_response s code text) := h

theorem fd_inv_clean (s : ftp_session_t) (code : Nat) (text : List Char) :
    fd_inv (ftp_send_response (ftp_session_set_state s .COMMAND_STATE) code text) :=
  fd_inv_command s

theorem fd_inv_of_build_path {fuel : Nat} {s s1 : ftp_session_t} {args : List Char}
    {r : Except errno_t Unit} (hb : build_path fuel s args = some (r, s1)) (h : fd_inv s) :
    fd_inv s1 := by
  rw [build_path_frame hb]
  exact h

theorem fd_inv_of_cd_up {s s1 : ftp_session_t} (hc : cd_up s = some s1) (h : fd_inv s) :
    fd_inv s1 := by
  rw [cd_up_frame hc]
  exact h

theorem ALLO_fd_inv (s : ftp_session_t) (args : List Char) : fd_inv (ALLO s args) :=
  fd_inv_clean _ _ _

theorem APPE_fd_inv (s : ftp_session_t) (args : List Char) : fd_inv (APPE s args) :=
  fd_inv_clean _ _ _

theorem FEAT_fd_inv (s : ftp_session_t) (args : List Char) : fd_inv (FEAT s args) :=
  fd_inv_clean _ _ _

theorem NLST_fd_inv (s : ftp_session_t) (args : List Char) : fd_inv (NLST s args) :=
  fd_inv_clean _ _ _

theorem PASS_fd_inv (s : ftp_session_t) (args : List Char) : fd_inv (PASS s args) :=
  fd_inv_clean _ _ _

theorem PWD_fd_inv (s : ftp_session_t) (args : List Char) : fd_inv (PWD s args) :=
  fd_inv_clean _ _ _

theorem REST_fd_inv (s : ftp_session_t) (args : List Char) : fd_inv (REST s args) :=
  fd_inv_clean _ _ _

theorem STOU_fd_inv (s : ftp_session_t) (args : List Char) : fd_inv (STOU s args) :=
  fd_inv_clean _ _ _

theorem SYST_fd_inv (s : ftp_session_t) (args : List Char) : fd_inv (SYST s args) :=
  fd_inv_clean _ _ _

theorem TYPE_fd_inv (s : ftp_session_t) (args : List Char) : fd_inv (TYPE s args) :=
  fd_inv_clean _ _ _

theorem USER_fd_inv (s : ftp_session_t) (args : List Char) : fd_inv (USER s args) :=
  fd_inv_clean _ _ _

theorem MODE_fd_inv (s : ftp_session_t) (args : List Char) : fd_inv (MODE s args) := by
  simp only [FTP.MODE]
  split_ifs <;> exact fd_inv_clean _ _ _

theorem OPTS_fd_inv (s : ftp_session_t) (args : List Char) : fd_inv (OPTS s args) := by
  simp only [FTP.OPTS]
  split_ifs <;> exact fd_inv_clean _ _ _

theorem STRU_fd_inv (s : ftp_session_t) (args : List Char) : fd_inv (STRU s args) := by
  simp only [FTP.STRU]
  split_ifs <;> exact fd_inv_clean _ _ _

theorem NOOP_fd_inv {s : ftp_session_t} (args : List Char) (h : fd_inv s) :
    fd_inv (NOOP s args) := h

theorem QUIT_fd_inv {s : ftp_session_t} (args : List Char) (h : fd_inv s) :
    fd_inv (QUIT s args) := h

theorem CDUP_fd_inv {s s1 : ftp_session_t} {args : List Char} (h : CDUP s args = some s1) :
    fd_inv s1 := by
  simp only [CDUP] at h
  cases hc : cd_up (ftp_session_set_state s .COMMAND_STATE) with
  | none => simp [hc] at h
  | some s2 =>
    have hi := fd_inv_of_cd_up hc (fd_inv_command s)
    simp only [hc, Option.some.injEq] at h
    subst h
    exact hi

theorem CWD_fd_inv {fuel : Nat} {env : Env} {s s1 : ftp_session_t} {args : List Char}
    (h : CWD fuel env s args = some s1) : fd_inv s1 := by
  simp only [CWD] at h
  by_cases ha : args = ['.', '.']
  · simp only [ha, ↓reduceIte] at h
    cases hc : cd_up (ftp_session_set_state s .COMMAND_STATE) with
    | none => simp [hc] at h
    | some s2 =>
      have hi := fd_inv_of_cd_up hc (fd_inv_command s)
      simp only [hc, Option.some.injEq] at h
      subst h
      exact hi
  · simp only [ha, ↓reduceIte] at h
    cases hb : build_path fuel (ftp_session_set_state s .COMMAND_STATE) args with
    | none => simp [hb] at h
    | some p =>
      obtain ⟨r, s2⟩ := p
      have hi := fd_inv_of_build_path hb (fd_inv_command s)
      cases r <;> simp only [hb] at h <;> (try split_ifs at h) <;>
        (simp only [Option.some.injEq] at h; subst h; exact hi)

theorem DELE_fd_inv {fuel : Nat} {env : Env} {s s1 : ftp_session_t} {args : List Char}
    (h : DELE fuel env s args = some s1) : fd_inv s1 := by
  simp only [DELE] at h
  cases hb : build_path fuel (ftp_session_set_state s .COMMAND_STATE) args with
  | none => simp [hb] at h
  | some p =>
    obtain ⟨r, s2⟩ := p
    have hi := fd_inv_of_build_path hb (fd_inv_command s)
    cases r <;> simp only [hb] at h <;> (try split_ifs at h) <;>
      (simp only [Option.some.injEq] at h; subst h; exact hi)

theorem MKD_fd_inv {fuel : Nat} {env : Env} {s s1 : ftp_session_t} {args : List Char}
    (h : MKD fuel env s args = some s1) : fd_inv s1 := by
  simp only [MKD] at h
  cases hb : build_path fuel (ftp_session_set_state s .COMMAND_STATE) args with
  | none => simp [hb] at h
  | some p =>
    obtain ⟨r, s2⟩ := p
    have hi := fd_inv_of_build_path hb (fd_inv_command s)
    cases r <;> simp only [hb] at h <;> (try split_ifs at h) <;>
      (simp only [Option.some.injEq] at h; subst h; exact hi)

theorem RMD_fd_inv {fuel : Nat} {env : Env} {s s1 : ftp_session_t} {args : List Char}
    (h : RMD fuel env s args = some s1) : fd_inv s1 := by
  simp only [RMD] at h
  cases hb : build_path fuel (ftp_session_set_state s .COMMAND_STATE) args with
  | none => simp [hb] at h
  | some p =>
    obtain ⟨r, s2⟩ := p
    have hi := fd_inv_of_build_path hb (fd_inv_command s)
    cases r <;> simp only [hb] at h <;> (try split_ifs at h) <;>
      (simp only [Option.some.injEq] at h; subst h; exact hi)

theorem RNFR_fd_inv {fuel : Nat} {env : Env} {s s1 : ftp_session_t} {args : List Char}
    (h : RNFR fuel env s args = some s1) : fd_inv s1 := by
  simp only [RNFR] at h
  cases hb : build_path fuel (ftp_session_set_state s .COMMAND_STATE) args with
  | none => simp [hb] at h
  | some p =>
    obtain ⟨r, s2⟩ := p
    have hi := fd_inv_of_build_path hb (fd_inv_command s)
    cases r <;> simp only [hb] at h <;> (try split_ifs at h) <;>
      (simp only [Option.some.injEq] at h; subst h; exact hi)

theorem RNTO_fd_inv {fuel : Nat} {env : Env} {s s1 : ftp_session_t} {args : List Char}
    (h : RNTO fuel env s args = some s1) : fd_inv s1 := by
  simp only [RNTO] at h
  by_cases hr : (ftp_session_set_state s .COMMAND_STATE).flags.SESSION_RENAME = true
  · simp only [hr, Bool.not_true, Bool.false_eq_true, ↓reduceIte] at h
    have h0 : fd_inv
        { ftp_session_set_state s .COMMAND_STATE with
          flags := { (ftp_session_set_state s .COMMAND_STATE).flags with SESSION_RENAME := false }
          tmp_buffer := (ftp_session_set_state s .COMMAND_STATE).buffer } :=
      fd_inv_command s
    revert h
    generalize
      ({ ftp_session_set_state s .COMMAND_STATE with
          flags := { (ftp_session_set_state s .COMMAND_STATE).flags with SESSION_RENAME := false }
          tmp_buffer := (ftp_session_set_state s .COMMAND_STATE).buffer } : ftp_session_t) = s0
      at h0 ⊢
    intro h
    cases hb : build_path fuel s0 args with
    | none => simp [hb] at h
    | some p =>
      obtain ⟨r, s2⟩ := p
      have hi := fd_inv_of_build_path hb h0
      cases r <;> simp only [hb] at h <;> (try split_ifs at h) <;>
        (simp only [Option.some.injEq] at h; subst h; exact hi)
  · simp only [hr, Bool.not_false, ↓reduceIte, Option.some.injEq] at h
    subst h
    exact fd_inv_clean _ _ _

theorem PASV_fd_inv (env : Env) (s : ftp_session_t) (args : List Char) :
    fd_inv (PASV env s args) := by
  simp only [PASV, fd_inv, ftp_send_response, ftp_session_close_pasv, set_state_state,
    set_state_command_data_fd]
  split_ifs <;> simp <;> omega

theorem PORT_fd_inv (w : Nat) (env : Env) (s : ftp_session_t) (args : List Char) :
    fd_inv (PORT w env s args) := by
  have h0 : fd_inv
      { ftp_session_set_state s .COMMAND_STATE with
        flags := { (ftp_session_set_state s .COMMAND_STATE).flags with
                   SESSION_PASV := false, SESSION_PORT := false } } := by
    simp only [fd_inv, set_state_state, set_state_command_data_fd, set_state_command_pasv_fd]
    exact ⟨fun _ => ⟨by omega, fun h => by omega⟩, by simp, by simp⟩
  simp only [PORT]
  split_ifs
  · exact h0
  · exact h0
  · split
    · exact h0
    · split
      · exact h0
      · split_ifs
        · exact h0
        · exact h0

theorem LIST_fd_inv (env : Env) (s : ftp_session_t) (args : List Char) :
    fd_inv (LIST env s args) := by
  simp only [LIST]
  split_ifs with h1 h2 h3 h4
  · exact fd_inv_clean _ _ _
  · exact fd_inv_clean _ _ _
  · have hc := connect_ok h3
    simp only [fd_inv, ftp_send_response, connect_state, set_state_state, connect_pasv_fd,
      set_state_transfer_pasv_fd]
    exact ⟨by simp, by simp, fun _ => ⟨hc, by omega⟩⟩
  · simp only [fd_inv, set_state_state, set_state_connect_data_fd]
    exact ⟨by simp, fun _ => by omega, by simp⟩
  · exact fd_inv_clean _ _ _

section open_file
variable (env : Env) (s : ftp_session_t)

@[simp] theorem open_file_read_state : (ftp_session_open_file_read env s).2.state = s.state := by
  simp only [ftp_session_open_file_read, ftp_session_close_file]
  split_ifs <;> rfl

@[simp] theorem open_file_read_data_fd :
    (ftp_session_open_file_read env s).2.data_fd = s.data_fd := by
  simp only [ftp_session_open_file_read, ftp_session_close_file]
  split_ifs <;> rfl

@[simp] theorem open_file_read_pasv_fd :
    (ftp_session_open_file_read env s).2.pasv_fd = s.pasv_fd := by
  simp only [ftp_session_open_file_read, ftp_session_close_file]
  split_ifs <;> rfl

@[simp] theorem open_file_write_state : (ftp_session_open_file_write env s).2.state = s.state := by
  simp only [ftp_session_open_file_write]
  split_ifs <;> rfl

@[simp] theorem open_file_write_data_fd :
    (ftp_session_open_file_write env s).2.data_fd = s.data_fd := by
  simp only [ftp_session_open_file_write]
  split_ifs <;> rfl

@[simp] theorem open_file_write_pasv_fd :
    (ftp_session_open_file_write env s).2.pasv_fd = s.pasv_fd := by
  simp only [ftp_session_open_file_write]
  split_ifs <;> rfl

end open_file

theorem RETR_fd_inv {fuel : Nat} {env : Env} {s s1 : ftp_session_t} {args : List Char}
    (h : RETR fuel env s args = some s1) : fd_inv s1 := by
  simp only [RETR] at h
  cases hb : build_path fuel s args with
  | none => simp [hb] at h
  | some p =>
    obtain ⟨r, s2⟩ := p
    cases r with
    | error e =>
      simp only [hb, Option.some.injEq] at h
      subst h
      exact fd_inv_clean _ _ _
    | ok u =>
      simp only [hb] at h
      split_ifs at h with h1 h2 h3 h4 <;> simp only [Option.some.injEq] at h <;> subst h
      · exact fd_inv_clean _ _ _
      · exact fd_inv_clean _ _ _
      · have hc := connect_ok h3
        simp only [fd_inv, ftp_send_response, connect_state, set_state_state, connect_pasv_fd,
          set_state_transfer_pasv_fd]
        exact ⟨by simp, by simp, fun _ => ⟨hc, by omega⟩⟩
      · simp only [fd_inv, set_state_state, set_state_connect_data_fd]
        exact ⟨by simp, fun _ => by omega, by simp⟩
      · exact fd_inv_clean _ _ _

theorem STOR_fd_inv {fuel : Nat} {env : Env} {s s1 : ftp_session_t} {args : List Char}
    (h : STOR fuel env s args = some s1) : fd_inv s1 := by
  simp only [STOR] at h
  cases hb : build_path fuel s args with
  | none => simp [hb] at h
  | some p =>
    obtain ⟨r, s2⟩ := p
    cases r with
    | error e =>
      simp only [hb, Option.some.injEq] at h
      subst h
      exact fd_inv_clean _ _ _
    | ok u =>
      simp only [hb] at h
      split_ifs at h with h1 h2 h3 h4 <;> simp only [Option.some.injEq] at h <;> subst h
      · exact fd_inv_clean _ _ _
      · exact fd_inv_clean _ _ _
      · have hc := connect_ok h3
        simp only [fd_inv, ftp_send_response, connect_state, set_state_state, connect_pasv_fd,
          set_state_transfer_pasv_fd]
        exact ⟨by simp, by simp, fun _ => ⟨hc, by omega⟩⟩
      · simp only [fd_inv, set_state_state, set_state_connect_data_fd]
        exact ⟨by simp, fun _ => by omega, by simp⟩
      · exact fd_inv_clean _ _ _

/-- Every handler leaves the descriptor invariant in force. -/
theorem call_handler_fd_inv {w fuel : Nat} {env : Env} {h : handler_t} {s s1 : ftp_session_t}
    {args : List Char} (hi : fd_inv s) (hc : call_handler w fuel env h s args = some s1) :
    fd_inv s1 := by
  cases h <;> simp only [call_handler, Option.some.injEq] at hc <;> (try subst hc)
  · exact ALLO_fd_inv _ _
  · exact APPE_fd_inv _ _
  · exact CDUP_fd_inv hc
  · exact CWD_fd_inv hc
  · exact DELE_fd_inv hc
  · exact FEAT_fd_inv _ _
  · exact LIST_fd_inv _ _ _
  · exact MKD_fd_inv hc
  · exact MODE_fd_inv _ _
  · exact NLST_fd_inv _ _
  · exact NOOP_fd_inv _ hi
  · exact OPTS_fd_inv _ _
  · exact PASS_fd_inv _ _
  · exact PASV_fd_inv _ _ _
  · exact PORT_fd_inv _ _ _ _
  · exact PWD_fd_inv _ _
  · exact QUIT_fd_inv _ hi
  · exact REST_fd_inv _ _
  · exact RETR_fd_inv hc
  · exact RMD_fd_inv hc
  · exact RNFR_fd_inv hc
  · exact RNTO_fd_inv hc
  · exact STOR_fd_inv hc
  · exact STOU_fd_inv _ _
  · exact STRU_fd_inv _ _
  · exact SYST_fd_inv _ _
  · exact TYPE_fd_inv _ _
  · exact USER_fd_inv _ _

theorem read_command_fd_inv {w fuel : Nat} {recv : Option (List Char)} {env : Env}
    {s s1 : ftp_session_t} (hi : fd_inv s)
    (h : ftp_session_read_command w fuel recv env s = some s1) : fd_inv s1 := by
  simp only [ftp_session_read_command] at h
  cases recv with
  | none =>
    simp only [Option.some.injEq] at h
    subst h
    exact hi
  | some received =>
    simp only at h
    split_ifs at h with h1
    · simp only [Option.some.injEq] at h
      subst h
      exact hi
    · cases hb : bsearch (command_name (command_line received)) ftp_commands with
      | none =>
        simp only [hb, Option.some.injEq] at h
        subst h
        exact hi
      | some command =>
        simp only [hb] at h
        refine call_handler_fd_inv ?_ h
        split_ifs
        · exact hi
        · exact hi

theorem accept_fd_inv (env : Env) (s : ftp_session_t) :
    fd_inv (ftp_session_set_state (ftp_session_accept env s).2 .COMMAND_STATE) ∧
      ((ftp_session_accept env s).1 = 0 → fd_inv (ftp_session_accept env s).2) := by
  refine ⟨fd_inv_command _, ?_⟩
  simp only [ftp_session_accept]
  split_ifs with h1 h2 h3
  · simp
  · simp
  · intro _
    simp only [fd_inv, set_state_state, set_state_transfer_pasv_fd]
    exact ⟨by simp, by simp, fun _ => ⟨by omega, by omega⟩⟩
  · simp

theorem list_transfer_send_fd_inv {e : XferEnv} {s : ftp_session_t} (hi : fd_inv s) :
    fd_inv (list_transfer_send e s).2 := by
  simp only [list_transfer_send]
  split_ifs
  · exact hi
  · exact fd_inv_clean _ _ _
  · exact hi

theorem list_transfer_fd_inv {e : XferEnv} {s s1 : ftp_session_t} {rc : Int}
    (hi : fd_inv s) (h : list_transfer e s = some (rc, s1)) : fd_inv s1 := by
  simp only [list_transfer] at h
  by_cases h1 : s.bufferpos = s.buffersize
  · simp only [h1, ↓reduceIte] at h
    cases hh : s.handle with
    | dir entries =>
      cases entries with
      | nil =>
        simp only [hh, Option.some.injEq, Prod.mk.injEq] at h
        obtain ⟨-, rfl⟩ := h
        exact fd_inv_clean _ _ _
      | cons dent rest =>
        simp only [hh] at h
        split_ifs at h <;> simp only [Option.some.injEq] at h
        all_goals
          replace h := congrArg Prod.snd h
          dsimp only at h
          subst h
          first
            | exact hi
            | exact fd_inv_clean _ _ _
            | exact list_transfer_send_fd_inv hi
    | null => simp [hh] at h
    | file_rb r => simp [hh] at h
    | file_wb r => simp [hh] at h
  · simp only [h1, ↓reduceIte, Option.some.injEq] at h
    replace h := congrArg Prod.snd h
    dsimp only at h
    subst h
    exact list_transfer_send_fd_inv hi

theorem retrieve_transfer_send_fd_inv {e : XferEnv} {s : ftp_session_t} (hi : fd_inv s) :
    fd_inv (retrieve_transfer_send e s).2 := by
  simp only [retrieve_transfer_send]
  split_ifs
  · exact hi
  · exact fd_inv_clean _ _ _
  · exact hi

theorem read_file_fd_inv {e : XferEnv} {s s1 : ftp_session_t} {rc : Int}
    (hi : fd_inv s) (h : ftp_session_read_file e s = some (rc, s1)) : fd_inv s1 := by
  simp only [ftp_session_read_file] at h
  split at h
  · split_ifs at h <;> simp only [Option.some.injEq] at h <;>
      (obtain ⟨-, rfl⟩ := Prod.mk.inj h; exact hi)
  · simp at h

theorem retrieve_transfer_fd_inv {e : XferEnv} {s s1 : ftp_session_t} {rc : Int}
    (hi : fd_inv s) (h : retrieve_transfer e s = some (rc, s1)) : fd_inv s1 := by
  simp only [retrieve_transfer] at h
  by_cases h1 : s.bufferpos = s.buffersize
  · simp only [h1, ↓reduceIte] at h
    cases hr : ftp_session_read_file e s with
    | none => simp [hr] at h
    | some p =>
      obtain ⟨rc2, s2⟩ := p
      have hi2 := read_file_fd_inv hi hr
      simp only [hr] at h
      split_ifs at h <;> simp only [Option.some.injEq] at h
      all_goals
        replace h := congrArg Prod.snd h
        dsimp only at h
        subst h
        first
          | exact hi2
          | exact fd_inv_clean _ _ _
          | exact retrieve_transfer_send_fd_inv hi2
  · simp only [h1, ↓reduceIte, Option.some.injEq] at h
    replace h := congrArg Prod.snd h
    dsimp only at h
    subst h
    exact retrieve_transfer_send_fd_inv hi

theorem store_transfer_write_fd_inv {e : XferEnv} {s : ftp_session_t} (hi : fd_inv s) :
    fd_inv (store_transfer_write e s).2 := by
  simp only [store_transfer_write, ftp_session_write_file]
  split_ifs
  · exact fd_inv_clean _ _ _
  · exact hi
  · exact fd_inv_clean _ _ _
  · exact hi

theorem store_transfer_fd_inv {e : XferEnv} {s s1 : ftp_session_t} {rc : Int}
    (hi : fd_inv s) (h : store_transfer e s = some (rc, s1)) : fd_inv s1 := by
  simp only [store_transfer] at h
  by_cases h1 : s.bufferpos = s.buffersize
  · simp only [h1, ↓reduceIte] at h
    split_ifs at h <;> simp only [Option.some.injEq] at h
    all_goals
      replace h := congrArg Prod.snd h
      dsimp only at h
      subst h
      first
        | exact hi
        | exact fd_inv_clean _ _ _
        | exact store_transfer_write_fd_inv hi
  · simp only [h1, ↓reduceIte, Option.some.injEq] at h
    replace h := congrArg Prod.snd h
    dsimp only at h
    subst h
    exact store_transfer_write_fd_inv hi

theorem call_transfer_fd_inv {e : XferEnv} {s s1 : ftp_session_t} {rc : Int}
    (hi : fd_inv s) (h : call_transfer e s = some (rc, s1)) : fd_inv s1 := by
  simp only [call_transfer] at h
  split at h
  · simp at h
  · exact list_transfer_fd_inv hi h
  · exact retrieve_transfer_fd_inv hi h
  · exact store_transfer_fd_inv hi h

theorem transfer_fd_inv {xfer : List XferEnv} {s s1 : ftp_session_t}
    (hi : fd_inv s) (h : ftp_session_transfer xfer s = some s1) : fd_inv s1 := by
  induction xfer generalizing s with
  | nil => simp [ftp_session_transfer] at h
  | cons e es ih =>
    simp only [ftp_session_transfer] at h
    cases hc : call_transfer e s with
    | none => simp [hc] at h
    | some p =>
      obtain ⟨rc, s2⟩ := p
      have hi2 := call_transfer_fd_inv hi hc
      simp only [hc] at h
      split_ifs at h
      · exact ih hi2 h
      · simp only [Option.some.injEq] at h
        subst h
        exact hi2

/-- One call of `ftp_session_poll` leaves the descriptor invariant in force. -/
theorem poll_fd_inv {w fuel : Nat} {inp : PollIn} {s s1 : ftp_session_t}
    (hi : fd_inv s) (h : ftp_session_poll w fuel inp s = some s1) : fd_inv s1 := by
  simp only [ftp_session_poll] at h
  cases hs : s.state <;> simp only [hs] at h <;> split_ifs at h
  all_goals first
    | exact read_command_fd_inv hi h
    | exact transfer_fd_inv hi h
    | (simp only [Option.some.injEq] at h
       subst h
       first
         | exact hi
         | exact fd_inv_clean _ _ _
         | exact (accept_fd_inv _ _).1
         | exact (accept_fd_inv _ _).2 (not_not.mp (by assumption)))

theorem run_fd_inv {w fuel : Nat} {inputs : List PollIn} {s s1 : ftp_session_t}
    (hi : fd_inv s) (h : run w fuel inputs s = some s1) : fd_inv s1 := by
  induction inputs generalizing s with
  | nil =>
    simp only [run, Option.some.injEq] at h
    subst h
    exact hi
  | cons inp rest ih =>
    simp only [run] at h
    split_ifs at h
    cases hp : ftp_session_poll w fuel inp s with
    | none => simp [hp] at h
    | some s2 =>
      simp only [hp] at h
      exact ih (poll_fd_inv hi hp) h

theorem new_fd_inv {env : Env} {junk s0 : ftp_session_t}
    (h : ftp_session_new env junk = some s0) : fd_inv s0 := by
  simp only [ftp_session_new] at h
  split_ifs at h
  simp only [Option.some.injEq] at h
  subst h
  simp [fd_inv, ftp_send_response]

/-- The descriptor invariant holds in every reachable session state. -/
theorem reachable_fd_inv {w : Nat} {s : ftp_session_t} (h : Reachable w s) : fd_inv s := by
  obtain ⟨fuel, env, junk, s0, inputs, h0, hr⟩ := h
  exact run_fd_inv (new_fd_inv h0) hr

theorem reachable_run0 {inputs : List PollIn}
    (h : (run 32 1 inputs session0).isSome = true) : Reachable 32 (run0 inputs) := by
  refine ⟨1, env_new, zero_session, session0, inputs, by decide, ?_⟩
  obtain ⟨s, hs⟩ := Option.isSome_iff_exists.mp h
  simp [run0, hs]

/-! ## Claims about the descriptors -/

/-- C5, as stated, fails: after a new session has handled `PASV` it is in
Command state and holds the listener (descriptor 5) besides `cmd_fd`
(descriptor 4). -/
theorem C5_counterexample :
    ftp_session_new env_new zero_session = some session0 ∧
      ∃ s, run 32 1 [poll_line env_ok "PASV\r\n"] session0 = some s ∧
        s.state = .COMMAND_STATE ∧ s.pasv_fd = 5 ∧ s.cmd_fd = 4 := by
  refine ⟨by decide, _, rfl, ?_, ?_, ?_⟩ <;> decide

/-- C5 (amended): whenever a session is in Command state after a command
handler or poll step has returned, `data_fd` is closed, and `pasv_fd` is open
only while `SESSION_PASV` is set, that is only as the listener a successful
`PASV` has opened. -/
theorem C5_command_state_descriptors (w : Nat) (s : ftp_session_t) (h : Reachable w s)
    (hs : s.state = .COMMAND_STATE) :
    s.data_fd < 0 ∧ (0 ≤ s.pasv_fd → s.flags.SESSION_PASV = true) :=
  (reachable_fd_inv h).1 hs

/-- C5 (amended) at a concrete state: the session after `PASV`. -/
theorem C5_command_state_descriptors_witness :
    (run0 [poll_line env_ok "PASV\r\n"]).data_fd < 0 ∧
      (0 ≤ (run0 [poll_line env_ok "PASV\r\n"]).pasv_fd →
        (run0 [poll_line env_ok "PASV\r\n"]).flags.SESSION_PASV = true) :=
  C5_command_state_descriptors 32 (run0 [poll_line env_ok "PASV\r\n"])
    (reachable_run0 (by decide)) (by decide)

/-- C6 (defect in the code): after `PASV`, `USER x`, `LIST` the session is in
DataConnect state with `pasv_fd` closed.  `USER` resets the state, which
closes the listener but leaves `SESSION_PASV` set, so `LIST` still takes the
passive route. -/
theorem C6_data_connect_without_listener :
    ftp_session_new env_new zero_session = some session0 ∧
      ∃ s, run 32 1 [poll_line env_ok "PASV\r\n", poll_line env_ok "USER x\r\n",
            poll_line env_ok "LIST\r\n"] session0 = some s ∧
        s.state = .DATA_CONNECT_STATE ∧ s.pasv_fd = -1 ∧ s.data_fd = -1 ∧
        s.flags.SESSION_PASV = true := by
  refine ⟨by decide, _, rfl, ?_, ?_, ?_, ?_⟩ <;> decide

/-- C7: whenever a session is in DataTransfer state after a command handler or
poll step has returned, `data_fd` is open and `pasv_fd` is closed. -/
theorem C7_data_transfer_descriptors (w : Nat) (s : ftp_session_t) (h : Reachable w s)
    (hs : s.state = .DATA_TRANSFER_STATE) : 0 ≤ s.data_fd ∧ s.pasv_fd < 0 :=
  (reachable_fd_inv h).2.2 hs

/-- C7 at two concrete states: the active route (`PORT`, then `LIST`) and the
passive route (`PASV`, then `LIST`, then the accepted connection). -/
theorem C7_data_transfer_descriptors_witness :
    (0 ≤ (run0 [poll_line env_ok "PORT 127,0,0,1,4,1\r\n", poll_line env_ok "LIST\r\n"]).data_fd ∧
      (run0 [poll_line env_ok "PORT 127,0,0,1,4,1\r\n", poll_line env_ok "LIST\r\n"]).pasv_fd < 0) ∧
    (0 ≤ (run0 [poll_line env_ok "PASV\r\n", poll_line env_ok "LIST\r\n",
              poll_ready env_ok []]).data_fd ∧
      (run0 [poll_line env_ok "PASV\r\n", poll_line env_ok "LIST\r\n",
              poll_ready env_ok []]).pasv_fd < 0) :=
  ⟨C7_data_transfer_descriptors 32
      (run0 [poll_line env_ok "PORT 127,0,0,1,4,1\r\n", poll_line env_ok "LIST\r\n"])
      (reachable_run0 (by decide)) (by decide),
    C7_data_transfer_descriptors 32
      (run0 [poll_line env_ok "PASV\r\n", poll_line env_ok "LIST\r\n", poll_ready env_ok []])
      (reachable_run0 (by decide)) (by decide)⟩

/-! ## The rename flag -/

theorem bsearch_loop_mem {key : List Char} {base : List ftp_command_t} {c : ftp_command_t} :
    ∀ (fuel l u : Nat), bsearch_loop key base fuel l u = some c → c ∈ base := by
  intro fuel
  induction fuel with
  | zero => intro l u h; simp [bsearch_loop] at h
  | succ n ih =>
    intro l u h
    unfold bsearch_loop at h
    split_ifs at h
    dsimp only at h
    split at h
    · simp at h
    · rename_i p hg
      split_ifs at h
      · exact ih _ _ h
      · exact ih _ _ h
      · simp only [Option.some.injEq] at h
        subst h
        exact List.get?_mem hg

/-- What `bsearch` returns is an entry of the table. -/
theorem bsearch_mem {key : List Char} {base : List ftp_command_t} {c : ftp_command_t}
    (h : bsearch key base = some c) : c ∈ base :=
  bsearch_loop_mem _ _ _ h

set_option maxRecDepth 100000 in
theorem utoa_all_isdigit : ∀ h < 256, (utoa h).all isdigit = true := by decide

set_option maxRecDepth 100000 in
theorem utoa_ne_nil : ∀ h < 256, utoa h ≠ [] := by decide

set_option maxRecDepth 100000 in
theorem utoa_digits_value : ∀ h < 256, digits_value 0 (utoa h) = h := by decide

theorem PORT_commas_no_comma (ds rest : List Char) (k : Nat) (h : ∀ c ∈ ds, c ≠ ',') :
    PORT_commas (ds ++ rest) k =
      (ds ++ (PORT_commas rest k).1, (PORT_commas rest k).2.1, (PORT_commas rest k).2.2) := by
  induction ds with
  | nil => simp
  | cons d ds ih =>
    have hd : d ≠ ',' := h d (List.mem_cons_self _ _)
    have ih2 := ih (fun c hc => h c (List.mem_cons_of_mem _ hc))
    simp only [List.cons_append, PORT_commas, hd, ↓reduceIte, List.append_eq, ih2]

theorem PORT_commas_nil_right (ds : List Char) (k : Nat) (h : ∀ c ∈ ds, c ≠ ',') :
    PORT_commas ds k = (ds, none, k) := by
  have := PORT_commas_no_comma ds [] k h
  simpa [PORT_commas] using this

theorem utoa_no_comma {h : Nat} (hh : h < 256) : ∀ c ∈ utoa h, c ≠ ',' := by
  intro c hc hcc
  have := List.all_eq_true.mp (utoa_all_isdigit h hh) c hc
  subst hcc
  simp [isdigit] at this

/-- The first loop of `PORT` on a canonical argument. -/
theorem PORT_commas_args {h1 h2 h3 h4 p1 p2 : Nat} (a1 : h1 < 256) (a2 : h2 < 256)
    (a3 : h3 < 256) (a4 : h4 < 256) (a5 : p1 < 256) (a6 : p2 < 256) :
    PORT_commas (PORT_args h1 h2 h3 h4 p1 p2) 0 =
      (utoa h1 ++ '.' :: (utoa h2 ++ '.' :: (utoa h3 ++ '.' :: utoa h4)),
        some (utoa p1 ++ '.' :: utoa p2), 5) := by
  simp only [PORT_args, PORT_commas_no_comma _ _ _ (utoa_no_comma a1),
    PORT_commas_no_comma _ _ _ (utoa_no_comma a2), PORT_commas_no_comma _ _ _ (utoa_no_comma a3),
    PORT_commas_no_comma _ _ _ (utoa_no_comma a4), PORT_commas_no_comma _ _ _ (utoa_no_comma a5),
    PORT_commas_nil_right _ _ (utoa_no_comma a6), PORT_commas]
  simp

set_option maxRecDepth 4000 in
theorem inet_aton_step0 (h : Nat) (hh : h < 256) (k : Nat) (rest : List Char) :
    inet_aton_loop (k + 1) (utoa h ++ '.' :: rest) [] = inet_aton_loop k rest [h] := by
  interval_cases h
  · cases rest with
    | nil => rfl
    | cons r rs => rfl
  all_goals rfl

set_option maxRecDepth 4000 in
theorem inet_aton_step1 (h : Nat) (hh : h < 256) (k a : Nat) (rest : List Char) :
    inet_aton_loop (k + 1) (utoa h ++ '.' :: rest) [a] = inet_aton_loop k rest [a, h] := by
  interval_cases h
  · cases rest with
    | nil => rfl
    | cons r rs => rfl
  all_goals rfl

set_option maxRecDepth 4000 in
theorem inet_aton_step2 (h : Nat) (hh : h < 256) (k a b : Nat) (rest : List Char) :
    inet_aton_loop (k + 1) (utoa h ++ '.' :: rest) [a, b] = inet_aton_loop k rest [a, b, h] := by
  interval_cases h
  · cases rest with
    | nil => rfl
    | cons r rs => rfl
  all_goals rfl

set_option maxRecDepth 4000 in
theorem inet_aton_last (h : Nat) (hh : h < 256) (k a b c : Nat) :
    inet_aton_loop (k + 1) (utoa h) [a, b, c] =
      some (a * 2 ^ 24 + b * 2 ^ 16 + c * 2 ^ 8 + h) := by
  interval_cases h <;> rfl

/-- Library `inet_aton` reads a canonical dotted quad as its address. -/
theorem inet_aton_quad {h1 h2 h3 h4 : Nat} (a1 : h1 < 256) (a2 : h2 < 256) (a3 : h3 < 256)
    (a4 : h4 < 256) :
    inet_aton (utoa h1 ++ '.' :: (utoa h2 ++ '.' :: (utoa h3 ++ '.' :: utoa h4))) =
      some (ipv4 h1 h2 h3 h4) := by
  rw [inet_aton, inet_aton_step0 h1 a1, inet_aton_step1 h2 a2, inet_aton_step2 h3 a3,
    inet_aton_last h4 a4, ipv4]

theorem le_digits_value (ds : List Char) (v : Nat) : v ≤ digits_value v ds := by
  induction ds generalizing v with
  | nil => simp [digits_value]
  | cons d ds ih =>
    have := ih (v * 10 + (d.toNat - '0'.toNat))
    simp only [digits_value, List.foldl_cons] at this ⊢
    omega

/-- The second loop of `PORT` over a run of digits whose value fits the
`unsigned long`. -/
theorem PORT_loop_digits (w : Nat) (ds rest : List Char) (first : Bool) (v : Nat) (port : Int)
    (hd : ds.all isdigit = true) (hne : ds ≠ []) (hv : digits_value v ds < 2 ^ w) :
    PORT_loop w (ds ++ rest) first v port = PORT_loop w rest false (digits_value v ds) port := by
  induction ds generalizing v first with
  | nil => exact absurd rfl hne
  | cons d ds ih =>
    simp only [List.all_cons, Bool.and_eq_true] at hd
    have hle := le_digits_value ds (v * 10 + (d.toNat - '0'.toNat))
    have hv2 : digits_value (v * 10 + (d.toNat - '0'.toNat)) ds < 2 ^ w := by
      simpa only [digits_value, List.foldl_cons] using hv
    have hmod : (v * 10 + (d.toNat - '0'.toNat)) % 2 ^ w = v * 10 + (d.toNat - '0'.toNat) :=
      Nat.mod_eq_of_lt (by omega)
    simp only [List.cons_append, PORT_loop, hd.1, Bool.not_true, Bool.false_eq_true, ↓reduceIte,
      hmod, List.append_eq]
    cases ds with
    | nil => simp [digits_value]
    | cons e es =>
      rw [ih false _ hd.2 (by simp) hv2]
      simp [digits_value]

theorem to_short_small {x : Int} (h0 : 0 ≤ x) (h1 : x < 32768) : to_short x = x := by
  unfold to_short
  omega

/-- The second loop of `PORT` on a canonical port text. -/
theorem PORT_loop_args {w p1 p2 : Nat} (hw : 32 ≤ w) (a5 : p1 < 256) (a6 : p2 < 256) :
    PORT_loop w (utoa p1 ++ '.' :: utoa p2) true 0 0 = some (p2, (p1 : Int)) := by
  have hpow : 256 ≤ 2 ^ w := by
    calc 256 = 2 ^ 8 := by norm_num
      _ ≤ 2 ^ w := Nat.pow_le_pow_right (by norm_num) (by omega)
  have e1 : digits_value 0 (utoa p1) = p1 := utoa_digits_value p1 a5
  have e2 : digits_value 0 (utoa p2) = p2 := utoa_digits_value p2 a6
  rw [PORT_loop_digits w _ _ _ _ _ (utoa_all_isdigit p1 a5) (utoa_ne_nil p1 a5) (by omega), e1]
  have hdot : isdigit '.' = false := by decide
  have hp : ¬ (p1 > 255) := by omega
  simp only [PORT_loop, hdot, Bool.not_false, ↓reduceIte, Bool.false_eq_true, ne_eq,
    not_true_eq_false, hp, or_self, zero_mul]
  have h3 := PORT_loop_digits w (utoa p2) [] false 0 (to_short (to_short 0 + (p1 : Int)))
    (utoa_all_isdigit p2 a6) (utoa_ne_nil p2 a6) (by omega)
  rw [List.append_nil] at h3
  rw [h3, e2]
  have hs0 : to_short 0 = 0 := by decide
  rw [hs0, zero_add, to_short_small (by omega) (by omega)]
  simp [PORT_loop]

theorem port_value {p1 p2 : Nat} (a5 : p1 < 256) (a6 : p2 < 256) :
    (to_short (to_short ((p1 : Int) * 256) + (p2 : Int)) % 65536).toNat = p1 * 256 + p2 := by
  unfold to_short
  omega

/-- What `PORT` does with a canonical argument. -/
theorem PORT_of_args {w : Nat} (env : Env) (s : ftp_session_t) {h1 h2 h3 h4 p1 p2 : Nat}
    (hw : 32 ≤ w) (hdup : env.strdup_ok = true) (a1 : h1 < 256) (a2 : h2 < 256)
    (a3 : h3 < 256) (a4 : h4 < 256) (a5 : p1 < 256) (a6 : p2 < 256) :
    PORT w env s (PORT_args h1 h2 h3 h4 p1 p2) =
      ftp_send_response
        { ftp_session_set_state s .COMMAND_STATE with
          peer_addr := ⟨ipv4 h1 h2 h3 h4, p1 * 256 + p2⟩
          flags := { (ftp_session_set_state s .COMMAND_STATE).flags with
                     SESSION_PASV := false, SESSION_PORT := true } }
        200 "OK\r\n".toList := by
  have hp1 : ¬ ((p1 : Int) > 255) := by omega
  have hp2 : ¬ (p2 > 255) := by omega
  simp only [PORT, hdup, Bool.not_true, Bool.false_eq_true, ↓reduceIte,
    PORT_commas_args a1 a2 a3 a4 a5 a6, ne_eq, not_true_eq_false, inet_aton_quad a1 a2 a3 a4,
    Option.getD_some, PORT_loop_args hw a5 a6, hp1, hp2, or_self, port_value a5 a6]

theorem PORT_commas_count (args : List Char) (k : Nat) :
    (PORT_commas args k).2.2 = k + args.count ',' := by
  induction args generalizing k with
  | nil => simp [PORT_commas]
  | cons c cs ih =>
    by_cases hc : c = ','
    · subst hc
      by_cases hk : k = 3
      · simp only [PORT_commas, hk, ↓reduceIte, ne_eq, not_true_eq_false, ih, List.count_cons_self]
        omega
      · simp only [PORT_commas, ↓reduceIte, ne_eq, hk, not_false_eq_true, ih,
          List.count_cons_self]
        omega
    · have hc2 : (c == ',') = false := by simpa using hc
      simp only [PORT_commas, hc, ↓reduceIte, ih, List.count_cons, hc2, Bool.false_eq_true]
      omega

/-- The part of C9 that holds: an argument that does not contain exactly five
commas gets the 501 reply, `peer_addr` keeps its value and both mode flags are
clear. -/
theorem PORT_wrong_comma_count (w : Nat) (env : Env) (s : ftp_session_t) (args : List Char)
    (hdup : env.strdup_ok = true) (h : args.count ',' ≠ 5) :
    PORT w env s args =
      ftp_send_response
        { ftp_session_set_state s .COMMAND_STATE with
          flags := { (ftp_session_set_state s .COMMAND_STATE).flags with
                     SESSION_PASV := false, SESSION_PORT := false } }
        501 "Invalid argument\r\n".toList := by
  have hc : (PORT_commas args 0).2.2 ≠ 5 := by
    rw [PORT_commas_count]
    omega
  simp only [PORT, hdup, Bool.not_true, Bool.false_eq_true, ↓reduceIte, ne_eq, hc,
    not_false_eq_true]
  rfl

/-! ## Claims about `PORT` -/

/-- C9 (defect in the code): the last component of `127,0,0,1,0,4294967296`
has the decimal value 2^32 > 255, so the claim has `PORT` reply 501.  With a
32-bit `unsigned long` the accumulator `val` wraps to 0: `PORT` replies
`200 OK`, stores 127.0.0.1 port 0 in `peer_addr` and sets `SESSION_PORT`.
With a 64-bit `unsigned long` the same happens for the component 2^64. -/
theorem C9_port_component_overflow_accepted :
    (PORT 32 env_ok session0 "127,0,0,1,0,4294967296".toList).flags.SESSION_PORT = true ∧
    (PORT 32 env_ok session0 "127,0,0,1,0,4294967296".toList).peer_addr = ⟨2130706433, 0⟩ ∧
    (PORT 32 env_ok session0 "127,0,0,1,0,4294967296".toList).events =
      [Event.cmd_send "200 Hello!\r\n".toList, Event.cmd_send "200 OK\r\n".toList] ∧
    (PORT 64 env_ok session0 "127,0,0,1,0,18446744073709551616".toList).flags.SESSION_PORT
      = true ∧
    (PORT 64 env_ok session0 "127,0,0,1,0,18446744073709551616".toList).peer_addr =
      ⟨2130706433, 0⟩ ∧
    (PORT 64 env_ok session0 "127,0,0,1,0,18446744073709551616".toList).events =
      [Event.cmd_send "200 Hello!\r\n".toList, Event.cmd_send "200 OK\r\n".toList] := by
  refine ⟨?_, ?_, ?_, ?_, ?_, ?_⟩ <;> decide

/-- For an argument `h1,h2,h3,h4,p1,p2` made of six numbers of at most 255,
each written in decimal without leading zeros (`PORT_args`), on a platform
whose `unsigned long` has at least 32 bits and when `strdup` succeeds, `PORT`
stores the address h1.h2.h3.h4 with the port p1*256+p2 in `peer_addr`, sets
`SESSION_PORT`, leaves `SESSION_PASV` clear and replies `200 OK`. -/
theorem PORT_stores_peer (w : Nat) (env : Env) (s : ftp_session_t)
    (h1 h2 h3 h4 p1 p2 : Nat) (hw : 32 ≤ w) (hdup : env.strdup_ok = true)
    (a1 : h1 ≤ 255) (a2 : h2 ≤ 255) (a3 : h3 ≤ 255) (a4 : h4 ≤ 255)
    (a5 : p1 ≤ 255) (a6 : p2 ≤ 255) :
    (PORT w env s (PORT_args h1 h2 h3 h4 p1 p2)).peer_addr =
      ⟨ipv4 h1 h2 h3 h4, p1 * 256 + p2⟩ ∧
    (PORT w env s (PORT_args h1 h2 h3 h4 p1 p2)).flags.SESSION_PORT = true ∧
    (PORT w env s (PORT_args h1 h2 h3 h4 p1 p2)).flags.SESSION_PASV = false ∧
    (PORT w env s (PORT_args h1 h2 h3 h4 p1 p2)).events =
      s.events ++ [Event.cmd_send "200 OK\r\n".toList] := by
  rw [PORT_of_args env s hw hdup (by omega) (by omega) (by omega) (by omega) (by omega)
    (by omega)]
  refine ⟨rfl, rfl, rfl, ?_⟩
  simp only [ftp_send_response, set_state_events]
  have hb : response_bytes 200 "OK\r\n".toList = "200 OK\r\n".toList := by decide
  rw [hb]

/-- An input with p1 >= 128, where the `short` accumulator wraps:
`192,168,1,2,200,13` yields 192.168.1.2 port 51213. -/
theorem PORT_stores_peer_sample :
    PORT_args 192 168 1 2 200 13 = "192,168,1,2,200,13".toList ∧
    (PORT 32 env_ok session0 (PORT_args 192 168 1 2 200 13)).peer_addr =
      ⟨ipv4 192 168 1 2, 200 * 256 + 13⟩ ∧
    (PORT 32 env_ok session0 (PORT_args 192 168 1 2 200 13)).flags.SESSION_PORT = true ∧
    (PORT 32 env_ok session0 (PORT_args 192 168 1 2 200 13)).flags.SESSION_PASV = false ∧
    (PORT 32 env_ok session0 (PORT_args 192 168 1 2 200 13)).events =
      session0.events ++ [Event.cmd_send "200 OK\r\n".toList] :=
  ⟨by decide, PORT_stores_peer 32 env_ok session0 192 168 1 2 200 13 (by decide) rfl
    (by decide) (by decide) (by decide) (by decide) (by decide) (by decide)⟩

/-- C10 (defect in the code): in `127,0,0,010,0,20` the six decimal numbers
are 127, 0, 0, 10, 0 and 20, so the claim has `PORT` store 127.0.0.10 port 20.
The address part goes through `inet_aton`, which reads a component with a
leading zero as octal: `PORT` replies `200 OK` and stores 127.0.0.8.  For the
decimal number 8 written `08` it replies 501 and `SESSION_PORT` stays clear.
The port part is parsed by the loop of `PORT` itself, which reads `020` as the
decimal number 20. -/
theorem C10_leading_zero_read_as_octal :
    (PORT 32 env_ok session0 "127,0,0,010,0,20".toList).peer_addr = ⟨ipv4 127 0 0 8, 20⟩ ∧
    (PORT 32 env_ok session0 "127,0,0,010,0,20".toList).peer_addr ≠ ⟨ipv4 127 0 0 10, 20⟩ ∧
    (PORT 32 env_ok session0 "127,0,0,010,0,20".toList).flags.SESSION_PORT = true ∧
    (PORT 32 env_ok session0 "127,0,0,010,0,20".toList).events =
      [Event.cmd_send "200 Hello!\r\n".toList, Event.cmd_send "200 OK\r\n".toList] ∧
    (PORT 64 env_ok session0 "127,0,0,010,0,20".toList).peer_addr = ⟨ipv4 127 0 0 8, 20⟩ ∧
    (PORT 32 env_ok session0 "127,0,0,08,0,20".toList).flags.SESSION_PORT = false ∧
    (PORT 32 env_ok session0 "127,0,0,08,0,20".toList).events =
      [Event.cmd_send "200 Hello!\r\n".toList,
        Event.cmd_send "501 Invalid argument\r\n".toList] ∧
    (PORT 32 env_ok session0 "127,0,0,1,0,020".toList).peer_addr = ⟨ipv4 127 0 0 1, 20⟩ := by
  refine ⟨?_, ?_, ?_, ?_, ?_, ?_, ?_, ?_⟩ <;> decide

/-! ## `CWD` with plain arguments -/

theorem plain_no_slash {args : List Char} (hp : plain args) : '/' ∉ args := by
  intro h
  rcases hp.2 _ h with h1 | h1 <;> simp at h1

theorem plain_not_infix {args needle : List Char} (hp : plain args) (hn : '/' ∈ needle) :
    strstr args needle = none := by
  rw [strstr_eq_none_iff]
  intro hi
  exact plain_no_slash hp (hi.subset hn)

theorem validate_path_plain (fuel : Nat) {args : List Char} (hp : plain args) :
    validate_path (fuel + 1) args = some 0 :=
  validate_path_eq_zero_iff.mpr
    ⟨by simp, plain_not_infix hp (by simp), plain_not_infix hp (by simp)⟩

theorem plain_getLast {args : List Char} (hp : plain args) (pre : List Char)
    (h : pre ++ '/' :: args ≠ []) : (pre ++ '/' :: args).getLast h ≠ '/' := by
  have h1 : (pre ++ '/' :: args).getLast h = args.getLast hp.1 := by
    rw [List.getLast_append_of_ne_nil (by simp), List.getLast_cons hp.1]
  rw [h1]
  intro hc
  exact plain_no_slash hp (hc ▸ List.getLast_mem hp.1)

theorem spec_path_plain {cwd args : List Char} (hp : plain args) :
    spec_path cwd args = spec_unstripped cwd args ∧
      spec_unstripped cwd args = if cwd = ['/'] then '/' :: args else cwd ++ '/' :: args := by
  have hh : args.head? ≠ some '/' := by
    intro h
    exact plain_no_slash hp (List.mem_of_mem_head? h)
  have hu : spec_unstripped cwd args = if cwd = ['/'] then '/' :: args else cwd ++ '/' :: args := by
    simp only [spec_unstripped, hh, ↓reduceIte]
  refine ⟨?_, hu⟩
  have hr : (spec_unstripped cwd args).rdropWhile (fun c => decide (c = '/')) =
      spec_unstripped cwd args := by
    rw [List.rdropWhile_eq_self_iff]
    intro hl
    rw [decide_eq_true_eq]
    revert hl
    rw [hu]
    split_ifs
    · intro hl
      exact plain_getLast hp [] hl
    · intro hl
      exact plain_getLast hp cwd hl
  have hne : spec_unstripped cwd args ≠ [] := by
    rw [hu]
    split_ifs <;> simp
  simp only [spec_path, hr, hne, ↓reduceIte]

/-- `CWD` with a plain argument, when the filesystem says the joined path is a
directory: `cwd` becomes the first 4096 characters of the joined path. -/
theorem CWD_plain (fuel : Nat) (s : ftp_session_t) {args : List Char} (hp : plain args)
    (hlen : (s.cwd ++ '/' :: args).length ≤ 32767) :
    ∃ s1, CWD (fuel + 1) env_ok s args = some s1 ∧
      s1.state = .COMMAND_STATE ∧ s1.cmd_fd = s.cmd_fd ∧
      s1.cwd = (if s.cwd = ['/'] then '/' :: args else s.cwd ++ '/' :: args).take CWD_SIZE ∧
      s1.events = s.events ++ [Event.cmd_send "200 OK\r\n".toList] := by
  have hdd : args ≠ ['.', '.'] := by
    intro h
    have := hp.2 '.' (by simp [h])
    simp at this
  have hsp := @spec_path_plain s.cwd args hp
  have hl2 : ¬ (spec_unstripped s.cwd args).length > 32767 := by
    rw [hsp.2]
    split_ifs with hc
    · rw [hc] at hlen
      simp only [List.length_cons, List.length_append, List.length_nil] at hlen ⊢
      omega
    · omega
  have hb : response_bytes 200 "OK\r\n".toList = "200 OK\r\n".toList := by decide
  have hC : CWD (fuel + 1) env_ok s args =
      some (ftp_send_response
        { ftp_session_set_state s .COMMAND_STATE with
          buffer := spec_path s.cwd args
          cwd := (spec_path s.cwd args).take CWD_SIZE }
        200 "OK\r\n".toList) := by
    simp only [CWD, hdd, ↓reduceIte, build_path_of_valid _ (validate_path_plain fuel hp),
      set_state_cwd, hl2]
    simp only [env_ok, ne_eq, not_true_eq_false, ↓reduceIte]
  refine ⟨_, hC, ?_, ?_, ?_, ?_⟩
  · simp only [ftp_send_response, set_state_state]
  · simp only [ftp_send_response, set_state_cmd_fd]
  · simp only [ftp_send_response, hsp.1, hsp.2]
  · simp only [ftp_send_response, set_state_events, hb]

set_option maxRecDepth 10000 in
theorem bsearch_CWD : bsearch ['C', 'W', 'D'] ftp_commands = some ⟨"CWD".toList, .CWD⟩ := by
  decide

/-- A `CWD` line with a plain argument is parsed into the verb and the
argument and reaches the `CWD` handler. -/
theorem read_command_cwd_plain (w fuel : Nat) (env : Env) (s : ftp_session_t)
    {args : List Char} (hp : plain args) (hl : args.length ≤ 1019) :
    ftp_session_read_command w fuel (some ('C' :: 'W' :: 'D' :: ' ' :: args)) env s =
      CWD fuel env { s with flags := { s.flags with SESSION_RENAME := false } } args := by
  have hq : ∀ c ∈ args, c ≠ '\x00' ∧ c ≠ '\r' ∧ c ≠ '\n' := by
    intro c hc
    rcases hp.2 c hc with h | h <;> subst h <;> decide
  have hline : command_line ('C' :: 'W' :: 'D' :: ' ' :: args) = 'C' :: 'W' :: 'D' :: ' ' :: args := by
    have ht : ∀ n, ('C' :: 'W' :: 'D' :: ' ' :: args).length ≤ n →
        List.take n ('C' :: 'W' :: 'D' :: ' ' :: args) = 'C' :: 'W' :: 'D' :: ' ' :: args :=
      fun n hn => List.take_of_length_le hn
    have hlen : ('C' :: 'W' :: 'D' :: ' ' :: args).length ≤ 1023 := by
      simp only [List.length_cons]
      omega
    simp only [command_line, CMD_BUFFERSIZE, ht 1024 (by omega), ht (1024 - 1) (by omega)]
    rw [List.takeWhile_eq_self_iff]
    intro c hc
    simp only [List.mem_cons] at hc
    rcases hc with h | h | h | h | h
    · subst h; decide
    · subst h; decide
    · subst h; decide
    · subst h; decide
    · simpa using hq c h
  have hname : command_name ('C' :: 'W' :: 'D' :: ' ' :: args) = ['C', 'W', 'D'] := by
    simp [command_name, List.takeWhile, isspace]
  have hargs : command_args ('C' :: 'W' :: 'D' :: ' ' :: args) = args := by
    simp [command_args, List.dropWhile, isspace]
  have hz : strcasecmp "CWD".toList "RNTO".toList ≠ 0 := by decide
  have hne : ¬ (List.take CMD_BUFFERSIZE ('C' :: 'W' :: 'D' :: ' ' :: args)).length = 0 := by
    simp [CMD_BUFFERSIZE]
  simp only [ftp_session_read_command, hne, ↓reduceIte, hline, hname, hargs, bsearch_CWD, hz,
    ne_eq, not_false_eq_true, call_handler]

/-- One poll of a session in Command state that receives a `CWD` line with a
plain argument. -/
theorem poll_cwd_plain (w fuel : Nat) (s : ftp_session_t) {args : List Char}
    (hst : s.state = .COMMAND_STATE) (hfd : 0 ≤ s.cmd_fd) (hp : plain args)
    (hl : args.length ≤ 1019) (hlen : (s.cwd ++ '/' :: args).length ≤ 32767)
    (rest : List PollIn) :
    ∃ s1, run w (fuel + 1) (cwd_line args :: rest) s = run w (fuel + 1) rest s1 ∧
      s1.state = .COMMAND_STATE ∧ 0 ≤ s1.cmd_fd ∧
      s1.cwd = (if s.cwd = ['/'] then '/' :: args else s.cwd ++ '/' :: args).take CWD_SIZE := by
  obtain ⟨s1, h1, h2, h3, h4, -⟩ :=
    CWD_plain fuel { s with flags := { s.flags with SESSION_RENAME := false } } hp hlen
  refine ⟨s1, ?_, h2, by rw [h3]; exact hfd, h4⟩
  have hpoll : ftp_session_poll w (fuel + 1) (cwd_line args) s = some s1 := by
    simp only [ftp_session_poll, cwd_line, poll_bytes]
    rw [hst]
    simp [read_command_cwd_plain w (fuel + 1) env_ok s hp hl, h1]
  simp only [run, not_lt.mpr hfd, ↓reduceIte, hpoll]

theorem take_join (c a : List Char) (hc : c.length ≠ 1) (h : (c ++ '/' :: a).length ≤ 4096) :
    (if c = ['/'] then '/' :: a else c ++ '/' :: a).take CWD_SIZE = c ++ '/' :: a := by
  have hne : c ≠ ['/'] := by
    intro h1
    rw [h1] at hc
    exact hc rfl
  rw [if_neg hne]
  exact List.take_of_length_le h

/-- Six `CWD` commands with plain relative arguments of 1000, 1000, 1000,
1000, 90 and 1 characters, each answered by a filesystem that finds a
directory, starting in `/`: the sixth joined path has 4097 characters and
`strncpy` stores its first 4096, which end in the joining `/`. -/
theorem long_cwd_chain (w : Nat) (s0 : ftp_session_t) (a1 a2 a3 a4 a5 a6 : List Char)
    (hst : s0.state = .COMMAND_STATE) (hfd : 0 ≤ s0.cmd_fd) (hcwd : s0.cwd = ['/'])
    (p1 : plain a1) (p2 : plain a2) (p3 : plain a3) (p4 : plain a4) (p5 : plain a5)
    (p6 : plain a6) (l1 : a1.length = 1000) (l2 : a2.length = 1000) (l3 : a3.length = 1000)
    (l4 : a4.length = 1000) (l5 : a5.length = 90) (l6 : a6.length = 1) :
    ∃ s, run w 1 [cwd_line a1, cwd_line a2, cwd_line a3, cwd_line a4, cwd_line a5,
        cwd_line a6] s0 = some s ∧
      s.cwd = '/' :: a1 ++ '/' :: a2 ++ '/' :: a3 ++ '/' :: a4 ++ '/' :: a5 ++ ['/'] := by
  obtain ⟨s1, r1, st1, fd1, c1⟩ := poll_cwd_plain w 0 s0 hst hfd p1 (by omega)
    (by simp only [hcwd, List.length_append, List.length_cons, List.length_nil]; omega)
    [cwd_line a2, cwd_line a3, cwd_line a4, cwd_line a5, cwd_line a6]
  have e1 : s1.cwd = '/' :: a1 := by
    rw [c1, hcwd, if_pos rfl]
    exact List.take_of_length_le (by simp only [List.length_cons, CWD_SIZE]; omega)
  obtain ⟨s2, r2, st2, fd2, c2⟩ := poll_cwd_plain w 0 s1 st1 fd1 p2 (by omega)
    (by simp only [e1, List.length_append, List.length_cons]; omega)
    [cwd_line a3, cwd_line a4, cwd_line a5, cwd_line a6]
  have e2 : s2.cwd = '/' :: a1 ++ '/' :: a2 := by
    rw [c2, e1]
    exact take_join _ _ (by simp only [List.length_cons]; omega)
      (by simp only [List.length_append, List.length_cons]; omega)
  obtain ⟨s3, r3, st3, fd3, c3⟩ := poll_cwd_plain w 0 s2 st2 fd2 p3 (by omega)
    (by simp only [e2, List.length_append, List.length_cons]; omega)
    [cwd_line a4, cwd_line a5, cwd_line a6]
  have e3 : s3.cwd = '/' :: a1 ++ '/' :: a2 ++ '/' :: a3 := by
    rw [c3, e2]
    exact take_join _ _ (by simp only [List.length_append, List.length_cons]; omega)
      (by simp only [List.length_append, List.length_cons]; omega)
  obtain ⟨s4, r4, st4, fd4, c4⟩ := poll_cwd_plain w 0 s3 st3 fd3 p4 (by omega)
    (by simp only [e3, List.length_append, List.length_cons]; omega)
    [cwd_line a5, cwd_line a6]
  have e4 : s4.cwd = '/' :: a1 ++ '/' :: a2 ++ '/' :: a3 ++ '/' :: a4 := by
    rw [c4, e3]
    exact take_join _ _ (by simp only [List.length_append, List.length_cons]; omega)
      (by simp only [List.length_append, List.length_cons]; omega)
  obtain ⟨s5, r5, st5, fd5, c5⟩ := poll_cwd_plain w 0 s4 st4 fd4 p5 (by omega)
    (by simp only [e4, List.length_append, List.length_cons]; omega)
    [cwd_line a6]
  have e5 : s5.cwd = '/' :: a1 ++ '/' :: a2 ++ '/' :: a3 ++ '/' :: a4 ++ '/' :: a5 := by
    rw [c5, e4]
    exact take_join _ _ (by simp only [List.length_append, List.length_cons]; omega)
      (by simp only [List.length_append, List.length_cons]; omega)
  obtain ⟨s6, r6, -, -, c6⟩ := poll_cwd_plain w 0 s5 st5 fd5 p6 (by omega)
    (by simp only [e5, List.length_append, List.length_cons]; omega) []
  refine ⟨s6, ?_, ?_⟩
  · rw [r1, r2, r3, r4, r5, r6]
    rfl
  · have hlen : ('/' :: a1 ++ '/' :: a2 ++ '/' :: a3 ++ '/' :: a4 ++ '/' :: a5).length = 4095 := by
      simp only [List.length_append, List.length_cons]
      omega
    have hne : ¬ ('/' :: a1 ++ '/' :: a2 ++ '/' :: a3 ++ '/' :: a4 ++ '/' :: a5) = ['/'] := by
      intro h
      rw [h] at hlen
      simp at hlen
    rw [c6, e5, if_neg hne, CWD_SIZE, List.take_append_eq_append_take, hlen,
      List.take_of_length_le (by omega)]
    rfl

theorem plain_replicate (n : Nat) (hn : 0 < n) : plain (List.replicate n 'a') := by
  refine ⟨?_, fun c hc => Or.inl (List.eq_of_mem_replicate hc)⟩
  intro h
  have := congrArg List.length h
  simp only [List.length_replicate, List.length_nil] at this
  omega

/-! ## The working directory stays well formed -/

/-- The loop of `cd_up` finds the last `/`. -/
theorem cd_up_loop_spec (cs : List Char) : ∀ (i : Nat) (slash : Option Nat),
    (∃ pre post, cs = pre ++ '/' :: post ∧ '/' ∉ post ∧
        cd_up_loop cs i slash = some (i + pre.length)) ∨
      ('/' ∉ cs ∧ cd_up_loop cs i slash = slash) := by
  induction cs with
  | nil =>
    intro i slash
    right
    simp [cd_up_loop]
  | cons c cs ih =>
    intro i slash
    rcases ih (i + 1) (if c = '/' then some i else slash) with ⟨pre, post, rfl, hp, h⟩ | ⟨hn, h⟩
    · left
      refine ⟨c :: pre, post, rfl, hp, ?_⟩
      simp only [cd_up_loop, h, List.length_cons, Option.some.injEq]
      omega
    · by_cases hc : c = '/'
      · subst hc
        left
        refine ⟨[], cs, rfl, hn, ?_⟩
        simpa [cd_up_loop] using h
      · right
        refine ⟨?_, ?_⟩
        · simp only [List.mem_cons, not_or]
          exact ⟨fun e => hc e.symm, hn⟩
        · simpa [cd_up_loop, hc] using h

/-- A `//` in a concatenation lies in one of the parts or across the joint. -/
theorem slashes_infix_append {a b : List Char} (h : ['/', '/'] <:+: a ++ b) :
    ['/', '/'] <:+: a ∨ ['/', '/'] <:+: b ∨ (a.getLast? = some '/' ∧ b.head? = some '/') := by
  obtain ⟨s, t, e⟩ := h
  have e1 : a ++ b = s ++ ('/' :: '/' :: t) := by simpa using e.symm
  rcases List.append_eq_append_iff.mp e1 with ⟨a1, rfl, hb⟩ | ⟨c1, ha, hc⟩
  · right
    left
    exact ⟨a1, t, by simp [hb]⟩
  · match c1, hc with
    | [], hc =>
      right
      left
      exact ⟨[], t, by simpa using hc⟩
    | [x], hc =>
      simp only [List.singleton_append, List.cons.injEq] at hc
      obtain ⟨rfl, hb⟩ := hc
      right
      right
      subst ha
      subst hb
      simp
    | x :: y :: c2, hc =>
      simp only [List.cons_append, List.cons.injEq] at hc
      obtain ⟨rfl, rfl, -⟩ := hc
      left
      exact ⟨s, c2, by simp [ha]⟩

theorem cwd_ok_root : cwd_ok ['/'] := by
  refine ⟨by decide, ?_⟩
  rintro ⟨s, t, e⟩
  have := congrArg List.length e
  simp at this
  omega

/-- `cd_up` keeps the working directory well formed. -/
theorem cd_up_cwd_ok {s s1 : ftp_session_t} (hc : cwd_ok s.cwd) (h : cd_up s = some s1) :
    cwd_ok s1.cwd := by
  simp only [cd_up] at h
  rcases cd_up_loop_spec s.cwd 0 none with ⟨pre, post, hcwd, -, hl⟩ | ⟨-, hl⟩
  · rw [hl] at h
    simp only [Option.some.injEq, Nat.zero_add] at h
    subst h
    simp only
    rw [hcwd, List.take_left]
    by_cases hpre : pre = []
    · subst hpre
      exact cwd_ok_root
    · rw [if_neg (by simpa using hpre)]
      obtain ⟨⟨hh, -⟩, hs⟩ := hc
      rw [hcwd] at hh hs
      refine ⟨⟨?_, Or.inr ?_⟩, ?_⟩
      · cases pre with
        | nil => exact absurd rfl hpre
        | cons x xs => simpa using hh
      · intro hlast
        apply hs
        obtain ⟨q, rfl⟩ : ∃ q, pre = q ++ ['/'] := by
          rcases List.eq_nil_or_concat pre with e | ⟨q, x, e⟩
          · exact absurd e hpre
          · subst e
            simp at hlast
            subst hlast
            exact ⟨q, by simp⟩
        exact ⟨q, post, by simp⟩
      · intro hi
        exact hs (hi.trans (List.prefix_append pre _).isInfix)
  · rw [hl] at h
    simp at h

/-- The resolved path holds no `//` when neither the working directory nor
the argument does. -/
theorem spec_path_no_slashes {cwd args : List Char} (hc : cwd_ok cwd)
    (h2 : ¬ ['/', '/'] <:+: args) : ¬ ['/', '/'] <:+: spec_path cwd args := by
  have hu : ¬ ['/', '/'] <:+: spec_unstripped cwd args := by
    unfold spec_unstripped
    by_cases hh : args.head? = some '/'
    · rw [if_pos hh]
      exact h2
    · rw [if_neg hh]
      have h1 : ¬ ['/', '/'] <:+: '/' :: args := by
        intro hi
        have hi1 : ['/', '/'] <:+: ['/'] ++ args := hi
        rcases slashes_infix_append hi1 with ⟨s, t, e⟩ | h | ⟨-, h⟩
        · have := congrArg List.length e
          simp at this
          omega
        · exact h2 h
        · exact hh h
      by_cases hr : cwd = ['/']
      · rw [if_pos hr]
        exact h1
      · rw [if_neg hr]
        intro hi
        rcases slashes_infix_append hi with h | h | ⟨h, -⟩
        · exact hc.2 h
        · exact h1 h
        · rcases hc.1.2 with e | e
          · exact hr e
          · exact e h
  unfold spec_path
  simp only
  split_ifs
  · exact cwd_ok_root.2
  · intro hi
    exact hu (hi.trans (List.rdropWhile_prefix _ _).isInfix)

/-- A path that `build_path` accepts passed `validate_path`. -/
theorem build_path_ok_valid {fuel : Nat} {s s1 : ftp_session_t} {args : List Char}
    (h : build_path fuel s args = some (.ok (), s1)) : validate_path fuel args = some 0 := by
  cases hv : validate_path fuel args with
  | none => simp [build_path, hv] at h
  | some rc =>
    by_cases hrc : rc = 0
    · rw [hrc]
    · simp [build_path, hv, hrc] at h

/-- The path `build_path` accepts is a well-formed working directory. -/
theorem build_path_cwd_ok {fuel : Nat} {s s1 : ftp_session_t} {args : List Char}
    (hc : cwd_ok s.cwd) (h : build_path fuel s args = some (.ok (), s1)) :
    cwd_ok s1.buffer := by
  have hv := build_path_ok_valid h
  rw [build_path_of_valid s hv] at h
  by_cases hl : (spec_unstripped s.cwd args).length > 32767
  · rw [if_pos hl] at h
    simp at h
  rw [if_neg hl] at h
  simp only [Option.some.injEq, Prod.mk.injEq, true_and] at h
  subst h
  have hw := spec_path_wf args hc.1.1
  obtain ⟨-, -, h2⟩ := validate_path_eq_zero_iff.mp hv
  exact ⟨⟨hw.2.1, hw.2.2⟩, spec_path_no_slashes hc (strstr_eq_none_iff.mp h2)⟩

/-- `CDUP` keeps the working directory well formed. -/
theorem CDUP_cwd_ok {s s1 : ftp_session_t} {args : List Char} (hc : cwd_ok s.cwd)
    (h : CDUP s args = some s1) : cwd_ok s1.cwd := by
  simp only [CDUP] at h
  cases hu : cd_up (ftp_session_set_state s .COMMAND_STATE) with
  | none => simp [hu] at h
  | some s2 =>
    simp only [hu, Option.some.injEq] at h
    subst h
    show cwd_ok s2.cwd
    exact cd_up_cwd_ok (by rw [set_state_cwd]; exact hc) hu

/-- `CWD` keeps the working directory well formed as long as the new working
directory fits its field together with the terminator. -/
theorem CWD_cwd_ok {fuel : Nat} {env : Env} {s s1 : ftp_session_t} {args : List Char}
    (hc : cwd_ok s.cwd) (h : CWD fuel env s args = some s1) (hlen : s1.cwd.length < CWD_SIZE) :
    cwd_ok s1.cwd := by
  have hc1 : cwd_ok (ftp_session_set_state s .COMMAND_STATE).cwd := by
    rw [set_state_cwd]
    exact hc
  simp only [CWD] at h
  split_ifs at h with h1 h2 h3
  · cases hu : cd_up (ftp_session_set_state s .COMMAND_STATE) with
    | none => simp [hu] at h
    | some s2 =>
      simp only [hu, Option.some.injEq] at h
      subst h
      show cwd_ok s2.cwd
      exact cd_up_cwd_ok hc1 hu
  all_goals
    cases hb : build_path fuel (ftp_session_set_state s .COMMAND_STATE) args with
    | none => simp [hb] at h
    | some p =>
      obtain ⟨r, s2⟩ := p
      have hf := build_path_frame hb
      cases r with
      | error e =>
        simp only [hb, Option.some.injEq] at h
        subst h
        have : s2.cwd = (ftp_session_set_state s .COMMAND_STATE).cwd := by rw [hf]
        show cwd_ok s2.cwd
        rw [this]
        exact hc1
      | ok u =>
        simp only [hb, Option.some.injEq] at h
        subst h
        have hcw : s2.cwd = (ftp_session_set_state s .COMMAND_STATE).cwd := by rw [hf]
        have hbo := build_path_cwd_ok hc1 hb
        first
          | (show cwd_ok s2.cwd
             rw [hcw]
             exact hc1)
          | (have hl : (s2.buffer.take CWD_SIZE).length < CWD_SIZE := hlen
             have ht : s2.buffer.take CWD_SIZE = s2.buffer := by
               apply List.take_of_length_le
               rw [List.length_take] at hl
               omega
             show cwd_ok (s2.buffer.take CWD_SIZE)
             rw [ht]
             exact hbo)

/-! ## Claim about the working directory -/

/-- C4 (defect in the code): a new session that handles the six `CWD`
commands of `long_cwd_inputs`, every path being reported as a directory, ends
with a `cwd` field of 4096 characters whose last one is `/`: `CWD` copies the
4097-character path with `strncpy(cwd, buffer, sizeof(cwd))`, which cuts it
behind the joining `/` (and stores no terminator). -/
theorem C4_cwd_ends_in_slash :
    ftp_session_new env_new zero_session = some session0 ∧
      ∃ s, run 32 1 long_cwd_inputs session0 = some s ∧
        s.cwd.length = 4096 ∧ s.cwd.getLast? = some '/' ∧ ¬ cwd_wf s.cwd := by
  refine ⟨by decide, ?_⟩
  obtain ⟨s, hr, hc⟩ := long_cwd_chain 32 session0 (List.replicate 1000 'a')
    (List.replicate 1000 'a') (List.replicate 1000 'a') (List.replicate 1000 'a')
    (List.replicate 90 'a') ['b'] rfl (by decide) rfl
    (plain_replicate _ (by omega)) (plain_replicate _ (by omega))
    (plain_replicate _ (by omega)) (plain_replicate _ (by omega))
    (plain_replicate _ (by omega)) ⟨by simp, by simp⟩
    (List.length_replicate _ _) (List.length_replicate _ _) (List.length_replicate _ _)
    (List.length_replicate _ _) (List.length_replicate _ _) rfl
  have hlen : s.cwd.length = 4096 := by
    rw [hc]
    simp only [List.length_append, List.length_cons, List.length_replicate, List.length_nil]
  have hlast : s.cwd.getLast? = some '/' := by
    rw [hc, List.getLast?_concat]
  refine ⟨s, hr, hlen, hlast, ?_⟩
  rintro ⟨-, h | h⟩
  · rw [h] at hlen
    simp at hlen
  · exact h hlast

/-! ## `ftp_session_set_state` -/

/-- Entering Command state a second time changes nothing. -/
theorem set_state_command_idem (s : ftp_session_t) :
    ftp_session_set_state (ftp_session_set_state s .COMMAND_STATE) .COMMAND_STATE =
      ftp_session_set_state s .COMMAND_STATE := by
  simp only [ftp_session_set_state, ftp_session_close_pasv, ftp_session_close_data]
  split_ifs <;> simp_all

/-- C20: `ftp_session_set_state` stores the new state.  With descriptors that
hold an open descriptor or the marker -1, entering Command state leaves
`pasv_fd` and `data_fd` at -1, entering DataConnect leaves `data_fd` at -1 and
`pasv_fd` as it was, entering DataTransfer leaves `pasv_fd` at -1 and
`data_fd` as it was.  In all three cases `cmd_fd`, `cwd` and the flags
`SESSION_PASV`, `SESSION_PORT` and `SESSION_RENAME` keep their values, and
entering Command state twice is the same as entering it once. -/
theorem C20_set_state_effect (s : ftp_session_t) (new : session_state_t)
    (hp : -1 ≤ s.pasv_fd) (hd : -1 ≤ s.data_fd) :
    (ftp_session_set_state s new).state = new ∧
    (new = .COMMAND_STATE →
      (ftp_session_set_state s new).pasv_fd = -1 ∧ (ftp_session_set_state s new).data_fd = -1) ∧
    (new = .DATA_CONNECT_STATE →
      (ftp_session_set_state s new).data_fd = -1 ∧
        (ftp_session_set_state s new).pasv_fd = s.pasv_fd) ∧
    (new = .DATA_TRANSFER_STATE →
      (ftp_session_set_state s new).pasv_fd = -1 ∧
        (ftp_session_set_state s new).data_fd = s.data_fd) ∧
    (ftp_session_set_state s new).cmd_fd = s.cmd_fd ∧
    (ftp_session_set_state s new).cwd = s.cwd ∧
    (ftp_session_set_state s new).flags.SESSION_PASV = s.flags.SESSION_PASV ∧
    (ftp_session_set_state s new).flags.SESSION_PORT = s.flags.SESSION_PORT ∧
    (ftp_session_set_state s new).flags.SESSION_RENAME = s.flags.SESSION_RENAME ∧
    ftp_session_set_state (ftp_session_set_state s .COMMAND_STATE) .COMMAND_STATE =
      ftp_session_set_state s .COMMAND_STATE := by
  refine ⟨set_state_state s new, ?_, ?_, ?_, set_state_cmd_fd s new, set_state_cwd s new,
    set_state_flags_pasv s new, set_state_flags_port s new, set_state_flags_rename s new,
    set_state_command_idem s⟩
  · rintro rfl
    rw [set_state_command_pasv_fd, set_state_command_data_fd]
    omega
  · rintro rfl
    rw [set_state_connect_pasv_fd, set_state_connect_data_fd]
    omega
  · rintro rfl
    rw [set_state_transfer_pasv_fd, set_state_transfer_data_fd]
    omega

/-- C20 at a concrete session: a session in DataTransfer state with listener
7 and data socket 8 open enters Command state. -/
theorem C20_set_state_effect_witness :
    (ftp_session_set_state
      { session0 with state := .DATA_TRANSFER_STATE, pasv_fd := 7, data_fd := 8 }
      .COMMAND_STATE).pasv_fd = -1 ∧
    (ftp_session_set_state
      { session0 with state := .DATA_TRANSFER_STATE, pasv_fd := 7, data_fd := 8 }
      .COMMAND_STATE).data_fd = -1 :=
  (C20_set_state_effect
    { session0 with state := .DATA_TRANSFER_STATE, pasv_fd := 7, data_fd := 8 }
    .COMMAND_STATE (by decide) (by decide)).2.1 rfl

/-! ## `PASV` and `PORT` -/

set_option maxRecDepth 100000 in
theorem utoa_map_dot :
    ∀ h < 256, (utoa h).map (fun c => if c = '.' then ',' else c) = utoa h := by decide

set_option maxRecDepth 100000 in
theorem utoa_length_le : ∀ h < 256, (utoa h).length ≤ 3 := by decide

/-- The text of the `PASV` reply is the `PORT` argument of the same address. -/
theorem PASV_text_eq (a n : Nat) :
    PASV_text ⟨a, n⟩ =
      PORT_args (a / 2 ^ 24 % 256) (a / 2 ^ 16 % 256) (a / 2 ^ 8 % 256) (a % 256)
        (n % 65536 / 256) (n % 65536 % 256) := by
  have h1 := utoa_map_dot (a / 2 ^ 24 % 256) (Nat.mod_lt _ (by decide))
  have h2 := utoa_map_dot (a / 2 ^ 16 % 256) (Nat.mod_lt _ (by decide))
  have h3 := utoa_map_dot (a / 2 ^ 8 % 256) (Nat.mod_lt _ (by decide))
  have h4 := utoa_map_dot (a % 256) (Nat.mod_lt _ (by decide))
  have h5 := utoa_map_dot (n % 65536 / 256) (by omega)
  have h6 := utoa_map_dot (n % 65536 % 256) (Nat.mod_lt _ (by decide))
  simp only [PASV_text, PORT_args, List.map_append, List.map_cons, h1, h2, h3, h4, h5, h6]
  simp

/-- The reply of a successful `PASV`. -/
theorem PASV_reply (env : Env) (s : ftp_session_t) (args : List Char)
    (h1 : 0 ≤ env.socket_rc) (h2 : env.bind_rc = 0) (h3 : env.listen_rc = 0)
    (h4 : env.getsockname_rc = 0) :
    (PASV env s args).events =
      s.events ++ [Event.cmd_send ("227 ".toList ++ PASV_text env.sockname ++ "\r\n".toList)] := by
  have hl : (PASV_text env.sockname).length ≤ 23 := by
    obtain ⟨a, n⟩ := env.sockname
    rw [PASV_text_eq]
    have l1 := utoa_length_le (a / 2 ^ 24 % 256) (Nat.mod_lt _ (by decide))
    have l2 := utoa_length_le (a / 2 ^ 16 % 256) (Nat.mod_lt _ (by decide))
    have l3 := utoa_length_le (a / 2 ^ 8 % 256) (Nat.mod_lt _ (by decide))
    have l4 := utoa_length_le (a % 256) (Nat.mod_lt _ (by decide))
    have l5 := utoa_length_le (n % 65536 / 256) (by omega)
    have l6 := utoa_length_le (n % 65536 % 256) (Nat.mod_lt _ (by decide))
    simp only [PORT_args, List.length_append, List.length_cons]
    omega
  have hn : ¬ env.socket_rc < 0 := by omega
  have hr : response_bytes 227 (PASV_text env.sockname ++ "\r\n".toList) =
      "227 ".toList ++ PASV_text env.sockname ++ "\r\n".toList := by
    have hu : utoa 227 = "227".toList := by decide
    simp only [response_bytes, hu, CMD_BUFFERSIZE]
    rw [if_neg]
    · simp
    · simp
      omega
  simp only [PASV, hn, h2, h3, h4, ne_eq, not_true_eq_false, ↓reduceIte, ftp_send_response,
    set_state_events, hr]

/-- C11: for every IPv4 address `a` and every port `n` up to 65535, the text
`PASV` sends after `227 ` is the dotted quad of `a` with commas for dots
followed by `,p1,p2` where p1 = n/256 and p2 = n%256 are at most 255 and
p1*256+p2 = n; `PORT` (with `unsigned long` of at least 32 bits and a
successful `strdup`) accepts that text, stores address `a` and port `n` in
`peer_addr`, sets `SESSION_PORT` and replies `200 OK`. -/
theorem C11_pasv_port_inverse (w : Nat) (env env1 : Env) (s s0 : ftp_session_t)
    (args : List Char) (a n : Nat) (ha : a < 2 ^ 32) (hn : n ≤ 65535) (hw : 32 ≤ w)
    (hdup : env.strdup_ok = true) (h1 : 0 ≤ env1.socket_rc) (h2 : env1.bind_rc = 0)
    (h3 : env1.listen_rc = 0) (h4 : env1.getsockname_rc = 0) (h5 : env1.sockname = ⟨a, n⟩) :
    (PASV env1 s0 args).events =
      s0.events ++ [Event.cmd_send ("227 ".toList ++ PASV_text ⟨a, n⟩ ++ "\r\n".toList)] ∧
    PASV_text ⟨a, n⟩ =
      PORT_args (a / 2 ^ 24 % 256) (a / 2 ^ 16 % 256) (a / 2 ^ 8 % 256) (a % 256)
        (n / 256) (n % 256) ∧
    n / 256 ≤ 255 ∧ n % 256 ≤ 255 ∧ n / 256 * 256 + n % 256 = n ∧
    (PORT w env s (PASV_text ⟨a, n⟩)).peer_addr = ⟨a, n⟩ ∧
    (PORT w env s (PASV_text ⟨a, n⟩)).flags.SESSION_PORT = true ∧
    (PORT w env s (PASV_text ⟨a, n⟩)).events =
      s.events ++ [Event.cmd_send "200 OK\r\n".toList] := by
  have hm : n % 65536 = n := Nat.mod_eq_of_lt (by omega)
  have ht := PASV_text_eq a n
  rw [hm] at ht
  have hP := PORT_of_args env s hw hdup
    (Nat.mod_lt (a / 2 ^ 24) (by decide : 0 < 256)) (Nat.mod_lt (a / 2 ^ 16) (by decide : 0 < 256))
    (Nat.mod_lt (a / 2 ^ 8) (by decide : 0 < 256)) (Nat.mod_lt a (by decide : 0 < 256))
    (by omega : n / 256 < 256) (Nat.mod_lt n (by decide : 0 < 256))
  have hb : response_bytes 200 "OK\r\n".toList = "200 OK\r\n".toList := by decide
  have hip : ipv4 (a / 2 ^ 24 % 256) (a / 2 ^ 16 % 256) (a / 2 ^ 8 % 256) (a % 256) = a := by
    simp only [ipv4]
    omega
  have hpv : n / 256 * 256 + n % 256 = n := by omega
  refine ⟨?_, ht, by omega, by omega, hpv, ?_, ?_, ?_⟩
  · rw [← h5]
    exact PASV_reply env1 s0 args h1 h2 h3 h4
  · rw [ht, hP]
    simp only [ftp_send_response, hip, hpv]
  · rw [ht, hP]
    rfl
  · rw [ht, hP]
    simp only [ftp_send_response, set_state_events, hb]

/-- C11 at the address 192.168.1.2 and port 51213: the text is
`192,168,1,2,200,13`. -/
theorem C11_pasv_port_inverse_witness :
    PASV_text ⟨3232235778, 51213⟩ = "192,168,1,2,200,13".toList ∧
    (PORT 32 env_ok session0 (PASV_text ⟨3232235778, 51213⟩)).peer_addr =
      ⟨3232235778, 51213⟩ := by
  have h := C11_pasv_port_inverse 32 env_ok { env_ok with sockname := ⟨3232235778, 51213⟩ }
    session0 session0 [] 3232235778 51213 (by decide) (by decide) (by decide) rfl
    (by decide) rfl rfl rfl rfl
  exact ⟨by decide, h.2.2.2.2.2.1⟩

/-! ## Claim about the listing line -/

/-- C17, as stated, fails: the line sent for the regular file `f` of 5 bytes
is `-rwxrwxrwx 1 3DS 3DS 5 Jan 1 1970 f`, CR LF, not the line of the
specification with the words `owner group`. -/
theorem C17_counterexample :
    ∃ s1, list_transfer ⟨37, 0, [], false, 0, 0⟩
        { session0 with state := .DATA_TRANSFER_STATE, data_fd := 6,
                        handle := .dir [entry_f] } = some (0, s1) ∧
      s1.events = session0.events ++
        [Event.data_send "-rwxrwxrwx 1 3DS 3DS 5 Jan 1 1970 f\r\n".toList] ∧
      spec_list_line entry_f = "-rwxrwxrwx 1 owner group 5 Jan 1 1970 f\r\n".toList ∧
      "-rwxrwxrwx 1 3DS 3DS 5 Jan 1 1970 f\r\n".toList ≠ spec_list_line entry_f := by
  refine ⟨_, rfl, ?_, ?_, ?_⟩ <;> decide

/-- C17, amended: for a directory entry other than `.` and `..` whose `lstat`
succeeds, the line `list_transfer` hands to `send` (here sent in one piece) is
`<t>rwxrwxrwx 1 3DS 3DS <size> Jan 1 1970 <name>` followed by CR LF, where
`<t>` is `d` for a directory, `l` for a symbolic link and `-` otherwise,
`<size>` the size in decimal and `<name>` the name of the entry. -/
theorem C17_list_line_sent (e : XferEnv) (s : ftp_session_t) (dent : dirent)
    (rest : List dirent) (hpos : s.bufferpos = s.buffersize)
    (hh : s.handle = .dir (dent :: rest))
    (hdot : dent.d_name ≠ ['.'] ∧ dent.d_name ≠ ['.', '.']) (hl : dent.lstat_rc = 0)
    (hsend : e.send_rc = (list_line dent).length) :
    ∃ s1, list_transfer e s = some (0, s1) ∧
      s1.events = s.events ++
        [Event.data_send
          ((if dent.st_kind = .directory then 'd'
            else if dent.st_kind = .symlink then 'l' else '-') ::
           ("rwxrwxrwx 1 3DS 3DS ".toList ++ utoa dent.st_size ++ " Jan 1 1970 ".toList
              ++ dent.d_name ++ "\r\n".toList))] := by
  have hline : list_line dent =
      (if dent.st_kind = .directory then 'd'
        else if dent.st_kind = .symlink then 'l' else '-') ::
       ("rwxrwxrwx 1 3DS 3DS ".toList ++ utoa dent.st_size ++ " Jan 1 1970 ".toList
          ++ dent.d_name ++ "\r\n".toList) := by
    unfold list_line
    cases dent.st_kind <;> simp
  have hpos1 : ¬ (e.send_rc ≤ 0) := by
    rw [hsend, list_line]
    simp only [List.length_cons]
    omega
  have hd : ¬ (dent.d_name = ['.'] ∨ dent.d_name = ['.', '.']) := by
    rintro (h | h)
    · exact hdot.1 h
    · exact hdot.2 h
  simp only [list_transfer, hpos, ↓reduceIte, hh, hd, hl, ne_eq, not_true_eq_false,
    list_transfer_send, hpos1]
  refine ⟨_, rfl, ?_⟩
  simp only [hsend, Int.toNat_ofNat, List.drop_zero, List.take_length, hline]

/-- C17 amended, at the entry `f`. -/
theorem C17_list_line_sent_witness :
    ∃ s1, list_transfer ⟨37, 0, [], false, 0, 0⟩
        { session0 with state := .DATA_TRANSFER_STATE, data_fd := 6,
                        handle := .dir [entry_f] } = some (0, s1) ∧
      s1.events = session0.events ++
        [Event.data_send
          ((if entry_f.st_kind = .directory then 'd'
            else if entry_f.st_kind = .symlink then 'l' else '-') ::
           ("rwxrwxrwx 1 3DS 3DS ".toList ++ utoa entry_f.st_size ++ " Jan 1 1970 ".toList
              ++ entry_f.d_name ++ "\r\n".toList))] :=
  C17_list_line_sent ⟨37, 0, [], false, 0, 0⟩
    { session0 with state := .DATA_TRANSFER_STATE, data_fd := 6, handle := .dir [entry_f] }
    entry_f [] rfl rfl (by decide) rfl (by decide)

/-! ## The end of a transfer -/

section set_state_more
variable (s : ftp_session_t) (st : session_state_t)

@[simp] theorem set_state_handle : (ftp_session_set_state s st).handle = s.handle := by
  cases st <;> simp only [ftp_session_set_state, ftp_session_close_pasv, ftp_session_close_data] <;>
    split_ifs <;> rfl

theorem set_state_command_recv (h : 0 ≤ s.data_fd) :
    (ftp_session_set_state s .COMMAND_STATE).flags.SESSION_RECV = false := by
  simp only [ftp_session_set_state, ftp_session_close_pasv, ftp_session_close_data]
  split_ifs <;> rfl

theorem set_state_command_send (h : 0 ≤ s.data_fd) :
    (ftp_session_set_state s .COMMAND_STATE).flags.SESSION_SEND = false := by
  simp only [ftp_session_set_state, ftp_session_close_pasv, ftp_session_close_data]
  split_ifs <;> rfl

end set_state_more

theorem closed_after_response {s : ftp_session_t} (h : 0 ≤ s.data_fd) (hh : s.handle = .null)
    (code : Nat) (text : List Char) :
    transfer_closed (ftp_send_response (ftp_session_set_state s .COMMAND_STATE) code text) :=
  ⟨set_state_state _ _, (set_state_handle _ _).trans hh, set_state_command_recv s h,
    set_state_command_send s h⟩

theorem read_file_frame {e : XferEnv} {s s1 : ftp_session_t} {rc : Int}
    (h : ftp_session_read_file e s = some (rc, s1)) :
    s1.state = s.state ∧ s1.data_fd = s.data_fd := by
  simp only [ftp_session_read_file] at h
  split at h
  · split_ifs at h <;> simp only [Option.some.injEq, Prod.mk.injEq] at h <;>
      (obtain ⟨-, rfl⟩ := h; exact ⟨rfl, rfl⟩)
  · simp at h

/-- Whenever a transfer routine, called in DataTransfer state with the data
socket open, leaves the session in Command state, it has closed the file or
directory handle and `SESSION_RECV` and `SESSION_SEND` are clear. -/
theorem call_transfer_closes {e : XferEnv} {s s1 : ftp_session_t} {rc : Int}
    (h : call_transfer e s = some (rc, s1)) (hs : s.state = .DATA_TRANSFER_STATE)
    (hd : 0 ≤ s.data_fd) (h1 : s1.state = .COMMAND_STATE) : transfer_closed s1 := by
  have hne : s.state ≠ .COMMAND_STATE := by
    rw [hs]
    decide
  simp only [call_transfer] at h
  split at h
  · simp at h
  · simp only [list_transfer, list_transfer_send, ftp_session_close_cwd] at h
    split_ifs at h
    all_goals try split at h
    all_goals try split_ifs at h
    all_goals
      first
        | (simp only [Option.some.injEq, Prod.mk.injEq, reduceCtorEq] at h
           done)
        | (try simp only [Option.some.injEq, Prod.mk.injEq] at h
           obtain ⟨-, rfl⟩ := h
           first
             | (refine closed_after_response ?_ ?_ _ _
                · exact hd
                · rfl)
             | exact absurd h1 hne)
  · have fin : ∀ (s2 : ftp_session_t), s2.state = s.state → s2.data_fd = s.data_fd →
        ∀ p : Int × ftp_session_t, retrieve_transfer_send e s2 = p → p.2.state = .COMMAND_STATE →
          transfer_closed p.2 := by
      intro s2 hst hfd p hp hc
      simp only [retrieve_transfer_send, ftp_session_close_file] at hp
      split_ifs at hp
      all_goals subst hp
      · exact absurd (hst ▸ hc) hne
      · refine closed_after_response ?_ ?_ _ _
        · rw [← hfd] at hd
          exact hd
        · rfl
      · exact absurd (hst ▸ hc) hne
    simp only [retrieve_transfer] at h
    by_cases hp : s.bufferpos = s.buffersize
    · simp only [hp, ↓reduceIte] at h
      cases hr : ftp_session_read_file e s with
      | none => simp [hr] at h
      | some p =>
        obtain ⟨rc2, s2⟩ := p
        obtain ⟨hst, hfd⟩ := read_file_frame hr
        simp only [hr] at h
        split_ifs at h
        · simp only [Option.some.injEq, Prod.mk.injEq] at h
          obtain ⟨-, rfl⟩ := h
          refine closed_after_response ?_ ?_ _ _
          · show 0 ≤ s2.data_fd
            rw [hfd]
            exact hd
          · rfl
        · simp only [Option.some.injEq, Prod.mk.injEq] at h
          obtain ⟨-, rfl⟩ := h
          refine closed_after_response ?_ ?_ _ _
          · show 0 ≤ s2.data_fd
            rw [hfd]
            exact hd
          · rfl
        · simp only [Option.some.injEq] at h
          have := fin { s2 with bufferpos := 0, buffersize := rc2.toNat } hst hfd _ h
          exact this h1
    · simp only [hp, ↓reduceIte, Option.some.injEq] at h
      exact fin s rfl rfl _ h h1
  · simp only [store_transfer, store_transfer_write, ftp_session_write_file,
      ftp_session_close_file] at h
    split_ifs at h
    all_goals
      first
        | (simp only [Option.some.injEq, Prod.mk.injEq, reduceCtorEq] at h
           done)
        | (try simp only [Option.some.injEq, Prod.mk.injEq] at h
           obtain ⟨-, rfl⟩ := h
           first
             | (refine closed_after_response ?_ ?_ _ _
                · exact hd
                · rfl)
             | exact absurd h1 hne)

/-! ## Claim about the end of a transfer -/

/-- C19 (defect in the code): the `POLLERR`/`POLLHUP` branches of
`ftp_session_poll` end an armed transfer without closing its handle.  After
`PASV` and `LIST` a `POLLHUP` on the listener takes the session from
DataConnect back to Command state with the directory still open and
`SESSION_SEND` still set; after `PORT` and `RETR f` a `POLLERR` on the data
socket takes it from DataTransfer back to Command state with the file still
open. -/
theorem C19_handle_left_open :
    (∃ s, run 32 1 [poll_line env_ok "PASV\r\n", poll_line env_files "LIST\r\n"] session0
        = some s ∧ s.state = .DATA_CONNECT_STATE ∧ s.handle = .dir [entry_f]) ∧
    (∃ s, run 32 1 [poll_line env_ok "PASV\r\n", poll_line env_files "LIST\r\n",
          poll_revents ⟨false, false, false, true, false⟩] session0 = some s ∧
        s.state = .COMMAND_STATE ∧ s.handle = .dir [entry_f] ∧
        s.flags.SESSION_SEND = true) ∧
    (∃ s, run 32 1 [poll_line env_ok "PORT 127,0,0,1,0,20\r\n",
          poll_line env_files "RETR f\r\n"] session0 = some s ∧
        s.state = .DATA_TRANSFER_STATE ∧ s.handle = .file_rb ['a', 'b', 'c']) ∧
    (∃ s, run 32 1 [poll_line env_ok "PORT 127,0,0,1,0,20\r\n",
          poll_line env_files "RETR f\r\n",
          poll_revents ⟨false, false, true, false, false⟩] session0 = some s ∧
        s.state = .COMMAND_STATE ∧ s.handle = .file_rb ['a', 'b', 'c']) := by
  refine ⟨⟨_, rfl, ?_, ?_⟩, ⟨_, rfl, ?_, ?_, ?_⟩, ⟨_, rfl, ?_, ?_⟩, ⟨_, rfl, ?_, ?_⟩⟩ <;> decide

/-! ## `CWD x` followed by `CWD ..` -/

theorem cd_up_loop_no_slash (x : List Char) (hx : '/' ∉ x) (i : Nat) (slash : Option Nat) :
    cd_up_loop x i slash = slash := by
  induction x generalizing i with
  | nil => rfl
  | cons c cs ih =>
    simp only [List.mem_cons, not_or] at hx
    have hc : ¬ c = '/' := fun e => hx.1 e.symm
    simp only [cd_up_loop, hc, ↓reduceIte]
    exact ih hx.2 (i + 1)

theorem cd_up_loop_join (c x : List Char) (hx : '/' ∉ x) (i : Nat) (slash : Option Nat) :
    cd_up_loop (c ++ '/' :: x) i slash = some (i + c.length) := by
  induction c generalizing i slash with
  | nil =>
    simp only [List.nil_append, cd_up_loop, ↓reduceIte, List.length_nil, Nat.add_zero]
    exact cd_up_loop_no_slash x hx (i + 1) (some i)
  | cons a as ih =>
    show cd_up_loop (as ++ '/' :: x) (i + 1) (if a = '/' then some i else slash) =
      some (i + (as.length + 1))
    rw [ih]
    congr 1
    omega

/-- `cd_up` undoes the joining of one slash-free component. -/
theorem cd_up_join (s : ftp_session_t) (c x : List Char) (hx : '/' ∉ x)
    (hs : s.cwd = c ++ '/' :: x) :
    cd_up s = some { s with cwd := if c = [] then ['/'] else c } := by
  simp only [cd_up, hs, cd_up_loop_join c x hx, Nat.zero_add, List.take_left,
    List.length_eq_zero]
  split_ifs with h
  · subst h
    rfl
  · rfl

theorem validate_path_no_slash (fuel : Nat) {x : List Char} (hx : '/' ∉ x) :
    validate_path (fuel + 1) x = some 0 := by
  refine validate_path_eq_zero_iff.mpr ⟨by simp, ?_, ?_⟩
  · rw [strstr_eq_none_iff]
    intro hi
    exact hx (hi.subset (by simp))
  · rw [strstr_eq_none_iff]
    intro hi
    exact hx (hi.subset (by simp))

theorem spec_path_no_slash {cwd x : List Char} (hx : '/' ∉ x) (hne : x ≠ []) :
    spec_path cwd x = if cwd = ['/'] then '/' :: x else cwd ++ '/' :: x := by
  have hh : x.head? ≠ some '/' := by
    intro h
    cases x with
    | nil => exact hne rfl
    | cons a as =>
      simp only [List.head?_cons, Option.some.injEq] at h
      subst h
      simp at hx
  have hlast : ∀ pre : List Char,
      (pre ++ '/' :: x).rdropWhile (fun c => c = '/') = pre ++ '/' :: x := by
    intro pre
    obtain ⟨ini, a, rfl⟩ : ∃ ini a, x = ini ++ [a] := by
      rcases List.eq_nil_or_concat x with e | ⟨ini, a, e⟩
      · exact absurd e hne
      · exact ⟨ini, a, by simpa using e⟩
    have ha : a ≠ '/' := by
      intro e
      subst e
      simp at hx
    have e1 : pre ++ '/' :: (ini ++ [a]) = (pre ++ '/' :: ini) ++ [a] := by simp
    rw [e1, List.rdropWhile_concat_neg]
    simpa using ha
  unfold spec_path spec_unstripped
  simp only [hh, ↓reduceIte]
  split_ifs with h1 h2 h3
  · have := hlast []
    simp only [List.nil_append] at this
    rw [this] at h2
    simp at h2
  · have := hlast []
    simp only [List.nil_append] at this
    exact this
  · rw [hlast cwd] at h3
    simp at h3
  · exact hlast cwd

/-! ## Claim about `CWD x` followed by `CWD ..` -/

/-- C13, as stated, fails: from the working directory `/` the command line
`CWD a/b` is answered with 200 and makes `/a/b` the working directory, and the
`CWD ..` that follows leads to `/a`, not back to `/`. -/
theorem C13_counterexample :
    session0.cwd = "/".toList ∧
    (run 32 1 [cwd_line "a/b".toList] session0).map (fun s => (s.cwd, s.events)) =
      some ("/a/b".toList,
        [Event.cmd_send "200 Hello!\r\n".toList, Event.cmd_send "200 OK\r\n".toList]) ∧
    (run 32 1 [cwd_line "a/b".toList, cwd_line "..".toList] session0).map (fun s => s.cwd) =
      some "/a".toList := by
  refine ⟨?_, ?_, ?_⟩ <;> decide

/-- C13, amended: let the working directory be non-empty and let `x` be one
path component (non-empty, without `/`, not `..`) such that the joined path
fits the `cwd` field together with its terminator.  If `stat` reports the
joined path as a directory, `CWD x` replies `200 OK`, the `CWD ..` that
follows replies `200 OK` as well, and the working directory is then what it
was before `CWD x`. -/
theorem C13_cwd_then_up (fuel : Nat) (env1 env2 : Env) (s : ftp_session_t) (x : List Char)
    (hcwd : s.cwd ≠ []) (hne : x ≠ []) (hx : '/' ∉ x) (hdd : x ≠ ['.', '.'])
    (hfit : (s.cwd ++ '/' :: x).length < CWD_SIZE)
    (hst : env1.stat_rc = 0) (hk : env1.stat_kind = .directory) :
    ∃ s1 s2, CWD (fuel + 1) env1 s x = some s1 ∧
      s1.events = s.events ++ [Event.cmd_send "200 OK\r\n".toList] ∧
      CWD (fuel + 1) env2 s1 ['.', '.'] = some s2 ∧
      s2.events = s1.events ++ [Event.cmd_send "200 OK\r\n".toList] ∧
      s2.cwd = s.cwd := by
  have hb : response_bytes 200 "OK\r\n".toList = "200 OK\r\n".toList := by decide
  have hsp := @spec_path_no_slash s.cwd x hx hne
  have hlen : (spec_path s.cwd x).length < CWD_SIZE := by
    rw [hsp]
    split_ifs with hc
    · rw [hc] at hfit
      simp only [List.length_cons, List.length_append, List.length_nil] at hfit ⊢
      omega
    · exact hfit
  have hl2 : ¬ (spec_unstripped s.cwd x).length > 32767 := by
    have hu : spec_unstripped s.cwd x = spec_path s.cwd x := by
      rw [hsp]
      unfold spec_unstripped
      have hh : x.head? ≠ some '/' := by
        intro h
        cases x with
        | nil => exact hne rfl
        | cons a as =>
          simp only [List.head?_cons, Option.some.injEq] at h
          subst h
          simp at hx
      simp only [hh, ↓reduceIte]
    rw [hu]
    simp only [CWD_SIZE] at hlen
    omega
  have htake : (spec_path s.cwd x).take CWD_SIZE = spec_path s.cwd x :=
    List.take_of_length_le (by omega)
  have hC : CWD (fuel + 1) env1 s x =
      some (ftp_send_response
        { ftp_session_set_state s .COMMAND_STATE with
          buffer := spec_path s.cwd x
          cwd := spec_path s.cwd x }
        200 "OK\r\n".toList) := by
    simp only [CWD, hdd, ↓reduceIte, build_path_of_valid _ (validate_path_no_slash fuel hx),
      set_state_cwd, hl2, hst, hk, ne_eq, not_true_eq_false, htake]
  obtain ⟨c, hc1, hc2⟩ : ∃ c, spec_path s.cwd x = c ++ '/' :: x ∧
      (if c = [] then ['/'] else c) = s.cwd := by
    rw [hsp]
    by_cases h : s.cwd = ['/']
    · refine ⟨[], ?_, ?_⟩
      · simp [h]
      · simp [h]
    · refine ⟨s.cwd, ?_, ?_⟩
      · simp [h]
      · simp [hcwd]
  obtain ⟨s1, hs1⟩ : ∃ s1, s1 = ftp_send_response
      { ftp_session_set_state s .COMMAND_STATE with
        buffer := spec_path s.cwd x
        cwd := spec_path s.cwd x } 200 "OK\r\n".toList := ⟨_, rfl⟩
  rw [← hs1] at hC
  have hcw : (ftp_session_set_state s1 .COMMAND_STATE).cwd = c ++ '/' :: x := by
    rw [set_state_cwd, hs1]
    exact hc1
  have hup := cd_up_join (ftp_session_set_state s1 .COMMAND_STATE) c x hx hcw
  have hC2 : CWD (fuel + 1) env2 s1 ['.', '.'] =
      some (ftp_send_response
        { ftp_session_set_state s1 .COMMAND_STATE with cwd := if c = [] then ['/'] else c }
        200 "OK\r\n".toList) := by
    simp only [CWD, ↓reduceIte, hup]
  refine ⟨s1, _, hC, ?_, hC2, ?_, ?_⟩
  · rw [hs1]
    simp only [ftp_send_response, set_state_events, hb]
  · simp only [ftp_send_response, set_state_events, hb]
  · exact hc2

/-- C13 amended, at a concrete input: from `/a`, `CWD b` and then `CWD ..`
lead back to `/a`. -/
theorem C13_cwd_then_up_witness :
    ∃ s1 s2, CWD 1 env_ok { session0 with cwd := "/a".toList } ['b'] = some s1 ∧
      s1.events = session0.events ++ [Event.cmd_send "200 OK\r\n".toList] ∧
      CWD 1 env_ok s1 ['.', '.'] = some s2 ∧
      s2.events = s1.events ++ [Event.cmd_send "200 OK\r\n".toList] ∧
      s2.cwd = "/a".toList :=
  C13_cwd_then_up 0 env_ok env_ok { session0 with cwd := "/a".toList } ['b']
    (by decide) (by decide) (by decide) (by decide) (by decide) rfl rfl

/-! ## The command line -/

theorem recv_buffer_eq (received : List Char) :
    ∃ z, recv_buffer received = received.take (CMD_BUFFERSIZE - 1) ++ '\x00' :: z := by
  simp only [recv_buffer, CMD_BUFFERSIZE]
  rw [List.set_eq_take_append_cons_drop]
  have hlen : (List.take 1024 received ++
      List.replicate (1024 - (List.take 1024 received).length) '\x00').length = 1024 := by
    simp only [List.length_append, List.length_take, List.length_replicate]
    omega
  rw [if_pos (by rw [hlen]; decide)]
  rw [List.take_append_eq_append_take, List.take_take]
  simp only [Nat.reduceSub, Nat.reduceLeDiff, min_eq_left, List.append_assoc]
  by_cases hl : received.length ≤ 1023
  · have h1 : List.take 1024 received = received := List.take_of_length_le (by omega)
    rw [h1]
    cases hr : List.take (1023 - received.length)
        (List.replicate (1024 - received.length) '\x00') with
    | nil => exact ⟨_, rfl⟩
    | cons a as =>
      have ha : a ∈ List.replicate (1024 - received.length) '\x00' :=
        List.mem_of_mem_take (hr ▸ List.mem_cons_self a as)
      rw [List.eq_of_mem_replicate ha]
      exact ⟨_, rfl⟩
  · have h1 : (List.take 1024 received).length ≥ 1023 := by
      rw [List.length_take]
      omega
    have h2 : 1023 - (List.take 1024 received).length = 0 := by omega
    rw [h2]
    exact ⟨_, rfl⟩

theorem cut_line_eq (p z : List Char) :
    ∃ rest, cut_line (p ++ '\x00' :: z) =
      p.takeWhile (fun c => c ≠ '\x00' ∧ c ≠ '\r' ∧ c ≠ '\n') ++ '\x00' :: rest := by
  induction p with
  | nil => exact ⟨z, by simp [cut_line]⟩
  | cons c cs ih =>
    obtain ⟨rest, hr⟩ := ih
    by_cases hc : c ≠ '\x00' ∧ c ≠ '\r' ∧ c ≠ '\n'
    · refine ⟨rest, ?_⟩
      show cut_line (c :: (cs ++ '\x00' :: z)) = _
      rw [List.takeWhile_cons_of_pos (by simpa using hc)]
      simp only [cut_line, hr, List.cons_append]
      rw [if_pos hc]
    · refine ⟨cs ++ '\x00' :: z, ?_⟩
      show cut_line (c :: (cs ++ '\x00' :: z)) = _
      rw [List.takeWhile_cons_of_neg (by simpa using hc)]
      simp only [cut_line, List.nil_append]
      rw [if_neg hc]

theorem c_string_append (l rest : List Char) (hl : ∀ c ∈ l, c ≠ '\x00') :
    c_string (l ++ '\x00' :: rest) = l := by
  induction l with
  | nil => simp [c_string]
  | cons c cs ih =>
    have hc : c ≠ '\x00' := hl c (List.mem_cons_self c cs)
    have := ih (fun d hd => hl d (List.mem_cons_of_mem c hd))
    simp only [c_string] at this ⊢
    show List.takeWhile _ (c :: (cs ++ '\x00' :: rest)) = _
    rw [List.takeWhile_cons_of_pos (by simpa using hc), this]

theorem split_args_eq (l rest : List Char) (hl : ∀ c ∈ l, c ≠ '\x00') :
    c_string (split_args (l ++ '\x00' :: rest)).1 = command_name l ∧
      c_string (split_args (l ++ '\x00' :: rest)).2 = command_args l := by
  induction l with
  | nil => simp [split_args, c_string, command_name, command_args]
  | cons c cs ih =>
    have hc : c ≠ '\x00' := hl c (List.mem_cons_self c cs)
    have hcs : ∀ d ∈ cs, d ≠ '\x00' := fun d hd => hl d (List.mem_cons_of_mem c hd)
    obtain ⟨ih1, ih2⟩ := ih hcs
    show c_string (split_args (c :: (cs ++ '\x00' :: rest))).1 = _ ∧
      c_string (split_args (c :: (cs ++ '\x00' :: rest))).2 = _
    by_cases hsp : isspace c = false
    · simp only [split_args, ne_eq, hc, not_false_eq_true, hsp, and_self, ↓reduceIte]
      constructor
      · simp only [c_string, command_name] at ih1 ⊢
        rw [List.takeWhile_cons_of_pos (by simpa using hc),
          List.takeWhile_cons_of_pos (by simp [hsp]), ih1]
      · rw [ih2]
        simp only [command_args]
        rw [List.dropWhile_cons_of_pos (by simp [hsp])]
    · have hsp1 : isspace c = true := by simpa using hsp
      simp only [split_args, ne_eq, hc, not_false_eq_true, hsp1, Bool.true_eq_false,
        and_false, ↓reduceIte]
      constructor
      · simp [c_string, command_name, hsp1]
      · rw [c_string_append cs rest hcs]
        simp [command_args, hsp1]

theorem command_line_no_nul (received : List Char) : ∀ c ∈ command_line received, c ≠ '\x00' := by
  intro c hc
  have := List.mem_takeWhile_imp hc
  simp only [ne_eq, decide_eq_true_eq] at this
  exact this.1

/-- The name and the argument string that the pointer loops of
`ftp_session_read_command` produce are `command_name` and `command_args` of
`command_line`. -/
theorem read_command_split_eq (received : List Char) :
    read_command_split received =
      (command_name (command_line received), command_args (command_line received)) := by
  obtain ⟨z, hz⟩ := recv_buffer_eq received
  obtain ⟨rest, hr⟩ := cut_line_eq (received.take (CMD_BUFFERSIZE - 1)) z
  have hline : command_line received =
      (received.take (CMD_BUFFERSIZE - 1)).takeWhile
        (fun c => c ≠ '\x00' ∧ c ≠ '\r' ∧ c ≠ '\n') := by
    simp only [command_line, List.take_take, CMD_BUFFERSIZE]
    rfl
  have hs := split_args_eq (command_line received) rest (command_line_no_nul received)
  simp only [read_command_split, hz, hr, ← hline, hs.1, hs.2]

theorem takeWhile_take (p : Char → Bool) (n : Nat) (l : List Char) :
    (l.take n).takeWhile p = (l.takeWhile p).take n := by
  induction l generalizing n with
  | nil => simp
  | cons c cs ih =>
    cases n with
    | zero => simp
    | succ n =>
      by_cases hp : p c = true
      · simp [List.takeWhile_cons, hp, ih]
      · simp [List.takeWhile_cons, hp]

theorem command_line_eq_spec (received : List Char) :
    command_line received = spec_line received := by
  simp only [command_line, spec_line, List.take_take, CMD_BUFFERSIZE]
  rw [show min (1024 - 1) 1024 = 1023 from rfl, takeWhile_take]
  congr 2
  funext c
  simp only [ne_eq, decide_eq_decide]
  tauto

theorem command_name_longest (line pre : List Char) (hp : pre <+: line)
    (hs : ∀ c ∈ pre, isspace c = false) : pre <+: command_name line := by
  induction line generalizing pre with
  | nil =>
    rw [List.prefix_nil] at hp
    subst hp
    exact List.nil_prefix
  | cons c cs ih =>
    cases pre with
    | nil => exact List.nil_prefix
    | cons a as =>
      obtain ⟨rfl, has⟩ := List.cons_prefix_cons.mp hp
      have ha : isspace a = false := hs a (List.mem_cons_self a as)
      have := ih as has (fun d hd => hs d (List.mem_cons_of_mem a hd))
      simp only [command_name] at this ⊢
      rw [List.takeWhile_cons_of_pos (by simp [ha])]
      exact List.cons_prefix_cons.mpr ⟨rfl, this⟩

theorem command_split_join (line : List Char) (h : ∃ c ∈ line, isspace c = true) :
    ∃ ws, isspace ws = true ∧ line = command_name line ++ ws :: command_args line := by
  induction line with
  | nil =>
    obtain ⟨c, hc, -⟩ := h
    simp at hc
  | cons c cs ih =>
    by_cases hsp : isspace c = true
    · refine ⟨c, hsp, ?_⟩
      simp [command_name, command_args, hsp]
    · have hsp0 : isspace c = false := by simpa using hsp
      obtain ⟨d, hd, hd1⟩ := h
      have hd2 : d ∈ cs := by
        rcases List.mem_cons.mp hd with e | e
        · subst e
          exact absurd hd1 hsp
        · exact e
      obtain ⟨ws, hws, hj⟩ := ih ⟨d, hd2, hd1⟩
      refine ⟨ws, hws, ?_⟩
      simp only [command_name, command_args] at hj ⊢
      rw [List.takeWhile_cons_of_pos (by simp [hsp0]),
        List.dropWhile_cons_of_pos (by simp [hsp0])]
      simp only [List.cons_append, List.cons.injEq, true_and]
      exact hj

theorem command_args_nil (line : List Char) (h : ∀ c ∈ line, isspace c = false) :
    command_name line = line ∧ command_args line = [] := by
  constructor
  · simp only [command_name]
    rw [List.takeWhile_eq_self_iff]
    intro c hc
    simp [h c hc]
  · simp only [command_args]
    have : List.dropWhile (fun c => !isspace c) line = [] := by
      rw [List.dropWhile_eq_nil_iff]
      intro c hc
      simp [h c hc]
    rw [this]
    rfl

theorem command_line_mem {received : List Char} {c : Char} (hc : c ∈ command_line received) :
    c ≠ '\r' ∧ c ≠ '\n' := by
  have := List.mem_takeWhile_imp hc
  simp only [ne_eq, decide_eq_true_eq] at this
  exact ⟨this.2.1, this.2.2⟩

theorem command_args_subset (line : List Char) : ∀ c ∈ command_args line, c ∈ line := by
  intro c hc
  exact (List.dropWhile_suffix _).subset (List.mem_of_mem_drop hc)

/-! ## Claim about the command line -/

/-- C15: for a non-empty received buffer, let the line be the received bytes
up to the first CR, LF or NUL, capped at 1023 bytes (`spec_line`).  The name
and the argument string that the pointer loops of `ftp_session_read_command`
leave in the buffer contain no CR and no LF; the name is the longest prefix of
the line without white space; when the line has no white space the argument
string is empty; otherwise name, one white-space character and argument string
make up the line.  These two strings are what the lookup and the handler get:
a name that is not in the table is answered with 502, otherwise the handler of
the entry is called with the argument string. -/
theorem C15_command_split (w fuel : Nat) (env : Env) (s : ftp_session_t)
    (received : List Char) (hne : received ≠ []) :
    ('\r' ∉ (read_command_split received).1 ∧ '\n' ∉ (read_command_split received).1 ∧
      '\r' ∉ (read_command_split received).2 ∧ '\n' ∉ (read_command_split received).2) ∧
    ((read_command_split received).1 <+: spec_line received ∧
      (∀ c ∈ (read_command_split received).1, isspace c = false) ∧
      ∀ pre, pre <+: spec_line received → (∀ c ∈ pre, isspace c = false) →
        pre <+: (read_command_split received).1) ∧
    ((∀ c ∈ spec_line received, isspace c = false) →
      (read_command_split received).1 = spec_line received ∧
        (read_command_split received).2 = []) ∧
    ((∃ c ∈ spec_line received, isspace c = true) →
      ∃ ws, isspace ws = true ∧
        spec_line received =
          (read_command_split received).1 ++ ws :: (read_command_split received).2) ∧
    ftp_session_read_command w fuel (some received) env s =
      (match bsearch (read_command_split received).1 ftp_commands with
       | none =>
         some (ftp_send_response s 502
           ("invalid command -> ".toList ++ (read_command_split received).1 ++
             ' ' :: (read_command_split received).2 ++ "\r\n".toList))
       | some command =>
         call_handler w fuel env command.handler
           (if strcasecmp command.name "RNTO".toList ≠ 0 then
              { s with flags := { s.flags with SESSION_RENAME := false } }
            else s)
           (read_command_split received).2) := by
  have hsplit := read_command_split_eq received
  have hspec := command_line_eq_spec received
  rw [hsplit, ← hspec]
  simp only
  refine ⟨⟨?_, ?_, ?_, ?_⟩, ⟨?_, ?_, ?_⟩, ?_, ?_, ?_⟩
  · intro h
    exact (command_line_mem ((List.takeWhile_prefix _).subset h)).1 rfl
  · intro h
    exact (command_line_mem ((List.takeWhile_prefix _).subset h)).2 rfl
  · intro h
    exact (command_line_mem (command_args_subset _ _ h)).1 rfl
  · intro h
    exact (command_line_mem (command_args_subset _ _ h)).2 rfl
  · exact List.takeWhile_prefix _
  · intro c hc
    have := List.mem_takeWhile_imp hc
    simpa using this
  · exact fun pre hp hs => command_name_longest _ pre hp hs
  · exact command_args_nil _
  · exact command_split_join _
  · have hlen : ¬ (List.take CMD_BUFFERSIZE received).length = 0 := by
      cases received with
      | nil => exact absurd rfl hne
      | cons a as => simp [CMD_BUFFERSIZE]
    simp only [ftp_session_read_command, hlen, ↓reduceIte]

/-- C15 at the line `CWD  a b`, CR, LF, with two blanks behind the name: the
name is `CWD` and the argument string ` a b` begins with the second blank. -/
theorem C15_command_split_witness :
    spec_line "CWD  a b\r\n".toList = "CWD  a b".toList ∧
    read_command_split "CWD  a b\r\n".toList = ("CWD".toList, " a b".toList) ∧
    ∃ ws, isspace ws = true ∧
      spec_line "CWD  a b\r\n".toList =
        (read_command_split "CWD  a b\r\n".toList).1 ++
          ws :: (read_command_split "CWD  a b\r\n".toList).2 := by
  refine ⟨by decide, ?_, ?_⟩
  · rw [read_command_split_eq]
    decide
  · exact (C15_command_split 32 1 env_ok session0 "CWD  a b\r\n".toList (by decide)).2.2.2.1
      ⟨' ', by decide, by decide⟩

/-! ## `strcasecmp` and the binary search -/

theorem char_eq_iff_toNat (a b : Char) : a = b ↔ a.toNat = b.toNat := by
  constructor
  · rintro rfl
    rfl
  · intro h
    have := congrArg Char.ofNat h
    simpa using this

theorem char_lt_iff_toNat (a b : Char) : a < b ↔ a.toNat < b.toNat := by
  rw [Char.lt_def]
  exact Iff.rfl

theorem strcasecmp_cons (a b : Char) (as bs : List Char) :
    strcasecmp (a :: as) (b :: bs) =
      if a.toLower.toNat = b.toLower.toNat then strcasecmp as bs
      else if a.toLower.toNat < b.toLower.toNat then -1 else 1 := by
  simp only [strcasecmp, char_eq_iff_toNat, char_lt_iff_toNat]

/-- `strcasecmp` is a three-way comparison for a total preorder. -/
theorem strcasecmp_order (a : List Char) : ∀ b c : List Char,
    (strcasecmp a b = -1 ∨ strcasecmp a b = 0 ∨ strcasecmp a b = 1) ∧
    (strcasecmp a b < 0 → strcasecmp b c ≤ 0 → strcasecmp a c < 0) ∧
    (strcasecmp a b ≤ 0 → strcasecmp b c < 0 → strcasecmp a c < 0) ∧
    (strcasecmp a b < 0 ↔ 0 < strcasecmp b a) := by
  induction a with
  | nil =>
    intro b c
    cases b <;> cases c <;> simp [strcasecmp]
  | cons x xs ih =>
    intro b c
    cases b with
    | nil => cases c <;> simp [strcasecmp]
    | cons y ys =>
      cases c with
      | nil =>
        have h1 := (ih ys []).1
        have h4 := (ih ys []).2.2.2
        simp only [strcasecmp_cons]
        simp only [strcasecmp]
        refine ⟨?_, ?_, ?_, ?_⟩
        · split_ifs <;> simp [h1]
        · intro _ h
          omega
        · intro _ h
          omega
        · split_ifs <;> omega
      | cons z zs =>
        obtain ⟨h1, h2, h3, h4⟩ := ih ys zs
        simp only [strcasecmp_cons]
        refine ⟨?_, ?_, ?_, ?_⟩
        · split_ifs <;> simp [h1]
        · split_ifs <;> omega
        · split_ifs <;> omega
        · split_ifs <;> omega

theorem strcasecmp_eq_zero_iff (a b : List Char) :
    strcasecmp a b = 0 ↔ a.map Char.toLower = b.map Char.toLower := by
  induction a generalizing b with
  | nil => cases b <;> simp [strcasecmp]
  | cons x xs ih =>
    cases b with
    | nil => simp [strcasecmp]
    | cons y ys =>
      simp only [strcasecmp, List.map_cons, List.cons.injEq]
      split_ifs with h1 h2
      · simp [h1, ih]
      · simp [h1]
      · simp [h1]

/-- The names of the command table are strictly ascending under
`strcasecmp`. -/
theorem ftp_commands_sorted :
    ftp_commands.Pairwise (fun a b => strcasecmp a.name b.name < 0) := by
  decide

theorem bsearch_loop_sound {key : List Char} {base : List ftp_command_t} {c : ftp_command_t} :
    ∀ (fuel l u : Nat), bsearch_loop key base fuel l u = some c → ftp_command_cmp key c = 0 := by
  intro fuel
  induction fuel with
  | zero => intro l u h; simp [bsearch_loop] at h
  | succ n ih =>
    intro l u h
    unfold bsearch_loop at h
    split_ifs at h
    dsimp only at h
    split at h
    · simp at h
    · rename_i p hg
      split_ifs at h
      · exact ih _ _ h
      · exact ih _ _ h
      · simp only [Option.some.injEq] at h
        subst h
        omega

theorem bsearch_loop_complete {key : List Char} {base : List ftp_command_t}
    (hs : base.Pairwise (fun a b => strcasecmp a.name b.name < 0)) :
    ∀ (fuel l u j : Nat) (p : ftp_command_t), u ≤ base.length → u - l < fuel → l ≤ j → j < u →
      base.get? j = some p → ftp_command_cmp key p = 0 →
      bsearch_loop key base fuel l u = some p := by
  rw [List.pairwise_iff_getElem] at hs
  intro fuel
  induction fuel with
  | zero => intro l u j p _ h; omega
  | succ n ih =>
    intro l u j p hu hf hl hj hp hc
    have hlu : l < u := by omega
    have hidx : (l + u) / 2 < base.length := by omega
    have hjl : j < base.length := by omega
    rw [List.get?_eq_getElem?, List.getElem?_eq_getElem hjl, Option.some.injEq] at hp
    unfold bsearch_loop
    rw [if_pos hlu]
    dsimp only
    rw [List.get?_eq_getElem?, List.getElem?_eq_getElem hidx]
    dsimp only
    simp only [ftp_command_cmp] at hc ⊢
    have ho := fun b c => strcasecmp_order key b c
    by_cases h1 : strcasecmp key (base[(l + u) / 2]).name < 0
    · rw [if_pos h1]
      have hlt : j < (l + u) / 2 := by
        by_contra hge
        rcases Nat.eq_or_lt_of_le (Nat.le_of_not_lt hge) with e | e
        · have : base[(l + u) / 2] = base[j] := by
            congr 1
          rw [this, hp] at h1
          omega
        · have hr := hs _ _ hidx hjl e
          rw [hp] at hr
          have := (ho (base[(l + u) / 2]).name p.name).2.1 h1 (le_of_lt hr)
          omega
      exact ih l ((l + u) / 2) j p (by omega) (by omega) hl hlt
        (by rw [List.get?_eq_getElem?, List.getElem?_eq_getElem hjl, hp]) hc
    · rw [if_neg h1]
      by_cases h2 : strcasecmp key (base[(l + u) / 2]).name > 0
      · rw [if_pos h2]
        have hgt : (l + u) / 2 < j := by
          by_contra hge
          rcases Nat.eq_or_lt_of_le (Nat.le_of_not_lt hge) with e | e
          · have : base[(l + u) / 2] = base[j] := by
              congr 1
              exact e.symm
            rw [this, hp] at h2
            omega
          · have hr := hs _ _ hjl hidx e
            rw [hp] at hr
            have := (ho p.name (base[(l + u) / 2]).name).2.2.1 (le_of_eq hc) hr
            omega
        exact ih ((l + u) / 2 + 1) u j p hu (by omega) (by omega) hj
          (by rw [List.get?_eq_getElem?, List.getElem?_eq_getElem hjl, hp]) hc
      · rw [if_neg h2]
        have h0 : strcasecmp key (base[(l + u) / 2]).name = 0 := by omega
        congr 1
        rcases Nat.lt_trichotomy ((l + u) / 2) j with e | e | e
        · have hr := hs _ _ hidx hjl e
          rw [hp] at hr
          have := (ho (base[(l + u) / 2]).name p.name).2.2.1 (le_of_eq h0) hr
          omega
        · rw [← hp]
          congr 1
        · have hr := hs _ _ hjl hidx e
          rw [hp] at hr
          have := (ho p.name (base[(l + u) / 2]).name).2.2.1 (le_of_eq hc) hr
          omega

/-- The binary search finds an entry exactly when the key equals its name
ignoring letter case. -/
theorem bsearch_iff (verb : List Char) (c : ftp_command_t) :
    bsearch verb ftp_commands = some c ↔
      c ∈ ftp_commands ∧ verb.map Char.toLower = c.name.map Char.toLower := by
  rw [← strcasecmp_eq_zero_iff]
  constructor
  · intro h
    exact ⟨bsearch_mem h, bsearch_loop_sound _ _ _ h⟩
  · rintro ⟨hm, hc⟩
    obtain ⟨j, hj⟩ := List.mem_iff_get?.mp hm
    have hjl : j < ftp_commands.length := by
      by_contra hge
      rw [List.get?_eq_none.mpr (Nat.le_of_not_lt hge)] at hj
      simp at hj
    exact bsearch_loop_complete ftp_commands_sorted _ 0 _ j c (le_refl _) (by omega)
      (Nat.zero_le _) hjl hj hc

theorem bsearch_none_iff (verb : List Char) :
    bsearch verb ftp_commands = none ↔
      ∀ c ∈ ftp_commands, verb.map Char.toLower ≠ c.name.map Char.toLower := by
  constructor
  · intro h c hc he
    have := (bsearch_iff verb c).mpr ⟨hc, he⟩
    rw [h] at this
    simp at this
  · intro h
    cases hb : bsearch verb ftp_commands with
    | none => rfl
    | some c =>
      obtain ⟨hm, he⟩ := (bsearch_iff verb c).mp hb
      exact absurd he (h c hm)

/-! ## Claim about the dispatch table -/

/-- C14: the 32 names of the command table are strictly ascending under
`strcasecmp`, so the binary search is exact: for every name, `bsearch` returns
an entry if and only if the name equals the entry's name ignoring letter case,
and it returns nothing exactly when no entry has that name.  On a non-empty
received buffer `ftp_session_read_command` calls the handler of the entry
found with the argument string, and answers a name that is not found with 502
without calling a handler.  The names XCUP, XMKD, XPWD and XRMD lead to the
handlers `CDUP`, `MKD`, `PWD` and `RMD`. -/
theorem C14_dispatch_lookup (w fuel : Nat) (env : Env) (s : ftp_session_t)
    (received : List Char) (hne : received ≠ []) :
    ftp_commands.length = 32 ∧
    ftp_commands.Pairwise (fun a b => strcasecmp a.name b.name < 0) ∧
    (∀ verb c, bsearch verb ftp_commands = some c ↔
      c ∈ ftp_commands ∧ verb.map Char.toLower = c.name.map Char.toLower) ∧
    (∀ verb, bsearch verb ftp_commands = none ↔
      ∀ c ∈ ftp_commands, verb.map Char.toLower ≠ c.name.map Char.toLower) ∧
    (∀ c, bsearch (command_name (command_line received)) ftp_commands = some c →
      ftp_session_read_command w fuel (some received) env s =
        call_handler w fuel env c.handler
          (if strcasecmp c.name "RNTO".toList ≠ 0 then
             { s with flags := { s.flags with SESSION_RENAME := false } }
           else s)
          (command_args (command_line received))) ∧
    (bsearch (command_name (command_line received)) ftp_commands = none →
      ftp_session_read_command w fuel (some received) env s =
        some (ftp_send_response s 502
          ("invalid command -> ".toList ++ command_name (command_line received) ++
            ' ' :: command_args (command_line received) ++ "\r\n".toList))) ∧
    bsearch "XCUP".toList ftp_commands = some ⟨"XCUP".toList, .CDUP⟩ ∧
    bsearch "XMKD".toList ftp_commands = some ⟨"XMKD".toList, .MKD⟩ ∧
    bsearch "XPWD".toList ftp_commands = some ⟨"XPWD".toList, .PWD⟩ ∧
    bsearch "XRMD".toList ftp_commands = some ⟨"XRMD".toList, .RMD⟩ := by
  have hlen : ¬ (List.take CMD_BUFFERSIZE received).length = 0 := by
    cases received with
    | nil => exact absurd rfl hne
    | cons a as => simp [CMD_BUFFERSIZE]
  refine ⟨rfl, ftp_commands_sorted, bsearch_iff, bsearch_none_iff, ?_, ?_, ?_, ?_, ?_, ?_⟩
  · intro c hc
    simp only [ftp_session_read_command, hlen, ↓reduceIte, hc]
  · intro hc
    simp only [ftp_session_read_command, hlen, ↓reduceIte, hc]
  · exact (bsearch_iff _ _).mpr ⟨by decide, by decide⟩
  · exact (bsearch_iff _ _).mpr ⟨by decide, by decide⟩
  · exact (bsearch_iff _ _).mpr ⟨by decide, by decide⟩
  · exact (bsearch_iff _ _).mpr ⟨by decide, by decide⟩

/-- C14 at the line `xpwd`, CR, LF: the lower-case alias is found and the
`PWD` handler answers with the working directory. -/
theorem C14_dispatch_lookup_witness :
    bsearch "xpwd".toList ftp_commands = some ⟨"XPWD".toList, .PWD⟩ ∧
    ftp_session_read_command 32 1 (some "xpwd\r\n".toList) env_ok session0 =
      call_handler 32 1 env_ok .PWD
        { session0 with flags := { session0.flags with SESSION_RENAME := false } } [] := by
  have h := C14_dispatch_lookup 32 1 env_ok session0 "xpwd\r\n".toList (by decide)
  have hb : bsearch "xpwd".toList ftp_commands = some ⟨"XPWD".toList, .PWD⟩ :=
    (h.2.2.1 _ _).mpr ⟨by decide, by decide⟩
  have hn : command_name (command_line "xpwd\r\n".toList) = "xpwd".toList := by decide
  have ha : command_args (command_line "xpwd\r\n".toList) = [] := by decide
  refine ⟨hb, ?_⟩
  have h5 := h.2.2.2.2.1 ⟨"XPWD".toList, .PWD⟩ (by rw [hn]; exact hb)
  rw [h5, ha]
  rfl

/-! ## One reply per command -/

theorem one_reply_response {s x : ftp_session_t} (h : replies x = replies s) (code : Nat)
    (text : List Char) : one_reply s (ftp_send_response x code text) := by
  refine ⟨response_bytes code text, ?_⟩
  rw [← h]
  simp only [replies, ftp_send_response, List.filterMap_append, List.filterMap_cons,
    List.filterMap_nil]

theorem replies_of_events {s x : ftp_session_t} (h : x.events = s.events) :
    replies x = replies s := by
  simp only [replies, h]

theorem replies_set_state (s : ftp_session_t) (st : session_state_t) :
    replies (ftp_session_set_state s st) = replies s :=
  replies_of_events (set_state_events s st)

theorem connect_events (env : Env) (s : ftp_session_t) :
    (ftp_session_connect env s).2.events = s.events := by
  simp only [ftp_session_connect]
  split_ifs <;> rfl

theorem open_cwd_events (env : Env) (s : ftp_session_t) :
    (ftp_session_open_cwd env s).2.events = s.events := by
  simp only [ftp_session_open_cwd]
  split <;> rfl

theorem open_file_read_events (env : Env) (s : ftp_session_t) :
    (ftp_session_open_file_read env s).2.events = s.events := by
  simp only [ftp_session_open_file_read, ftp_session_close_file]
  split_ifs <;> rfl

theorem open_file_write_replies (env : Env) (s : ftp_session_t) :
    replies (ftp_session_open_file_write env s).2 = replies s := by
  simp only [ftp_session_open_file_write, replies]
  split_ifs <;> simp

theorem build_path_replies {fuel : Nat} {s s1 : ftp_session_t} {args : List Char}
    {r : Except errno_t Unit} (hb : build_path fuel s args = some (r, s1)) :
    replies s1 = replies s := by
  rw [build_path_frame hb]
  rfl

theorem cd_up_replies {s s1 : ftp_session_t} (hc : cd_up s = some s1) :
    replies s1 = replies s := by
  rw [cd_up_frame hc]
  rfl

/-- The handlers that do not look at the filesystem or the sockets send one
reply. -/
theorem simple_handlers_one_reply (s : ftp_session_t) (args : List Char) :
    one_reply s (ALLO s args) ∧ one_reply s (APPE s args) ∧ one_reply s (FEAT s args) ∧
    one_reply s (MODE s args) ∧ one_reply s (NLST s args) ∧ one_reply s (NOOP s args) ∧
    one_reply s (OPTS s args) ∧ one_reply s (PASS s args) ∧ one_reply s (PWD s args) ∧
    one_reply s (QUIT s args) ∧ one_reply s (REST s args) ∧ one_reply s (STOU s args) ∧
    one_reply s (STRU s args) ∧ one_reply s (SYST s args) ∧ one_reply s (TYPE s args) ∧
    one_reply s (USER s args) := by
  have h := replies_set_state s .COMMAND_STATE
  refine ⟨?_, ?_, ?_, ?_, ?_, ?_, ?_, ?_, ?_, ?_, ?_, ?_, ?_, ?_, ?_, ?_⟩
  · exact one_reply_response h _ _
  · exact one_reply_response h _ _
  · exact one_reply_response h _ _
  · simp only [FTP.MODE]
    split_ifs <;> exact one_reply_response h _ _
  · exact one_reply_response h _ _
  · exact one_reply_response rfl _ _
  · simp only [OPTS]
    split_ifs <;> exact one_reply_response h _ _
  · exact one_reply_response h _ _
  · exact one_reply_response h _ _
  · obtain ⟨r, hr⟩ := @one_reply_response s s rfl 221 "disconnecting\r\n".toList
    exact ⟨r, hr⟩
  · exact one_reply_response h _ _
  · exact one_reply_response h _ _
  · simp only [STRU]
    split_ifs <;> exact one_reply_response h _ _
  · exact one_reply_response h _ _
  · exact one_reply_response h _ _
  · exact one_reply_response h _ _

theorem PASV_one_reply (env : Env) (s : ftp_session_t) (args : List Char) :
    one_reply s (PASV env s args) := by
  have h := replies_set_state s .COMMAND_STATE
  simp only [PASV, ftp_session_close_pasv]
  split_ifs <;> exact one_reply_response h _ _

theorem PORT_one_reply (w : Nat) (env : Env) (s : ftp_session_t) (args : List Char) :
    one_reply s (PORT w env s args) := by
  have h := replies_set_state s .COMMAND_STATE
  simp only [PORT]
  split_ifs
  · exact one_reply_response h _ _
  · exact one_reply_response h _ _
  · split
    · exact one_reply_response h _ _
    · split
      · exact one_reply_response h _ _
      · split_ifs
        · exact one_reply_response h _ _
        · exact one_reply_response h _ _

theorem CDUP_one_reply {s s1 : ftp_session_t} {args : List Char} (h : CDUP s args = some s1) :
    one_reply s s1 := by
  simp only [CDUP] at h
  cases hc : cd_up (ftp_session_set_state s .COMMAND_STATE) with
  | none => simp [hc] at h
  | some s2 =>
    simp only [hc, Option.some.injEq] at h
    subst h
    exact one_reply_response ((cd_up_replies hc).trans (replies_set_state _ _)) _ _

/-- The handlers that resolve a path and act on the filesystem send one
reply whenever they return. -/
theorem path_handlers_one_reply {fuel : Nat} {env : Env} {s s1 : ftp_session_t}
    {args : List Char} :
    (CWD fuel env s args = some s1 → one_reply s s1) ∧
    (DELE fuel env s args = some s1 → one_reply s s1) ∧
    (MKD fuel env s args = some s1 → one_reply s s1) ∧
    (RMD fuel env s args = some s1 → one_reply s s1) ∧
    (RNFR fuel env s args = some s1 → one_reply s s1) := by
  have key : ∀ p : Except errno_t Unit × ftp_session_t,
      build_path fuel (ftp_session_set_state s .COMMAND_STATE) args = some p →
        replies p.2 = replies s :=
    fun p hp => (build_path_replies hp).trans (replies_set_state _ _)
  refine ⟨?_, ?_, ?_, ?_, ?_⟩
  · intro h
    simp only [CWD] at h
    by_cases ha : args = ['.', '.']
    · simp only [ha, ↓reduceIte] at h
      cases hc : cd_up (ftp_session_set_state s .COMMAND_STATE) with
      | none => simp [hc] at h
      | some s2 =>
        simp only [hc, Option.some.injEq] at h
        subst h
        exact one_reply_response ((cd_up_replies hc).trans (replies_set_state _ _)) _ _
    · simp only [ha, ↓reduceIte] at h
      cases hb : build_path fuel (ftp_session_set_state s .COMMAND_STATE) args with
      | none => simp [hb] at h
      | some p =>
        obtain ⟨r, s2⟩ := p
        have hk := key _ hb
        cases r <;> simp only [hb] at h <;> (try split_ifs at h) <;>
          (simp only [Option.some.injEq] at h; subst h; exact one_reply_response hk _ _)
  all_goals
    intro h
    first
      | simp only [DELE] at h
      | simp only [MKD] at h
      | simp only [RMD] at h
      | simp only [RNFR] at h
    cases hb : build_path fuel (ftp_session_set_state s .COMMAND_STATE) args with
    | none => simp [hb] at h
    | some p =>
      obtain ⟨r, s2⟩ := p
      have hk := key _ hb
      cases r <;> simp only [hb] at h <;> (try split_ifs at h) <;>
        (simp only [Option.some.injEq] at h
         subst h
         first
           | exact one_reply_response hk _ _
           | (refine one_reply_response ?_ _ _
              rw [← hk]
              simp [replies]))

theorem RNTO_one_reply {fuel : Nat} {env : Env} {s s1 : ftp_session_t} {args : List Char}
    (h : RNTO fuel env s args = some s1) : one_reply s s1 := by
  have h0 := replies_set_state s .COMMAND_STATE
  simp only [RNTO] at h
  by_cases hf : (!(ftp_session_set_state s .COMMAND_STATE).flags.SESSION_RENAME) = true
  · rw [if_pos hf, Option.some.injEq] at h
    subst h
    exact one_reply_response h0 _ _
  · rw [if_neg hf] at h
    generalize hb : build_path fuel _ args = bp at h
    cases bp with
    | none => simp at h
    | some p =>
      obtain ⟨r, s2⟩ := p
      have hk : replies s2 = replies s := (build_path_replies hb).trans h0
      cases r with
      | error e =>
        simp only [Option.some.injEq] at h
        subst h
        exact one_reply_response hk _ _
      | ok u =>
        simp only at h
        split_ifs at h
        · simp only [Option.some.injEq] at h
          subst h
          exact one_reply_response hk _ _
        · simp only [Option.some.injEq] at h
          subst h
          refine one_reply_response ?_ _ _
          rw [← hk]
          simp [replies]

theorem replies_connect (env : Env) (s : ftp_session_t) :
    replies (ftp_session_connect env s).2 = replies s :=
  replies_of_events (connect_events env s)

theorem ne_connect_of_command {s : ftp_session_t} (h : s.state = .COMMAND_STATE) :
    s.state ≠ .DATA_CONNECT_STATE := by
  rw [h]
  decide

theorem ne_connect_of_transfer {s : ftp_session_t} (h : s.state = .DATA_TRANSFER_STATE) :
    s.state ≠ .DATA_CONNECT_STATE := by
  rw [h]
  decide

theorem LIST_reply (env : Env) (s : ftp_session_t) (args : List Char) :
    transfer_reply s (LIST env s args) := by
  have hk : replies (ftp_session_open_cwd env s).2 = replies s :=
    replies_of_events (open_cwd_events env s)
  simp only [LIST]
  split_ifs
  · exact Or.inr ⟨ne_connect_of_command (set_state_state _ _),
      one_reply_response ((replies_set_state _ _).trans hk) _ _⟩
  · exact Or.inr ⟨ne_connect_of_command (set_state_state _ _),
      one_reply_response ((replies_set_state _ _).trans ((replies_connect _ _).trans
        ((replies_set_state _ _).trans hk))) _ _⟩
  · exact Or.inr ⟨ne_connect_of_transfer ((connect_state _ _).trans (set_state_state _ _)),
      one_reply_response ((replies_connect _ _).trans ((replies_set_state _ _).trans hk)) _ _⟩
  · exact Or.inl ⟨set_state_state _ _, (replies_set_state _ _).trans hk⟩
  · exact Or.inr ⟨ne_connect_of_command (set_state_state _ _),
      one_reply_response ((replies_set_state _ _).trans hk) _ _⟩

theorem RETR_reply {fuel : Nat} {env : Env} {s s1 : ftp_session_t} {args : List Char}
    (h : RETR fuel env s args = some s1) : transfer_reply s s1 := by
  simp only [RETR] at h
  cases hb : build_path fuel s args with
  | none => simp [hb] at h
  | some p =>
    obtain ⟨r, s2⟩ := p
    have hk2 := build_path_replies hb
    have hk : replies (ftp_session_open_file_read env s2).2 = replies s :=
      (replies_of_events (open_file_read_events env s2)).trans hk2
    cases r with
    | error e =>
      simp only [hb, Option.some.injEq] at h
      subst h
      exact Or.inr ⟨ne_connect_of_command (set_state_state _ _),
        one_reply_response ((replies_set_state _ _).trans hk2) _ _⟩
    | ok u =>
      simp only [hb] at h
      split_ifs at h
      all_goals
        simp only [Option.some.injEq] at h
        subst h
      · exact Or.inr ⟨ne_connect_of_command (set_state_state _ _),
          one_reply_response ((replies_set_state _ _).trans hk) _ _⟩
      · exact Or.inr ⟨ne_connect_of_command (set_state_state _ _),
          one_reply_response ((replies_set_state _ _).trans ((replies_connect _ _).trans
            ((replies_set_state _ _).trans hk))) _ _⟩
      · exact Or.inr ⟨ne_connect_of_transfer ((connect_state _ _).trans (set_state_state _ _)),
          one_reply_response ((replies_connect _ _).trans ((replies_set_state _ _).trans hk)) _ _⟩
      · exact Or.inl ⟨set_state_state _ _, (replies_set_state _ _).trans hk⟩
      · exact Or.inr ⟨ne_connect_of_command (set_state_state _ _),
          one_reply_response ((replies_set_state _ _).trans hk) _ _⟩

theorem STOR_reply {fuel : Nat} {env : Env} {s s1 : ftp_session_t} {args : List Char}
    (h : STOR fuel env s args = some s1) : transfer_reply s s1 := by
  simp only [STOR] at h
  cases hb : build_path fuel s args with
  | none => simp [hb] at h
  | some p =>
    obtain ⟨r, s2⟩ := p
    have hk2 := build_path_replies hb
    have hk : replies (ftp_session_open_file_write env s2).2 = replies s :=
      (open_file_write_replies env s2).trans hk2
    cases r with
    | error e =>
      simp only [hb, Option.some.injEq] at h
      subst h
      exact Or.inr ⟨ne_connect_of_command (set_state_state _ _),
        one_reply_response ((replies_set_state _ _).trans hk2) _ _⟩
    | ok u =>
      simp only [hb] at h
      split_ifs at h
      all_goals
        simp only [Option.some.injEq] at h
        subst h
      · exact Or.inr ⟨ne_connect_of_command (set_state_state _ _),
          one_reply_response ((replies_set_state _ _).trans hk) _ _⟩
      · exact Or.inr ⟨ne_connect_of_command (set_state_state _ _),
          one_reply_response ((replies_set_state _ _).trans ((replies_connect _ _).trans
            ((replies_set_state _ _).trans hk))) _ _⟩
      · exact Or.inr ⟨ne_connect_of_transfer ((connect_state _ _).trans (set_state_state _ _)),
          one_reply_response ((replies_connect _ _).trans ((replies_set_state _ _).trans hk)) _ _⟩
      · exact Or.inl ⟨set_state_state _ _, (replies_set_state _ _).trans hk⟩
      · exact Or.inr ⟨ne_connect_of_command (set_state_state _ _),
          one_reply_response ((replies_set_state _ _).trans hk) _ _⟩

/-- Every handler that returns has sent exactly one reply, except that `LIST`,
`RETR` and `STOR` have sent none when they have entered DataConnect state. -/
theorem call_handler_replies {w fuel : Nat} {env : Env} {h : handler_t}
    {s s1 : ftp_session_t} {args : List Char}
    (hc : call_handler w fuel env h s args = some s1) :
    if h = .LIST ∨ h = .RETR ∨ h = .STOR then transfer_reply s s1 else one_reply s s1 := by
  obtain ⟨a1, a2, a3, a4, a5, a6, a7, a8, a9, a10, a11, a12, a13, a14, a15, a16⟩ :=
    simple_handlers_one_reply s args
  obtain ⟨b1, b2, b3, b4, b5⟩ := @path_handlers_one_reply fuel env s s1 args
  cases h <;> simp only [call_handler, Option.some.injEq] at hc <;> (try subst hc) <;>
    simp only [reduceCtorEq, or_self, or_false, false_or, or_true, true_or, ↓reduceIte]
  · exact a1
  · exact a2
  · exact CDUP_one_reply hc
  · exact b1 hc
  · exact b2 hc
  · exact a3
  · exact LIST_reply _ _ _
  · exact b3 hc
  · exact a4
  · exact a5
  · exact a6
  · exact a7
  · exact a8
  · exact PASV_one_reply _ _ _
  · exact PORT_one_reply _ _ _ _
  · exact a9
  · exact a10
  · exact a11
  · exact RETR_reply hc
  · exact b4 hc
  · exact b5 hc
  · exact RNTO_one_reply hc
  · exact STOR_reply hc
  · exact a12
  · exact a13
  · exact a14
  · exact a15
  · exact a16

/-- Whenever `ftp_session_read_command` returns from a line whose name is in
the table, it has sent exactly one reply, except that `LIST`, `RETR` and
`STOR` have sent none when they have entered DataConnect state. -/
theorem read_command_replies {w fuel : Nat} {env : Env} {s s1 : ftp_session_t}
    {received : List Char} {c : ftp_command_t} (hne : received ≠ [])
    (hb : bsearch (command_name (command_line received)) ftp_commands = some c)
    (h : ftp_session_read_command w fuel (some received) env s = some s1) :
    if c.handler = .LIST ∨ c.handler = .RETR ∨ c.handler = .STOR then transfer_reply s s1
    else one_reply s s1 := by
  have hlen : ¬ (List.take CMD_BUFFERSIZE received).length = 0 := by
    cases received with
    | nil => exact absurd rfl hne
    | cons a as => simp [CMD_BUFFERSIZE]
  simp only [ftp_session_read_command, hlen, ↓reduceIte, hb] at h
  have hr := call_handler_replies h
  have he : replies (if strcasecmp c.name "RNTO".toList ≠ 0 then
      { s with flags := { s.flags with SESSION_RENAME := false } } else s) = replies s := by
    split_ifs <;> rfl
  simp only [transfer_reply, one_reply, he] at hr ⊢
  exact hr

/-! ## Claim about the replies -/

set_option maxRecDepth 10000 in
theorem bsearch_dele_line :
    bsearch (command_name (command_line "DELE /..a\r\n".toList)) ftp_commands =
      some ⟨"DELE".toList, .DELE⟩ := by
  decide

/-- C18 (defect in the code): the command line `DELE /..a` names a verb of the
table, and processing it sends no reply at all, because it never returns: the
loop of `validate_path` finds the `/..` at the start of the argument, sees
that `a` follows and searches again from the same place, for ever.  No amount
of fuel makes `ftp_session_read_command` return. -/
theorem C18_no_reply_when_path_check_hangs (w fuel : Nat) (env : Env) (s : ftp_session_t) :
    bsearch (command_name (command_line "DELE /..a\r\n".toList)) ftp_commands =
      some ⟨"DELE".toList, .DELE⟩ ∧
    command_args (command_line "DELE /..a\r\n".toList) = "/..a".toList ∧
    ftp_session_read_command w fuel (some "DELE /..a\r\n".toList) env s = none := by
  have hb := bsearch_dele_line
  have ha : command_args (command_line "DELE /..a\r\n".toList) = "/..a".toList := by decide
  have hs : strstr "/..a".toList ['/', '.', '.'] = some "/..a".toList := by decide
  have hv : validate_path_scan fuel "/..a".toList = none :=
    @validate_path_scan_none_of_match "/..a".toList "/..a".toList [] 'a' hs (by decide)
      (by decide) fuel
  have hlen : ¬ (List.take CMD_BUFFERSIZE "DELE /..a\r\n".toList).length = 0 := by decide
  refine ⟨hb, ha, ?_⟩
  simp only [ftp_session_read_command, hlen, ↓reduceIte, hb, ha, call_handler, DELE,
    build_path, validate_path, hv]

/-! ## Transfers run to completion -/

theorem clamp_pos (n len : Nat) : 1 ≤ clamp n len := by
  simp only [clamp]
  omega

theorem clamp_le (n : Nat) {len : Nat} (h : 1 ≤ len) : clamp n len ≤ len := by
  simp only [clamp]
  omega

theorem unblocked_cons (t : turn_t) (ts : List turn_t) :
    unblocked (t :: ts) = (if t.block then 0 else 1) + unblocked ts := by
  simp only [unblocked, List.filter_cons]
  cases t.block <;> simp
  omega

theorem transfer_run_done {σ : Type} (answers : turn_t → σ → ftp_session_t → XferEnv × σ)
    (turns : List turn_t) (w : σ) {s : ftp_session_t} (h : s.state = .COMMAND_STATE) :
    transfer_run answers turns w s = some s := by
  cases turns <;> simp [transfer_run, h]

theorem response_226 : response_bytes 226 "OK\r\n".toList = "226 OK\r\n".toList := by decide

/-- `send` would block: the routine returns without a change. -/
theorem send_blocked (t : turn_t) (len : Nat) (s : ftp_session_t) (hb : t.block = true) :
    list_transfer_send (send_answers t len) s = (-1, s) := by
  simp [list_transfer_send, send_answers, hb]

/-- `send` takes `clamp t.n len` bytes of the window. -/
theorem send_some (t : turn_t) (len : Nat) (s : ftp_session_t) (hb : t.block = false) :
    list_transfer_send (send_answers t len) s =
      (0, { s with
            bufferpos := s.bufferpos + clamp t.n len
            events := s.events ++
              [Event.data_send ((s.buffer.drop s.bufferpos).take (clamp t.n len))] }) := by
  have h := clamp_pos t.n len
  have h1 : ¬ ((clamp t.n len : Nat) : Int) ≤ 0 := by omega
  simp only [list_transfer_send, send_answers, hb, Bool.false_eq_true, ↓reduceIte, h1,
    Int.toNat_ofNat]

theorem take_take_drop (l : List Char) {k n : Nat} (h : k ≤ n) :
    l.take k ++ (l.drop k).take (n - k) = l.take n := by
  have : n = k + (n - k) := by omega
  rw [this, List.take_add]
  simp

/-! ### `list_transfer` -/

theorem list_step_done (e : XferEnv) (s : ftp_session_t) (hpos : s.bufferpos = s.buffersize)
    (hh : s.handle = .dir []) :
    list_transfer e s =
      some (-1, ftp_send_response
        (ftp_session_set_state (ftp_session_close_cwd s) .COMMAND_STATE) 226 "OK\r\n".toList) := by
  simp only [list_transfer, hpos, ↓reduceIte, hh]

theorem list_step_dot (e : XferEnv) (s : ftp_session_t) (d : dirent) (rest : List dirent)
    (hpos : s.bufferpos = s.buffersize) (hh : s.handle = .dir (d :: rest))
    (hd : d.d_name = ['.'] ∨ d.d_name = ['.', '.']) :
    list_transfer e s = some (0, { s with handle := .dir rest }) := by
  simp only [list_transfer, hpos, ↓reduceIte, hh, hd]

theorem list_step_line (e : XferEnv) (s : ftp_session_t) (d : dirent) (rest : List dirent)
    (hpos : s.bufferpos = s.buffersize) (hh : s.handle = .dir (d :: rest))
    (hd : ¬ (d.d_name = ['.'] ∨ d.d_name = ['.', '.'])) (hl : d.lstat_rc = 0) :
    list_transfer e s =
      some (list_transfer_send e
        { s with handle := .dir rest, buffer := list_line d,
                 buffersize := (list_line d).length, bufferpos := 0 }) := by
  simp only [list_transfer, hpos, ↓reduceIte, hh, hd, hl, ne_eq, not_true_eq_false]

theorem list_step_window (e : XferEnv) (s : ftp_session_t) (hpos : s.bufferpos ≠ s.buffersize) :
    list_transfer e s = some (list_transfer_send e s) := by
  simp only [list_transfer, hpos, ↓reduceIte]

theorem list_line_length_pos (d : dirent) : 1 ≤ (list_line d).length := by
  simp only [list_line, List.length_cons]
  omega

theorem listed_cons_dot (d : dirent) (rest : List dirent)
    (hd : d.d_name = ['.'] ∨ d.d_name = ['.', '.']) : listed (d :: rest) = listed rest := by
  have h : decide (¬ (d.d_name = ['.'] ∨ d.d_name = ['.', '.'])) = false :=
    decide_eq_false_iff_not.mpr (not_not.mpr hd)
  simp only [listed, List.filter_cons, h, Bool.false_eq_true, ↓reduceIte]

theorem listed_cons_line (d : dirent) (rest : List dirent)
    (hd : ¬ (d.d_name = ['.'] ∨ d.d_name = ['.', '.'])) :
    listed (d :: rest) = d :: listed rest := by
  have h : decide (¬ (d.d_name = ['.'] ∨ d.d_name = ['.', '.'])) = true :=
    decide_eq_true hd
  simp only [listed, List.filter_cons, h, ↓reduceIte]

/-- `list_transfer`, called again and again, sends the window and the lines of
all entries still to come and ends with `226 OK`, provided the turns hold
enough calls that do not block. -/
theorem list_run_complete : ∀ (turns : List turn_t) (s : ftp_session_t) (entries : List dirent),
    s.state = .DATA_TRANSFER_STATE → s.transfer = some .list_transfer →
    s.handle = .dir entries → s.bufferpos ≤ s.buffersize →
    (∀ d ∈ listed entries, d.lstat_rc = 0) →
    (s.buffersize - s.bufferpos) + entries.length
      + ((listed entries).map list_line).flatten.length + 1 ≤ unblocked turns →
    ∃ (s1 : ftp_session_t) (chunks : List (List Char)),
      transfer_run list_answers turns () s = some s1 ∧
      s1.state = .COMMAND_STATE ∧
      s1.events = s.events ++ chunks.map Event.data_send ++
        [Event.cmd_send "226 OK\r\n".toList] ∧
      chunks.flatten = pending s ++ ((listed entries).map list_line).flatten := by
  intro turns
  induction turns with
  | nil =>
    intro s entries _ _ _ _ _ hw
    simp only [unblocked, List.filter_nil, List.length_nil] at hw
    omega
  | cons t ts ih =>
    intro s entries hst htr hh hle hls hw
    rw [unblocked_cons] at hw
    simp only [transfer_run, hst, ↓reduceIte, call_transfer, htr, list_answers]
    by_cases hpos : s.bufferpos = s.buffersize
    · have hpend : pending s = [] := by
        simp only [pending, hpos, Nat.sub_self, List.take_zero]
      cases entries with
      | nil =>
        rw [list_step_done _ s hpos hh]
        simp only
        have hdone : (ftp_send_response
            (ftp_session_set_state (ftp_session_close_cwd s) .COMMAND_STATE) 226
            "OK\r\n".toList).state = .COMMAND_STATE := set_state_state _ _
        rw [transfer_run_done _ _ _ hdone]
        refine ⟨_, [], rfl, hdone, ?_, ?_⟩
        · simp only [ftp_send_response, set_state_events, ftp_session_close_cwd, response_226,
            List.map_nil, List.append_nil]
        · simp [hpend, listed]
      | cons d rest =>
        by_cases hd : d.d_name = ['.'] ∨ d.d_name = ['.', '.']
        · rw [list_step_dot _ s d rest hpos hh hd]
          simp only
          rw [listed_cons_dot d rest hd] at hls hw ⊢
          obtain ⟨s1, chunks, h1, h2, h3, h4⟩ :=
            ih { s with handle := .dir rest } rest hst htr rfl hle hls (by
              simp only [List.length_cons] at hw
              dsimp only
              split_ifs at hw <;> omega)
          exact ⟨s1, chunks, h1, h2, h3, h4⟩
        · have hl : d.lstat_rc = 0 :=
            hls d (by rw [listed_cons_line d rest hd]; exact List.mem_cons_self _ _)
          rw [list_step_line _ s d rest hpos hh hd hl]
          rw [listed_cons_line d rest hd] at hls hw ⊢
          simp only [List.map_cons, List.flatten_cons, List.length_append, List.length_cons]
            at hw
          have hwin : list_window s = (list_line d).length := by
            simp only [list_window, hpos, ↓reduceIte, hh]
          rw [hwin]
          have hlp := list_line_length_pos d
          by_cases hb : t.block = true
          · rw [send_blocked t _ _ hb]
            simp only
            rw [if_pos hb] at hw
            obtain ⟨s1, chunks, h1, h2, h3, h4⟩ :=
              ih { s with handle := .dir rest, buffer := list_line d,
                          buffersize := (list_line d).length, bufferpos := 0 }
                rest hst htr rfl (Nat.zero_le _)
                (fun x hx => hls x (List.mem_cons_of_mem _ hx)) (by
                  simp only [Nat.sub_zero]
                  omega)
            refine ⟨s1, chunks, h1, h2, h3, ?_⟩
            rw [h4, hpend]
            simp [pending]
          · have hb0 : t.block = false := by simpa using hb
            rw [send_some t _ _ hb0]
            simp only
            rw [if_neg hb] at hw
            have hc1 := clamp_pos t.n (list_line d).length
            have hc2 := clamp_le t.n hlp
            obtain ⟨s1, chunks, h1, h2, h3, h4⟩ :=
              ih { s with handle := .dir rest, buffer := list_line d,
                          buffersize := (list_line d).length,
                          bufferpos := 0 + clamp t.n (list_line d).length,
                          events := s.events ++ [Event.data_send
                            ((List.drop 0 (list_line d)).take (clamp t.n (list_line d).length))] }
                rest hst htr rfl (by simp only [Nat.zero_add]; exact hc2)
                (fun x hx => hls x (List.mem_cons_of_mem _ hx)) (by
                  simp only [Nat.zero_add]
                  omega)
            refine ⟨s1, ((List.drop 0 (list_line d)).take (clamp t.n (list_line d).length))
              :: chunks, h1, h2, ?_, ?_⟩
            · rw [h3]
              simp only [List.map_cons, List.append_assoc, List.singleton_append]
            · rw [List.flatten_cons, h4, hpend]
              simp only [pending, List.drop_zero, Nat.zero_add, List.nil_append,
                List.map_cons, List.flatten_cons]
              rw [← List.append_assoc]
              congr 1
              have := take_take_drop (list_line d) hc2
              rw [List.take_length] at this
              exact this
    · rw [list_step_window _ s hpos]
      have hlt : s.bufferpos < s.buffersize := Nat.lt_of_le_of_ne hle hpos
      have hwin : list_window s = s.buffersize - s.bufferpos := by
        simp only [list_window, hpos, ↓reduceIte]
      rw [hwin]
      by_cases hb : t.block = true
      · rw [send_blocked t _ _ hb]
        simp only
        rw [if_pos hb] at hw
        exact ih s entries hst htr hh hle hls (by omega)
      · have hb0 : t.block = false := by simpa using hb
        rw [send_some t _ _ hb0]
        simp only
        rw [if_neg hb] at hw
        have hc1 := clamp_pos t.n (s.buffersize - s.bufferpos)
        have hc2 := clamp_le t.n (by omega : 1 ≤ s.buffersize - s.bufferpos)
        obtain ⟨s1, chunks, h1, h2, h3, h4⟩ :=
          ih { s with bufferpos := s.bufferpos + clamp t.n (s.buffersize - s.bufferpos),
                      events := s.events ++ [Event.data_send
                        ((s.buffer.drop s.bufferpos).take
                          (clamp t.n (s.buffersize - s.bufferpos)))] }
            entries hst htr hh (by simp only; omega) hls (by simp only; omega)
        refine ⟨s1, ((s.buffer.drop s.bufferpos).take (clamp t.n (s.buffersize - s.bufferpos)))
          :: chunks, h1, h2, ?_, ?_⟩
        · rw [h3]
          simp only [List.map_cons, List.append_assoc, List.singleton_append]
        · rw [List.flatten_cons, h4, ← List.append_assoc]
          congr 1
          simp only [pending]
          have := take_take_drop (s.buffer.drop s.bufferpos) hc2
          rw [List.drop_drop] at this
          have e1 : s.buffersize - (s.bufferpos + clamp t.n (s.buffersize - s.bufferpos)) =
              s.buffersize - s.bufferpos - clamp t.n (s.buffersize - s.bufferpos) := by omega
          rw [e1]
          exact this

/-! ### `retrieve_transfer` -/

theorem retrieve_send_blocked (e : XferEnv) (s : ftp_session_t) (h1 : e.send_rc = -1)
    (h2 : e.errno_wouldblock = true) : retrieve_transfer_send e s = (-1, s) := by
  simp [retrieve_transfer_send, h1, h2]

theorem retrieve_send_some (e : XferEnv) (s : ftp_session_t) (c : Nat)
    (h1 : e.send_rc = (c : Int)) (hc : 1 ≤ c) :
    retrieve_transfer_send e s =
      (0, { s with
            bufferpos := s.bufferpos + c
            events := s.events ++ [Event.data_send ((s.buffer.drop s.bufferpos).take c)] }) := by
  have h : ¬ ((c : Nat) : Int) ≤ 0 := by omega
  simp only [retrieve_transfer_send, h1, h, ↓reduceIte, Int.toNat_ofNat]

theorem retrieve_step_done (e : XferEnv) (s : ftp_session_t)
    (hpos : s.bufferpos = s.buffersize) (hh : s.handle = .file_rb [])
    (he : e.fread_rc = 0) :
    ∃ x : ftp_session_t, x.events = s.events ∧
      retrieve_transfer e s =
        some (-1, ftp_send_response (ftp_session_set_state x .COMMAND_STATE) 226
          "OK\r\n".toList) := by
  simp only [retrieve_transfer, hpos, ↓reduceIte, ftp_session_read_file, hh, he,
    Nat.cast_zero, lt_self_iff_false, le_refl]
  refine ⟨_, ?_, rfl⟩
  rfl

theorem retrieve_step_read (e : XferEnv) (s : ftp_session_t) (rest : List Char)
    (hpos : s.bufferpos = s.buffersize) (hh : s.handle = .file_rb rest)
    (he : 1 ≤ e.fread_rc) :
    retrieve_transfer e s =
      some (retrieve_transfer_send e
        { s with buffer := rest.take e.fread_rc, handle := .file_rb (rest.drop e.fread_rc),
                 filepos := s.filepos + e.fread_rc, bufferpos := 0,
                 buffersize := e.fread_rc }) := by
  have h1 : ¬ ((e.fread_rc : Nat) : Int) < 0 := by omega
  have h2 : ¬ ((e.fread_rc : Nat) : Int) ≤ 0 := by omega
  simp only [retrieve_transfer, hpos, ↓reduceIte, ftp_session_read_file, hh, h1, h2,
    Int.toNat_ofNat]

theorem retrieve_step_window (e : XferEnv) (s : ftp_session_t)
    (hpos : s.bufferpos ≠ s.buffersize) :
    retrieve_transfer e s = some (retrieve_transfer_send e s) := by
  simp only [retrieve_transfer, hpos, ↓reduceIte]

/-- `retrieve_transfer`, called again and again, sends the window and the rest
of the file and ends with `226 OK`, provided the turns hold enough calls that
do not block. -/
theorem retrieve_run_complete : ∀ (turns : List turn_t) (s : ftp_session_t) (rest : List Char),
    s.state = .DATA_TRANSFER_STATE → s.transfer = some .retrieve_transfer →
    s.handle = .file_rb rest → s.bufferpos ≤ s.buffersize →
    (s.buffersize - s.bufferpos) + rest.length + 1 ≤ unblocked turns →
    ∃ (s1 : ftp_session_t) (chunks : List (List Char)),
      transfer_run retrieve_answers turns () s = some s1 ∧
      s1.state = .COMMAND_STATE ∧
      s1.events = s.events ++ chunks.map Event.data_send ++
        [Event.cmd_send "226 OK\r\n".toList] ∧
      chunks.flatten = pending s ++ rest := by
  intro turns
  induction turns with
  | nil =>
    intro s rest _ _ _ _ hw
    simp only [unblocked, List.filter_nil, List.length_nil] at hw
    omega
  | cons t ts ih =>
    intro s rest hst htr hh hle hw
    rw [unblocked_cons] at hw
    simp only [transfer_run, hst, ↓reduceIte, call_transfer, htr]
    by_cases hpos : s.bufferpos = s.buffersize
    · have hpend : pending s = [] := by
        simp only [pending, hpos, Nat.sub_self, List.take_zero]
      have hans : retrieve_answers t () s =
          ({ send_answers t (fread_count t s) with fread_rc := fread_count t s }, ()) := by
        simp only [retrieve_answers, hpos, ↓reduceIte]
      rw [hans]
      dsimp only
      by_cases hr : rest = []
      · subst hr
        have hk : fread_count t s = 0 := by
          simp only [fread_count, hh, ↓reduceIte]
        obtain ⟨x, hx, hstep⟩ := retrieve_step_done
          { send_answers t (fread_count t s) with fread_rc := fread_count t s } s hpos hh hk
        rw [hstep]
        dsimp only
        have hdone : (ftp_send_response (ftp_session_set_state x .COMMAND_STATE) 226
            "OK\r\n".toList).state = .COMMAND_STATE := set_state_state _ _
        rw [transfer_run_done _ _ _ hdone]
        refine ⟨_, [], rfl, hdone, ?_, ?_⟩
        · simp only [ftp_send_response, set_state_events, hx, response_226, List.map_nil,
            List.append_nil]
        · simp [hpend]
      · have hrl : 1 ≤ rest.length := by
          cases rest with
          | nil => exact absurd rfl hr
          | cons a as => simp
        have hk : fread_count t s = clamp t.m (min XFER_BUFFERSIZE rest.length) := by
          simp only [fread_count, hh, hr, ↓reduceIte]
        have hk1 : 1 ≤ fread_count t s := by
          rw [hk]
          exact clamp_pos _ _
        have hk2 : fread_count t s ≤ rest.length := by
          rw [hk]
          have := clamp_le t.m (by simp only [XFER_BUFFERSIZE]; omega :
            1 ≤ min XFER_BUFFERSIZE rest.length)
          omega
        rw [retrieve_step_read _ s rest hpos hh hk1]
        dsimp only
        generalize fread_count t s = k at hk1 hk2
        have htk : (rest.take k).take k = rest.take k := by
          rw [List.take_take, Nat.min_self]
        by_cases hb : t.block = true
        · rw [retrieve_send_blocked _ _ (by simp [send_answers, hb]) (by simp [send_answers, hb])]
          dsimp only
          rw [if_pos hb] at hw
          obtain ⟨s1, chunks, h1, h2, h3, h4⟩ :=
            ih { s with buffer := rest.take k, handle := .file_rb (rest.drop k),
                        filepos := s.filepos + k, bufferpos := 0, buffersize := k }
              (rest.drop k) hst htr rfl (Nat.zero_le _) (by
                dsimp only
                rw [List.length_drop]
                omega)
          refine ⟨s1, chunks, h1, h2, h3, ?_⟩
          rw [h4, hpend]
          simp only [pending, List.drop_zero, Nat.sub_zero, List.nil_append, htk,
            List.take_append_drop]
        · have hb0 : t.block = false := by simpa using hb
          have hc1 := clamp_pos t.n k
          have hc2 := clamp_le t.n hk1
          rw [retrieve_send_some _ _ (clamp t.n k) (by simp [send_answers, hb0]) hc1]
          dsimp only
          rw [if_neg hb] at hw
          obtain ⟨s1, chunks, h1, h2, h3, h4⟩ :=
            ih { s with buffer := rest.take k, handle := .file_rb (rest.drop k),
                        filepos := s.filepos + k, bufferpos := 0 + clamp t.n k,
                        buffersize := k,
                        events := s.events ++ [Event.data_send
                          ((List.drop 0 (rest.take k)).take (clamp t.n k))] }
              (rest.drop k) hst htr rfl (by dsimp only; omega) (by
                dsimp only
                rw [List.length_drop]
                omega)
          refine ⟨s1, ((List.drop 0 (rest.take k)).take (clamp t.n k)) :: chunks, h1, h2,
            ?_, ?_⟩
          · rw [h3]
            simp only [List.map_cons, List.append_assoc, List.singleton_append]
          · rw [List.flatten_cons, h4, hpend]
            simp only [pending, List.drop_zero, Nat.zero_add, List.nil_append]
            rw [← List.append_assoc]
            have := take_take_drop (rest.take k) hc2
            rw [htk] at this
            rw [this, List.take_append_drop]
    · have hans : retrieve_answers t () s =
          (send_answers t (s.buffersize - s.bufferpos), ()) := by
        simp only [retrieve_answers, hpos, ↓reduceIte]
      rw [hans]
      dsimp only
      rw [retrieve_step_window _ s hpos]
      dsimp only
      have hlt : s.bufferpos < s.buffersize := Nat.lt_of_le_of_ne hle hpos
      by_cases hb : t.block = true
      · rw [retrieve_send_blocked _ _ (by simp [send_answers, hb]) (by simp [send_answers, hb])]
        dsimp only
        rw [if_pos hb] at hw
        exact ih s rest hst htr hh hle (by omega)
      · have hb0 : t.block = false := by simpa using hb
        have hc1 := clamp_pos t.n (s.buffersize - s.bufferpos)
        have hc2 := clamp_le t.n (by omega : 1 ≤ s.buffersize - s.bufferpos)
        rw [retrieve_send_some _ _ (clamp t.n (s.buffersize - s.bufferpos))
          (by simp [send_answers, hb0]) hc1]
        dsimp only
        rw [if_neg hb] at hw
        obtain ⟨s1, chunks, h1, h2, h3, h4⟩ :=
          ih { s with bufferpos := s.bufferpos + clamp t.n (s.buffersize - s.bufferpos),
                      events := s.events ++ [Event.data_send
                        ((s.buffer.drop s.bufferpos).take
                          (clamp t.n (s.buffersize - s.bufferpos)))] }
            rest hst htr hh (by dsimp only; omega) (by dsimp only; omega)
        refine ⟨s1, ((s.buffer.drop s.bufferpos).take (clamp t.n (s.buffersize - s.bufferpos)))
          :: chunks, h1, h2, ?_, ?_⟩
        · rw [h3]
          simp only [List.map_cons, List.append_assoc, List.singleton_append]
        · rw [List.flatten_cons, h4, ← List.append_assoc]
          congr 1
          simp only [pending]
          have := take_take_drop (s.buffer.drop s.bufferpos) hc2
          rw [List.drop_drop] at this
          have e1 : s.buffersize - (s.bufferpos + clamp t.n (s.buffersize - s.bufferpos)) =
              s.buffersize - s.bufferpos - clamp t.n (s.buffersize - s.bufferpos) := by omega
          rw [e1]
          exact this

/-! ### `store_transfer` -/

theorem store_write_some (e : XferEnv) (s : ftp_session_t) (j : Nat)
    (h1 : e.fwrite_rc = j) (hj : 1 ≤ j) :
    store_transfer_write e s =
      (0, { s with
            filepos := s.filepos + j
            bufferpos := s.bufferpos + j
            events := s.events ++ [Event.fs_write ((s.buffer.drop s.bufferpos).take j)] }) := by
  have h : ¬ ((j : Nat) : Int) < 0 := by omega
  have h2 : ¬ ((j : Nat) : Int) ≤ 0 := by omega
  simp only [store_transfer_write, ftp_session_write_file, h1, h, ↓reduceIte, h2,
    Int.toNat_ofNat]

theorem store_step_blocked (e : XferEnv) (s : ftp_session_t)
    (hpos : s.bufferpos = s.buffersize) (h1 : e.recv_rc = -1)
    (h2 : e.errno_wouldblock = true) : store_transfer e s = some (-1, s) := by
  simp [store_transfer, hpos, h1, h2]

theorem store_step_closed (e : XferEnv) (s : ftp_session_t)
    (hpos : s.bufferpos = s.buffersize) (h1 : e.recv_rc = 0) :
    store_transfer e s =
      some (-1, ftp_send_response
        (ftp_session_set_state (ftp_session_close_file s) .COMMAND_STATE) 226
        "OK\r\n".toList) := by
  simp [store_transfer, hpos, h1]

theorem store_step_recv (e : XferEnv) (s : ftp_session_t) (k : Nat)
    (hpos : s.bufferpos = s.buffersize) (h1 : e.recv_rc = (k : Int)) (hk : 1 ≤ k) :
    store_transfer e s =
      some (store_transfer_write e
        { s with buffer := e.recv_bytes, bufferpos := 0, buffersize := k }) := by
  have h : ¬ ((k : Nat) : Int) ≤ 0 := by omega
  simp only [store_transfer, hpos, ↓reduceIte, h1, h, Int.toNat_ofNat]

theorem store_step_window (e : XferEnv) (s : ftp_session_t)
    (hpos : s.bufferpos ≠ s.buffersize) :
    store_transfer e s = some (store_transfer_write e s) := by
  simp only [store_transfer, hpos, ↓reduceIte]

/-- `store_transfer`, called again and again, writes the window and all the
peer still sends to the file and ends with `226 OK`, provided the turns hold
enough calls that do not block. -/
theorem store_run_complete : ∀ (turns : List turn_t) (b : List Char) (s : ftp_session_t),
    s.state = .DATA_TRANSFER_STATE → s.transfer = some .store_transfer →
    s.bufferpos ≤ s.buffersize →
    (s.buffersize - s.bufferpos) + b.length + 1 ≤ unblocked turns →
    ∃ (s1 : ftp_session_t) (chunks : List (List Char)),
      transfer_run store_answers turns b s = some s1 ∧
      s1.state = .COMMAND_STATE ∧
      s1.events = s.events ++ chunks.map Event.fs_write ++
        [Event.cmd_send "226 OK\r\n".toList] ∧
      chunks.flatten = pending s ++ b := by
  intro turns
  induction turns with
  | nil =>
    intro b s _ _ _ hw
    simp only [unblocked, List.filter_nil, List.length_nil] at hw
    omega
  | cons t ts ih =>
    intro b s hst htr hle hw
    rw [unblocked_cons] at hw
    simp only [transfer_run, hst, ↓reduceIte, call_transfer, htr]
    by_cases hpos : s.bufferpos = s.buffersize
    · have hpend : pending s = [] := by
        simp only [pending, hpos, Nat.sub_self, List.take_zero]
      by_cases hb : t.block = true
      · have hans : store_answers t b s =
            ({ send_rc := 0, errno_wouldblock := true, recv_rc := -1, recv_bytes := [],
               fread_rc := 0, fwrite_rc := 0 }, b) := by
          simp only [store_answers, hpos, ↓reduceIte, hb]
        rw [hans]
        dsimp only
        rw [store_step_blocked _ s hpos rfl rfl]
        dsimp only
        rw [if_pos hb] at hw
        exact ih b s hst htr hle (by omega)
      · rw [if_neg hb] at hw
        have hb0 : t.block = false := by simpa using hb
        by_cases hbn : b = []
        · subst hbn
          have hans : store_answers t [] s =
              ({ send_rc := 0, errno_wouldblock := false, recv_rc := 0, recv_bytes := [],
                 fread_rc := 0, fwrite_rc := 0 }, []) := by
            simp only [store_answers, hpos, ↓reduceIte, hb0, Bool.false_eq_true]
          rw [hans]
          dsimp only
          rw [store_step_closed _ s hpos rfl]
          dsimp only
          have hdone : (ftp_send_response
              (ftp_session_set_state (ftp_session_close_file s) .COMMAND_STATE) 226
              "OK\r\n".toList).state = .COMMAND_STATE := set_state_state _ _
          rw [transfer_run_done _ _ _ hdone]
          refine ⟨_, [], rfl, hdone, ?_, ?_⟩
          · simp only [ftp_send_response, set_state_events, ftp_session_close_file,
              response_226, List.map_nil, List.append_nil]
          · simp [hpend]
        · have hbl : 1 ≤ b.length := by
            cases b with
            | nil => exact absurd rfl hbn
            | cons a as => simp
          obtain ⟨k, hk⟩ : ∃ k, k = clamp t.n (min XFER_BUFFERSIZE b.length) := ⟨_, rfl⟩
          have hk1 : 1 ≤ k := by
            rw [hk]
            exact clamp_pos _ _
          have hk2 : k ≤ b.length := by
            rw [hk]
            have := clamp_le t.n (by simp only [XFER_BUFFERSIZE]; omega :
              1 ≤ min XFER_BUFFERSIZE b.length)
            omega
          have hans : store_answers t b s =
              ({ send_rc := 0, errno_wouldblock := false, recv_rc := (k : Int),
                 recv_bytes := b.take k, fread_rc := 0, fwrite_rc := clamp t.m k },
               b.drop k) := by
            simp only [store_answers, hpos, ↓reduceIte, hb0, Bool.false_eq_true, hbn, hk]
          rw [hans]
          dsimp only
          rw [store_step_recv _ s k hpos rfl hk1]
          have hj1 := clamp_pos t.m k
          have hj2 := clamp_le t.m hk1
          rw [store_write_some _ _ (clamp t.m k) rfl hj1]
          dsimp only
          have htk : (b.take k).take k = b.take k := by
            rw [List.take_take, Nat.min_self]
          obtain ⟨s1, chunks, h1, h2, h3, h4⟩ :=
            ih (b.drop k)
              { s with buffer := b.take k, buffersize := k,
                       filepos := s.filepos + clamp t.m k,
                       bufferpos := 0 + clamp t.m k,
                       events := s.events ++ [Event.fs_write
                         ((List.drop 0 (b.take k)).take (clamp t.m k))] }
              hst htr (by dsimp only; omega) (by
                dsimp only
                rw [List.length_drop]
                omega)
          refine ⟨s1, ((List.drop 0 (b.take k)).take (clamp t.m k)) :: chunks, h1, h2,
            ?_, ?_⟩
          · rw [h3]
            simp only [List.map_cons, List.append_assoc, List.singleton_append]
          · rw [List.flatten_cons, h4, hpend]
            simp only [pending, List.drop_zero, Nat.zero_add, List.nil_append]
            rw [← List.append_assoc]
            have := take_take_drop (b.take k) hj2
            rw [htk] at this
            rw [this, List.take_append_drop]
    · have hlt : s.bufferpos < s.buffersize := Nat.lt_of_le_of_ne hle hpos
      have hans : store_answers t b s =
          ({ send_rc := 0, errno_wouldblock := false, recv_rc := 0, recv_bytes := [],
             fread_rc := 0, fwrite_rc := clamp t.m (s.buffersize - s.bufferpos) }, b) := by
        simp only [store_answers, hpos, ↓reduceIte]
      rw [hans]
      dsimp only
      rw [store_step_window _ s hpos]
      have hj1 := clamp_pos t.m (s.buffersize - s.bufferpos)
      have hj2 := clamp_le t.m (by omega : 1 ≤ s.buffersize - s.bufferpos)
      rw [store_write_some _ _ (clamp t.m (s.buffersize - s.bufferpos)) rfl hj1]
      dsimp only
      obtain ⟨s1, chunks, h1, h2, h3, h4⟩ :=
        ih b
          { s with filepos := s.filepos + clamp t.m (s.buffersize - s.bufferpos),
                   bufferpos := s.bufferpos + clamp t.m (s.buffersize - s.bufferpos),
                   events := s.events ++ [Event.fs_write
                     ((s.buffer.drop s.bufferpos).take
                       (clamp t.m (s.buffersize - s.bufferpos)))] }
          hst htr (by dsimp only; omega) (by
            dsimp only
            split_ifs at hw <;> omega)
      refine ⟨s1, ((s.buffer.drop s.bufferpos).take (clamp t.m (s.buffersize - s.bufferpos)))
        :: chunks, h1, h2, ?_, ?_⟩
      · rw [h3]
        simp only [List.map_cons, List.append_assoc, List.singleton_append]
      · rw [List.flatten_cons, h4, ← List.append_assoc]
        congr 1
        simp only [pending]
        have := take_take_drop (s.buffer.drop s.bufferpos) hj2
        rw [List.drop_drop] at this
        have e1 : s.buffersize - (s.bufferpos + clamp t.m (s.buffersize - s.bufferpos)) =
            s.buffersize - s.bufferpos - clamp t.m (s.buffersize - s.bufferpos) := by omega
        rw [e1]
        exact this

/-! ## Claims about the transfers -/

/-- C16: let a session be armed for `list_transfer` with a directory whose
entries other than `.` and `..` all `lstat` successfully.  For every sequence
of turns, in each of which `send` either would block or takes some part of the
bytes offered, that holds enough turns without blocking, `list_transfer` called
turn after turn comes to its end: the bytes it has sent are the listing lines
of the entries other than `.` and `..`, in `readdir` order, each line complete
and once, and the last thing it does is to reply `226 OK`. -/
theorem C16_list_transfer_complete (turns : List turn_t) (s : ftp_session_t)
    (entries : List dirent) (ha : armed .list_transfer s) (hh : s.handle = .dir entries)
    (hl : ∀ d ∈ listed entries, d.lstat_rc = 0)
    (hw : entries.length + ((listed entries).map list_line).flatten.length + 1
      ≤ unblocked turns) :
    ∃ (s1 : ftp_session_t) (chunks : List (List Char)),
      transfer_run list_answers turns () s = some s1 ∧
      s1.state = .COMMAND_STATE ∧
      s1.events = s.events ++ chunks.map Event.data_send ++
        [Event.cmd_send "226 OK\r\n".toList] ∧
      chunks.flatten = ((listed entries).map list_line).flatten ∧
      ((listed entries).map list_line).length = (listed entries).length := by
  obtain ⟨hst, htr, hpos⟩ := ha
  obtain ⟨s1, chunks, h1, h2, h3, h4⟩ :=
    list_run_complete turns s entries hst htr hh (le_of_eq hpos) hl (by omega)
  refine ⟨s1, chunks, h1, h2, h3, ?_, List.length_map _ _⟩
  rw [h4]
  simp only [pending, hpos, Nat.sub_self, List.take_zero, List.nil_append]

theorem list_session_armed :
    armed .list_transfer list_session ∧
    list_session.handle =
      .dir [⟨['.'], 0, .directory, 0⟩, ⟨['.', '.'], 0, .directory, 0⟩, entry_f] := by
  refine ⟨⟨?_, ?_, ?_⟩, ?_⟩ <;> decide

set_option maxRecDepth 10000 in
theorem list_session_work :
    (∀ d ∈ listed [⟨['.'], 0, .directory, 0⟩, ⟨['.', '.'], 0, .directory, 0⟩, entry_f],
      d.lstat_rc = 0) ∧
    [(⟨['.'], 0, .directory, 0⟩ : dirent), ⟨['.', '.'], 0, .directory, 0⟩, entry_f].length
      + ((listed [⟨['.'], 0, .directory, 0⟩, ⟨['.', '.'], 0, .directory, 0⟩, entry_f]).map
          list_line).flatten.length + 1 ≤ unblocked (sample_turns 41 10 0) := by
  constructor <;> decide

/-- C16 at a session armed by `PORT` and `LIST` in a directory with the
entries `.`, `..` and `f`, `send` blocking once and then taking up to 10 bytes
at a time. -/
theorem C16_list_transfer_complete_witness :
    ∃ (s1 : ftp_session_t) (chunks : List (List Char)),
      transfer_run list_answers (sample_turns 41 10 0) () list_session = some s1 ∧
      s1.state = .COMMAND_STATE ∧
      s1.events = list_session.events ++ chunks.map Event.data_send ++
        [Event.cmd_send "226 OK\r\n".toList] ∧
      chunks.flatten =
        ((listed [⟨['.'], 0, .directory, 0⟩, ⟨['.', '.'], 0, .directory, 0⟩, entry_f]).map
          list_line).flatten ∧
      ((listed [⟨['.'], 0, .directory, 0⟩, ⟨['.', '.'], 0, .directory, 0⟩, entry_f]).map
          list_line).length =
        (listed [⟨['.'], 0, .directory, 0⟩, ⟨['.', '.'], 0, .directory, 0⟩, entry_f]).length :=
  C16_list_transfer_complete (sample_turns 41 10 0) list_session _ list_session_armed.1
    list_session_armed.2 list_session_work.1 list_session_work.2

/-- C12: let a session be armed for `store_transfer` and let `b` be the bytes
the peer sends before it closes the data connection; let another session be
armed for `retrieve_transfer`.  For every sequence of turns, in each of which
`recv` or `send` either would block or handles some part of the bytes, and
`fwrite` and `fread` handle some part of theirs, that holds enough turns
without blocking: `store_transfer` called turn after turn comes to its end
with exactly the bytes `b` written to the file, in order, followed by the
reply `226 OK`; and `retrieve_transfer`, called turn after turn on the file
that holds what was written, comes to its end with exactly the bytes `b` sent
on the data socket, in order, followed by the reply `226 OK`. -/
theorem C12_store_then_retrieve (b : List Char) (t1 t2 : List turn_t)
    (s r : ftp_session_t) (hs : armed .store_transfer s) (hr : armed .retrieve_transfer r)
    (h1 : b.length + 1 ≤ unblocked t1) (h2 : b.length + 1 ≤ unblocked t2) :
    ∃ (s1 : ftp_session_t) (written : List (List Char)),
      transfer_run store_answers t1 b s = some s1 ∧
      s1.state = .COMMAND_STATE ∧
      s1.events = s.events ++ written.map Event.fs_write ++
        [Event.cmd_send "226 OK\r\n".toList] ∧
      written.flatten = b ∧
      (r.handle = .file_rb written.flatten →
        ∃ (r1 : ftp_session_t) (sent : List (List Char)),
          transfer_run retrieve_answers t2 () r = some r1 ∧
          r1.state = .COMMAND_STATE ∧
          r1.events = r.events ++ sent.map Event.data_send ++
            [Event.cmd_send "226 OK\r\n".toList] ∧
          sent.flatten = b) := by
  obtain ⟨hst, htr, hpos⟩ := hs
  obtain ⟨hst2, htr2, hpos2⟩ := hr
  obtain ⟨s1, written, e1, e2, e3, e4⟩ :=
    store_run_complete t1 b s hst htr (le_of_eq hpos) (by omega)
  have hw : written.flatten = b := by
    rw [e4]
    simp only [pending, hpos, Nat.sub_self, List.take_zero, List.nil_append]
  refine ⟨s1, written, e1, e2, e3, hw, ?_⟩
  intro hfile
  rw [hw] at hfile
  obtain ⟨r1, sent, f1, f2, f3, f4⟩ :=
    retrieve_run_complete t2 r b hst2 htr2 hfile (le_of_eq hpos2) (by omega)
  refine ⟨r1, sent, f1, f2, f3, ?_⟩
  rw [f4]
  simp only [pending, hpos2, Nat.sub_self, List.take_zero, List.nil_append]

theorem transfer_sessions_armed :
    armed .store_transfer store_session ∧ armed .retrieve_transfer retrieve_session ∧
      retrieve_session.handle = .file_rb ['a', 'b', 'c'] := by
  refine ⟨⟨?_, ?_, ?_⟩, ⟨?_, ?_, ?_⟩, ?_⟩ <;> decide

/-- C12 at the bytes `abc`, with sessions armed by `PORT` and `STOR f` and by
`PORT` and `RETR f`: the socket blocks once, then `recv` delivers up to 2
bytes, `fwrite` writes 1 byte, `fread` reads up to 2 bytes and `send` takes 1
byte at a time. -/
theorem C12_store_then_retrieve_witness :
    ∃ (s1 : ftp_session_t) (written : List (List Char)),
      transfer_run store_answers (sample_turns 4 2 1) ['a', 'b', 'c'] store_session = some s1 ∧
      s1.state = .COMMAND_STATE ∧
      s1.events = store_session.events ++ written.map Event.fs_write ++
        [Event.cmd_send "226 OK\r\n".toList] ∧
      written.flatten = ['a', 'b', 'c'] ∧
      (retrieve_session.handle = .file_rb written.flatten →
        ∃ (r1 : ftp_session_t) (sent : List (List Char)),
          transfer_run retrieve_answers (sample_turns 4 1 2) () retrieve_session = some r1 ∧
          r1.state = .COMMAND_STATE ∧
          r1.events = retrieve_session.events ++ sent.map Event.data_send ++
            [Event.cmd_send "226 OK\r\n".toList] ∧
          sent.flatten = ['a', 'b', 'c']) :=
  C12_store_then_retrieve ['a', 'b', 'c'] (sample_turns 4 2 1) (sample_turns 4 1 2)
    store_session retrieve_session transfer_sessions_armed.1 transfer_sessions_armed.2.1
    (by decide) (by decide)

/-! ## When `validate_path` returns -/

/-- When does `validate_path` return: with fuel for one turn of the loop it
returns exactly when the first `/..` of the argument, if there is one, is
followed by the end of the string or by `/`. -/
theorem validate_path_returns_iff (fuel : Nat) (args : List Char) :
    (validate_path (fuel + 1) args).isSome = true ↔
      ∀ q c rest, strstr args ['/', '.', '.'] = some q → q.drop 3 = c :: rest → c = '/' := by
  cases hs : strstr args ['/', '.', '.'] with
  | none =>
    simp only [validate_path, validate_path_scan, hs, reduceCtorEq, false_implies, implies_true,
      iff_true]
    split_ifs <;> rfl
  | some q =>
    cases hd : q.drop 3 with
    | nil =>
      simp only [validate_path, validate_path_scan, hs, hd, Option.isSome_some, true_iff]
      intro q1 c rest h1 h2
      rw [← Option.some.inj h1, hd] at h2
      simp at h2
    | cons c rest =>
      by_cases hc : c = '/'
      · subst hc
        simp only [validate_path, validate_path_scan, hs, hd, ↓reduceIte, Option.isSome_some,
          true_iff]
        intro q1 c rest1 h1 h2
        rw [← Option.some.inj h1, hd] at h2
        exact (List.cons.inj h2).1.symm
      · have hn := validate_path_scan_self_none (strstr_isPrefixOf hs) hd hc fuel
        simp only [validate_path, validate_path_scan, hs, hd, hc, ↓reduceIte, hn,
          Option.isSome_none, Bool.false_eq_true, false_iff]
        intro h
        exact hc (h q c rest rfl hd)

/-! ## Claim about the termination of `validate_path` -/

/-- C24 (defect in the code): `validate_path` does not terminate on the
arguments `/..a` and `a/...`: `strstr` finds the `/..`, the character behind it
is neither the end of the string nor `/`, and the loop searches again from the
same place.  No fuel makes `validate_path`, `build_path` or the handler `CWD`
return on them, whatever the session and the filesystem. -/
theorem C24_validate_path_does_not_terminate (fuel : Nat) (env : Env) (s : ftp_session_t) :
    validate_path fuel "/..a".toList = none ∧ validate_path fuel "a/...".toList = none ∧
      build_path fuel s "/..a".toList = none ∧ build_path fuel s "a/...".toList = none ∧
      CWD fuel env s "/..a".toList = none ∧ CWD fuel env s "a/...".toList = none := by
  have h1 : validate_path_scan fuel "/..a".toList = none :=
    @validate_path_scan_none_of_match "/..a".toList "/..a".toList [] 'a' (by decide)
      (by decide) (by decide) fuel
  have h2 : validate_path_scan fuel "a/...".toList = none :=
    @validate_path_scan_none_of_match "a/...".toList "/...".toList [] '.' (by decide)
      (by decide) (by decide) fuel
  have n1 : ¬ "/..a".toList = ['.', '.'] := by decide
  have n2 : ¬ "a/...".toList = ['.', '.'] := by decide
  refine ⟨?_, ?_, ?_, ?_, ?_, ?_⟩
  · simp only [validate_path, h1]
  · simp only [validate_path, h2]
  · simp only [build_path, validate_path, h1]
  · simp only [build_path, validate_path, h2]
  · simp only [CWD, n1, ↓reduceIte, build_path, validate_path, h1]
  · simp only [CWD, n2, ↓reduceIte, build_path, validate_path, h2]

/-! ## `STOR` without a data connection set up -/

/-- `STOR` in a session with neither `SESSION_PORT` nor `SESSION_PASV` set,
for an argument `build_path` accepts and a file `fopen` can open: the file is
created or truncated before the flags are looked at, the reply is 503, and the
session keeps the open file. -/
theorem STOR_rejected_opens_file {fuel : Nat} {env : Env} {s s1 : ftp_session_t}
    {args : List Char} (hb : build_path fuel s args = some (.ok (), s1))
    (hopen : env.fopen_ok = true) (hport : s.flags.SESSION_PORT = false)
    (hpasv : s.flags.SESSION_PASV = false) :
    ∃ s2, STOR fuel env s args = some s2 ∧ s2.state = .COMMAND_STATE ∧
      s2.handle = .file_wb s1.buffer ∧
      s2.events = s.events ++ [Event.fs_create s1.buffer,
        Event.cmd_send "503 Bad sequence of commands\r\n".toList] := by
  have hfr := build_path_frame hb
  have hfl : s1.flags = s.flags := by rw [hfr]
  have hev : s1.events = s.events := by rw [hfr]
  have hp1 : s1.flags.SESSION_PORT = false := by rw [hfl]; exact hport
  have hp2 : s1.flags.SESSION_PASV = false := by rw [hfl]; exact hpasv
  have hr : response_bytes 503 "Bad sequence of commands\r\n".toList =
      "503 Bad sequence of commands\r\n".toList := by decide
  have hC : STOR fuel env s args = some (ftp_send_response
      (ftp_session_set_state
        { s1 with
          handle := .file_wb s1.buffer
          events := s1.events ++ [Event.fs_create s1.buffer]
          filepos := 0 } .COMMAND_STATE) 503 "Bad sequence of commands\r\n".toList) := by
    simp only [STOR, hb, ftp_session_open_file_write, hopen, Bool.not_true, Bool.false_eq_true,
      ↓reduceIte, ne_eq, not_true_eq_false, hp1, hp2]
  refine ⟨_, hC, ?_, ?_, ?_⟩
  · exact set_state_state _ _
  · simp only [ftp_send_response, set_state_handle]
  · simp only [ftp_send_response, set_state_events, hev, hr, List.append_assoc,
      List.singleton_append]

/-! ## Claim about the read error in `retrieve_transfer` -/

/-- No call of `retrieve_transfer` sends the reply 451: the events it adds are
a `226` reply, a `426` reply or data. -/
theorem retrieve_transfer_never_451 {e : XferEnv} {s s1 : ftp_session_t} {rc : Int}
    (h : retrieve_transfer e s = some (rc, s1)) :
    Event.cmd_send (response_bytes 451 "Failed to read file\r\n".toList) ∈ s1.events →
      Event.cmd_send (response_bytes 451 "Failed to read file\r\n".toList) ∈ s.events := by
  have hneg : ∀ n : Nat, ¬ ((n : Int) < 0) := fun n => by omega
  simp only [retrieve_transfer, ftp_session_read_file, retrieve_transfer_send,
    ftp_session_close_file, ftp_send_response] at h
  by_cases hp : s.bufferpos = s.buffersize
  · simp only [hp, ↓reduceIte] at h
    cases hh : s.handle with
    | file_rb rest =>
      simp only [hh, hneg, ↓reduceIte] at h
      split_ifs at h <;> simp only [Option.some.injEq, Prod.mk.injEq] at h <;>
        obtain ⟨-, rfl⟩ := h <;>
        simp [set_state_events] <;>
        (rintro (hm | hm)
         · exact hm
         · exact absurd hm (by decide))
    | null => simp [hh] at h
    | dir r => simp [hh] at h
    | file_wb p => simp [hh] at h
  · simp only [hp, ↓reduceIte] at h
    split_ifs at h <;> simp only [Option.some.injEq, Prod.mk.injEq] at h <;>
      obtain ⟨-, rfl⟩ := h <;>
      simp [set_state_events] <;>
      (rintro (hm | hm)
       · exact hm
       · exact absurd hm (by decide))

/-- C23 (defect in the code): a call of `retrieve_transfer` with an empty
window in which `fread` delivers nothing although the file still holds the
unread bytes `c :: rest` (a failed read) closes the file, returns to Command
state and replies `226 OK`, not 451: the result of `fread` is an unsigned count,
so the test `rc < 0` never holds. -/
theorem C23_read_error_replies_226 (e : XferEnv) (s : ftp_session_t) (c : Char)
    (rest : List Char) :
    retrieve_transfer { e with fread_rc := 0 }
        { s with bufferpos := s.buffersize, handle := .file_rb (c :: rest) } =
      some (-1, ftp_send_response
        (ftp_session_set_state
          { s with bufferpos := s.buffersize, buffer := [], handle := .null }
          .COMMAND_STATE) 226 "OK\r\n".toList) := by
  simp [retrieve_transfer, ftp_session_read_file, ftp_session_close_file]

/-! ## Claim about a rejected `STOR` -/

set_option maxRecDepth 100000 in
theorem stor_without_connection :
    run 32 1 [poll_line env_ok "STOR f\r\n"] session0 =
      some { session0 with
        buffer := "/f".toList
        handle := .file_wb "/f".toList
        filepos := 0
        events := session0.events ++ [Event.fs_create "/f".toList,
          Event.cmd_send "503 Bad sequence of commands\r\n".toList] } := by
  decide

/-- C25 (defect in the code): a new session, in which neither `SESSION_PORT`
nor `SESSION_PASV` is set, receives `STOR f`.  The reply is
`503 Bad sequence of commands`, but before that `fopen(.., "wb")` has created or
truncated `/f`, and the session stays in Command state with the file open:
`STOR` opens the file before it looks at the flags and its 503 branch does not
close it. -/
theorem C25_rejected_stor_creates_file :
    ftp_session_new env_new zero_session = some session0 ∧
      session0.flags.SESSION_PORT = false ∧ session0.flags.SESSION_PASV = false ∧
      ∃ s, run 32 1 [poll_line env_ok "STOR f\r\n"] session0 = some s ∧
        s.state = .COMMAND_STATE ∧
        s.events = session0.events ++ [Event.fs_create "/f".toList,
          Event.cmd_send "503 Bad sequence of commands\r\n".toList] ∧
        s.handle = .file_wb "/f".toList :=
  ⟨by decide, rfl, rfl, _, stor_without_connection, rfl, rfl, rfl⟩

/-! ## `CWD` and the size of the `cwd` field -/

/-- `CWD` with a plain argument, when the filesystem says the joined path is a
directory: the work buffer holds the joined path and `cwd` its first 4096
characters. -/
theorem CWD_plain_buffer (fuel : Nat) (s : ftp_session_t) {args : List Char} (hp : plain args)
    (hlen : (s.cwd ++ '/' :: args).length ≤ 32767) :
    ∃ s1, CWD (fuel + 1) env_ok s args = some s1 ∧ s1.cmd_fd = s.cmd_fd ∧
      s1.buffer = (if s.cwd = ['/'] then '/' :: args else s.cwd ++ '/' :: args) ∧
      s1.cwd = s1.buffer.take CWD_SIZE ∧
      s1.events = s.events ++ [Event.cmd_send "200 OK\r\n".toList] := by
  have hdd : args ≠ ['.', '.'] := by
    intro h
    have := hp.2 '.' (by simp [h])
    simp at this
  have hsp := @spec_path_plain s.cwd args hp
  have hl2 : ¬ (spec_unstripped s.cwd args).length > 32767 := by
    rw [hsp.2]
    split_ifs with hc
    · rw [hc] at hlen
      simp only [List.length_cons, List.length_append, List.length_nil] at hlen ⊢
      omega
    · omega
  have hb : response_bytes 200 "OK\r\n".toList = "200 OK\r\n".toList := by decide
  have hC : CWD (fuel + 1) env_ok s args =
      some (ftp_send_response
        { ftp_session_set_state s .COMMAND_STATE with
          buffer := spec_path s.cwd args
          cwd := (spec_path s.cwd args).take CWD_SIZE }
        200 "OK\r\n".toList) := by
    simp only [CWD, hdd, ↓reduceIte, build_path_of_valid _ (validate_path_plain fuel hp),
      set_state_cwd, hl2]
    simp only [env_ok, ne_eq, not_true_eq_false, ↓reduceIte]
  refine ⟨_, hC, ?_, ?_, ?_, ?_⟩
  · simp only [ftp_send_response, set_state_cmd_fd]
  · simp only [ftp_send_response, hsp.1, hsp.2]
  · simp only [ftp_send_response]
  · simp only [ftp_send_response, set_state_events, hb]

/-- The last poll of a run: a session in Command state receives a `CWD` line
with a plain argument. -/
theorem poll_cwd_plain_last (w fuel : Nat) (s : ftp_session_t) {args : List Char}
    (hst : s.state = .COMMAND_STATE) (hfd : 0 ≤ s.cmd_fd) (hp : plain args)
    (hl : args.length ≤ 1019) (hlen : (s.cwd ++ '/' :: args).length ≤ 32767) :
    ∃ s1, run w (fuel + 1) [cwd_line args] s = some s1 ∧
      s1.buffer = (if s.cwd = ['/'] then '/' :: args else s.cwd ++ '/' :: args) ∧
      s1.cwd = s1.buffer.take CWD_SIZE ∧
      s1.events = s.events ++ [Event.cmd_send "200 OK\r\n".toList] := by
  obtain ⟨s1, h1, h2, h3, h4, h5⟩ :=
    CWD_plain_buffer fuel { s with flags := { s.flags with SESSION_RENAME := false } } hp hlen
  refine ⟨s1, ?_, h3, h4, h5⟩
  have hpoll : ftp_session_poll w (fuel + 1) (cwd_line args) s = some s1 := by
    simp only [ftp_session_poll, cwd_line, poll_bytes]
    rw [hst]
    simp [read_command_cwd_plain w (fuel + 1) env_ok s hp hl, h1]
  simp only [run, not_lt.mpr hfd, ↓reduceIte, hpoll]

/-- Six `CWD` commands with plain relative arguments of 1000, 1000, 1000,
1000, 90 and 1 characters, each answered by a filesystem that finds a
directory, starting in `/`: the sixth resolved path has 4097 characters, the
reply is `200 OK` and `cwd` holds the first 4096 characters of the path. -/
theorem long_cwd_overflow (w : Nat) (s0 : ftp_session_t) (a1 a2 a3 a4 a5 a6 : List Char)
    (hst : s0.state = .COMMAND_STATE) (hfd : 0 ≤ s0.cmd_fd) (hcwd : s0.cwd = ['/'])
    (p1 : plain a1) (p2 : plain a2) (p3 : plain a3) (p4 : plain a4) (p5 : plain a5)
    (p6 : plain a6) (l1 : a1.length = 1000) (l2 : a2.length = 1000) (l3 : a3.length = 1000)
    (l4 : a4.length = 1000) (l5 : a5.length = 90) (l6 : a6.length = 1) :
    ∃ s, run w 1 [cwd_line a1, cwd_line a2, cwd_line a3, cwd_line a4, cwd_line a5,
        cwd_line a6] s0 = some s ∧
      s.buffer = '/' :: a1 ++ '/' :: a2 ++ '/' :: a3 ++ '/' :: a4 ++ '/' :: a5 ++ '/' :: a6 ∧
      s.cwd = s.buffer.take CWD_SIZE ∧
      s.events.getLast? = some (Event.cmd_send "200 OK\r\n".toList) := by
  obtain ⟨s1, r1, st1, fd1, c1⟩ := poll_cwd_plain w 0 s0 hst hfd p1 (by omega)
    (by simp only [hcwd, List.length_append, List.length_cons, List.length_nil]; omega)
    [cwd_line a2, cwd_line a3, cwd_line a4, cwd_line a5, cwd_line a6]
  have e1 : s1.cwd = '/' :: a1 := by
    rw [c1, hcwd, if_pos rfl]
    exact List.take_of_length_le (by simp only [List.length_cons, CWD_SIZE]; omega)
  obtain ⟨s2, r2, st2, fd2, c2⟩ := poll_cwd_plain w 0 s1 st1 fd1 p2 (by omega)
    (by simp only [e1, List.length_append, List.length_cons]; omega)
    [cwd_line a3, cwd_line a4, cwd_line a5, cwd_line a6]
  have e2 : s2.cwd = '/' :: a1 ++ '/' :: a2 := by
    rw [c2, e1]
    exact take_join _ _ (by simp only [List.length_cons]; omega)
      (by simp only [List.length_append, List.length_cons]; omega)
  obtain ⟨s3, r3, st3, fd3, c3⟩ := poll_cwd_plain w 0 s2 st2 fd2 p3 (by omega)
    (by simp only [e2, List.length_append, List.length_cons]; omega)
    [cwd_line a4, cwd_line a5, cwd_line a6]
  have e3 : s3.cwd = '/' :: a1 ++ '/' :: a2 ++ '/' :: a3 := by
    rw [c3, e2]
    exact take_join _ _ (by simp only [List.length_append, List.length_cons]; omega)
      (by simp only [List.length_append, List.length_cons]; omega)
  obtain ⟨s4, r4, st4, fd4, c4⟩ := poll_cwd_plain w 0 s3 st3 fd3 p4 (by omega)
    (by simp only [e3, List.length_append, List.length_cons]; omega)
    [cwd_line a5, cwd_line a6]
  have e4 : s4.cwd = '/' :: a1 ++ '/' :: a2 ++ '/' :: a3 ++ '/' :: a4 := by
    rw [c4, e3]
    exact take_join _ _ (by simp only [List.length_append, List.length_cons]; omega)
      (by simp only [List.length_append, List.length_cons]; omega)
  obtain ⟨s5, r5, st5, fd5, c5⟩ := poll_cwd_plain w 0 s4 st4 fd4 p5 (by omega)
    (by simp only [e4, List.length_append, List.length_cons]; omega)
    [cwd_line a6]
  have e5 : s5.cwd = '/' :: a1 ++ '/' :: a2 ++ '/' :: a3 ++ '/' :: a4 ++ '/' :: a5 := by
    rw [c5, e4]
    exact take_join _ _ (by simp only [List.length_append, List.length_cons]; omega)
      (by simp only [List.length_append, List.length_cons]; omega)
  obtain ⟨s6, r6, b6, c6, v6⟩ := poll_cwd_plain_last w 0 s5 st5 fd5 p6 (by omega)
    (by simp only [e5, List.length_append, List.length_cons]; omega)
  have hlen : ('/' :: a1 ++ '/' :: a2 ++ '/' :: a3 ++ '/' :: a4 ++ '/' :: a5).length = 4095 := by
    simp only [List.length_append, List.length_cons]
    omega
  have hne : ¬ ('/' :: a1 ++ '/' :: a2 ++ '/' :: a3 ++ '/' :: a4 ++ '/' :: a5) = ['/'] := by
    intro h
    rw [h] at hlen
    simp at hlen
  refine ⟨s6, ?_, ?_, c6, ?_⟩
  · rw [r1, r2, r3, r4, r5, r6]
  · rw [b6, e5, if_neg hne]
  · rw [v6, List.getLast?_concat]

/-! ## Claim about the size of the `cwd` field -/

/-- C26 (defect in the code): a new session that handles the six `CWD`
commands of `long_cwd_inputs`, every path being reported as a directory, gets
`200 OK` for the last of them, for which `build_path` resolved a path of 4097
characters; `cwd` then holds the first 4096 characters of that path, not the
path, and fills its 4096-byte field without room for a terminator: `CWD` copies
with `strncpy(cwd, buffer, sizeof(cwd))` and does not check the length. -/
theorem C26_cwd_fills_field :
    ftp_session_new env_new zero_session = some session0 ∧
      ∃ s, run 32 1 long_cwd_inputs session0 = some s ∧ Reachable 32 s ∧
        s.events.getLast? = some (Event.cmd_send "200 OK\r\n".toList) ∧
        s.buffer.length = 4097 ∧ s.cwd = s.buffer.take CWD_SIZE ∧ s.cwd ≠ s.buffer ∧
        s.cwd.length = 4096 ∧ ¬ s.cwd.length ≤ 4095 := by
  have hnew : ftp_session_new env_new zero_session = some session0 := by decide
  refine ⟨hnew, ?_⟩
  obtain ⟨s, hr, hb, hc, hv⟩ := long_cwd_overflow 32 session0 (List.replicate 1000 'a')
    (List.replicate 1000 'a') (List.replicate 1000 'a') (List.replicate 1000 'a')
    (List.replicate 90 'a') ['b'] rfl (by decide) rfl
    (plain_replicate _ (by omega)) (plain_replicate _ (by omega))
    (plain_replicate _ (by omega)) (plain_replicate _ (by omega))
    (plain_replicate _ (by omega)) ⟨by simp, by simp⟩
    (List.length_replicate _ _) (List.length_replicate _ _) (List.length_replicate _ _)
    (List.length_replicate _ _) (List.length_replicate _ _) rfl
  have hbl : s.buffer.length = 4097 := by
    rw [hb]
    simp only [List.length_append, List.length_cons, List.length_replicate, List.length_nil]
  have hcl : s.cwd.length = 4096 := by
    rw [hc, List.length_take, hbl, CWD_SIZE]
    rfl
  refine ⟨s, hr, ⟨1, env_new, zero_session, session0, long_cwd_inputs, hnew, hr⟩, hv, hbl, hc,
    ?_, hcl, by omega⟩
  intro h
  rw [h, hbl] at hcl
  omega

/-! ## The window of the work buffer during a transfer -/

theorem toDigitsCore_length (fuel : Nat) :
    ∀ (n k : Nat) (acc : List Char), n < 10 ^ (k + 1) →
      (Nat.toDigitsCore 10 fuel n acc).length ≤ acc.length + (k + 1) := by
  induction fuel with
  | zero =>
    intro n k acc _
    simp only [Nat.toDigitsCore]
    omega
  | succ f ih =>
    intro n k acc h
    simp only [Nat.toDigitsCore]
    split_ifs with h0
    · simp only [List.length_cons]
      omega
    · cases k with
      | zero =>
        exfalso
        apply h0
        simp only [zero_add, pow_one] at h
        omega
      | succ k =>
        have hlt : n / 10 < 10 ^ (k + 1) := by
          rw [Nat.div_lt_iff_lt_mul (by omega)]
          rw [pow_succ] at h
          exact h
        have := ih (n / 10) k ((n % 10).digitChar :: acc) hlt
        simp only [List.length_cons] at this
        omega

/-- The text `%llu` prints for a 64-bit value has at most 20 digits. -/
theorem utoa_length_bound {n : Nat} (h : n < 2 ^ 64) : (utoa n).length ≤ 20 := by
  have := toDigitsCore_length (n + 1) n 19 [] (by omega)
  simpa [utoa, Nat.toDigits] using this

/-- A listing line fits the work buffer. -/
theorem list_line_length_le {d : dirent} (h : dirent_fits d) :
    (list_line d).length ≤ XFER_BUFFERSIZE := by
  have h1 := utoa_length_bound h.2
  have h2 := h.1
  simp only [NAME_MAX] at h2
  have e1 : "rwxrwxrwx 1 3DS 3DS ".toList.length = 20 := by decide
  have e2 : " Jan 1 1970 ".toList.length = 12 := by decide
  have e3 : "\r\n".toList.length = 2 := by decide
  simp only [list_line, List.length_cons, List.length_append, XFER_BUFFERSIZE, e1, e2, e3]
  omega

/-- The window the transfer routine hands to `send` or `fwrite` is non-empty
and lies in the work buffer. -/
theorem io_state_window {e : XferEnv} {s s1 : ftp_session_t} (hinv : window_inv s)
    (hfit : handle_fits s) (hrecv : e.recv_rc ≤ (XFER_BUFFERSIZE : Int))
    (hread : e.fread_rc ≤ XFER_BUFFERSIZE) (h : transfer_io_state e s = some s1) :
    s1.bufferpos < s1.buffersize ∧ s1.buffersize ≤ XFER_BUFFERSIZE ∧ handle_fits s1 ∧
      s1.transfer = s.transfer := by
  obtain ⟨hi1, hi2⟩ := hinv
  simp only [transfer_io_state] at h
  cases ht : s.transfer with
  | none => simp [ht] at h
  | some tr =>
    by_cases hp : s.bufferpos = s.buffersize
    · cases tr with
      | list_transfer =>
        simp only [ht, hp, ↓reduceIte] at h
        cases hh : s.handle with
        | dir l =>
          cases l with
          | nil => simp [hh] at h
          | cons dent rest =>
            simp only [hh] at h
            split_ifs at h
            simp only [Option.some.injEq] at h
            subst h
            have hf : ∀ d ∈ dent :: rest, dirent_fits d := by
              simpa only [handle_fits, hh] using hfit
            refine ⟨?_, list_line_length_le (hf dent (List.mem_cons_self _ _)), ?_, rfl⟩
            · simp [list_line]
            · simp only [handle_fits]
              exact fun d hd => hf d (List.mem_cons_of_mem _ hd)
        | null => simp [hh] at h
        | file_rb r => simp [hh] at h
        | file_wb r => simp [hh] at h
      | retrieve_transfer =>
        simp only [ht, hp, ↓reduceIte, ftp_session_read_file] at h
        cases hh : s.handle with
        | file_rb r =>
          have hneg : ¬ ((e.fread_rc : Int) < 0) := by omega
          simp only [hh, hneg, ↓reduceIte] at h
          split_ifs at h with h0
          simp only [Option.some.injEq] at h
          subst h
          refine ⟨?_, ?_, ?_, rfl⟩
          · dsimp only
            omega
          · dsimp only
            omega
          · simp only [handle_fits]
        | null => simp [hh] at h
        | dir r => simp [hh] at h
        | file_wb r => simp [hh] at h
      | store_transfer =>
        simp only [ht, hp, ↓reduceIte] at h
        split_ifs at h with h0
        simp only [Option.some.injEq] at h
        subst h
        refine ⟨?_, ?_, ?_, rfl⟩
        · dsimp only
          omega
        · dsimp only
          omega
        · simpa only [handle_fits] using hfit
    · have hs : s1 = s := by
        cases tr <;> simp only [ht, hp, ↓reduceIte, Option.some.injEq] at h <;> exact h.symm
      subst hs
      exact ⟨by omega, hi2, hfit, ht.symm ▸ rfl⟩

theorem set_state_bufferpos (s : ftp_session_t) (st : session_state_t) :
    (ftp_session_set_state s st).bufferpos = s.bufferpos := by
  cases st <;> simp only [ftp_session_set_state, ftp_session_close_pasv, ftp_session_close_data] <;>
    split_ifs <;> rfl

theorem set_state_buffersize (s : ftp_session_t) (st : session_state_t) :
    (ftp_session_set_state s st).buffersize = s.buffersize := by
  cases st <;> simp only [ftp_session_set_state, ftp_session_close_pasv, ftp_session_close_data] <;>
    split_ifs <;> rfl

/-- A session that ends a transfer: the handle is closed, the state set to
Command and a reply sent; the window is as it was. -/
theorem window_inv_ended {s : ftp_session_t} (h1 : s.bufferpos ≤ s.buffersize)
    (h2 : s.buffersize ≤ XFER_BUFFERSIZE) (hh : s.handle = .null) (code : Nat)
    (text : List Char) :
    window_inv (ftp_send_response (ftp_session_set_state s .COMMAND_STATE) code text) ∧
      handle_fits (ftp_send_response (ftp_session_set_state s .COMMAND_STATE) code text) := by
  constructor
  · simp only [window_inv, ftp_send_response, set_state_bufferpos, set_state_buffersize]
    exact ⟨h1, h2⟩
  · simp only [handle_fits, ftp_send_response, set_state_handle, hh]

/-- The call of `send` or `fwrite` with a non-empty window in the buffer and
an answer that is at most the count asked for leaves the window in the
buffer. -/
theorem transfer_io_window (tr : transfer_t) {e : XferEnv} {s : ftp_session_t}
    (h1 : s.bufferpos < s.buffersize) (h2 : s.buffersize ≤ XFER_BUFFERSIZE)
    (hfit : handle_fits s)
    (hsend : e.send_rc ≤ ((s.buffersize - s.bufferpos : Nat) : Int))
    (hwrite : e.fwrite_rc ≤ s.buffersize - s.bufferpos) :
    window_inv (transfer_io tr e s).2 ∧ handle_fits (transfer_io tr e s).2 := by
  have hinv : window_inv s := ⟨by omega, h2⟩
  have h3 : s.bufferpos ≤ s.buffersize := by omega
  cases tr with
  | list_transfer =>
    simp only [transfer_io, list_transfer_send, ftp_session_close_cwd]
    split_ifs with c1 c2
    · exact ⟨hinv, hfit⟩
    · exact window_inv_ended (by exact h3) (by exact h2) rfl _ _
    · refine ⟨⟨?_, h2⟩, hfit⟩
      dsimp only
      omega
  | retrieve_transfer =>
    simp only [transfer_io, retrieve_transfer_send, ftp_session_close_file]
    split_ifs with c1 c2
    · exact ⟨hinv, hfit⟩
    · exact window_inv_ended (by exact h3) (by exact h2) rfl _ _
    · refine ⟨⟨?_, h2⟩, hfit⟩
      dsimp only
      omega
  | store_transfer =>
    have hneg : ¬ ((e.fwrite_rc : Int) < 0) := by omega
    simp only [transfer_io, store_transfer_write, ftp_session_write_file, hneg, ↓reduceIte,
      ftp_session_close_file]
    split_ifs with c1
    · exact window_inv_ended (by exact h3) (by exact h2) rfl _ _
    · refine ⟨⟨?_, h2⟩, hfit⟩
      dsimp only
      omega

/-- A call of the transfer routine that gets to its `send` or `fwrite` is the
second half of the routine applied to the session of that moment. -/
theorem call_transfer_of_io {e : XferEnv} {s s1 : ftp_session_t}
    (h : transfer_io_state e s = some s1) :
    ∃ tr, s.transfer = some tr ∧ call_transfer e s = some (transfer_io tr e s1) := by
  simp only [transfer_io_state] at h
  cases ht : s.transfer with
  | none => simp [ht] at h
  | some tr =>
    refine ⟨tr, rfl, ?_⟩
    by_cases hp : s.bufferpos = s.buffersize
    · cases tr with
      | list_transfer =>
        rw [ht] at h
        simp only [if_pos hp] at h
        simp only [call_transfer, ht, list_transfer, if_pos hp, transfer_io]
        cases hh : s.handle with
        | dir l =>
          cases l with
          | nil => simp [hh] at h
          | cons dent rest =>
            simp only [hh] at h ⊢
            by_cases c1 : dent.d_name = ['.'] ∨ dent.d_name = ['.', '.']
            · simp [if_pos c1] at h
            · rw [if_neg c1] at h ⊢
              by_cases c2 : dent.lstat_rc ≠ 0
              · simp [if_pos c2] at h
              · rw [if_neg c2] at h ⊢
                simp only [Option.some.injEq] at h
                rw [← h]
        | null => simp [hh] at h
        | file_rb r => simp [hh] at h
        | file_wb r => simp [hh] at h
      | retrieve_transfer =>
        rw [ht] at h
        simp only [if_pos hp] at h
        simp only [call_transfer, ht, retrieve_transfer, if_pos hp, transfer_io]
        cases hr : ftp_session_read_file e s with
        | none => simp [hr] at h
        | some p =>
          obtain ⟨rc, s2⟩ := p
          simp only [hr] at h ⊢
          by_cases c1 : rc ≤ 0
          · simp [if_pos c1] at h
          · rw [if_neg c1] at h ⊢
            simp only [Option.some.injEq] at h
            rw [← h]
      | store_transfer =>
        rw [ht] at h
        simp only [if_pos hp] at h
        simp only [call_transfer, ht, store_transfer, if_pos hp, transfer_io]
        by_cases c1 : e.recv_rc ≤ 0
        · simp [if_pos c1] at h
        · rw [if_neg c1] at h ⊢
          simp only [Option.some.injEq] at h
          rw [← h]
    · have hs : s1 = s := by
        cases tr <;> simp only [ht, if_neg hp, Option.some.injEq] at h <;> exact h.symm
      subst hs
      cases tr <;>
        simp only [call_transfer, ht, list_transfer, retrieve_transfer, store_transfer, if_neg hp,
          transfer_io]

/-- A call of the transfer routine that returns before its `send` or `fwrite`
leaves the window in the buffer. -/
theorem call_transfer_of_no_io {e : XferEnv} {s s1 : ftp_session_t} {rc : Int}
    (hinv : window_inv s) (hfit : handle_fits s) (hn : transfer_io_state e s = none)
    (h : call_transfer e s = some (rc, s1)) : window_inv s1 ∧ handle_fits s1 := by
  obtain ⟨hi1, hi2⟩ := hinv
  simp only [transfer_io_state] at hn
  simp only [call_transfer] at h
  cases ht : s.transfer with
  | none => simp [ht] at h
  | some tr =>
    by_cases hp : s.bufferpos = s.buffersize
    · cases tr with
      | list_transfer =>
        rw [ht] at hn h
        simp only [if_pos hp] at hn
        simp only [list_transfer, if_pos hp, ftp_session_close_cwd] at h
        cases hh : s.handle with
        | dir l =>
          cases l with
          | nil =>
            simp only [hh, Option.some.injEq, Prod.mk.injEq] at h
            obtain ⟨-, rfl⟩ := h
            exact window_inv_ended (by exact hi1) (by exact hi2) rfl _ _
          | cons dent rest =>
            have hf : ∀ d ∈ dent :: rest, dirent_fits d := by
              simpa only [handle_fits, hh] using hfit
            simp only [hh] at h hn
            by_cases c1 : dent.d_name = ['.'] ∨ dent.d_name = ['.', '.']
            · rw [if_pos c1] at h
              simp only [Option.some.injEq, Prod.mk.injEq] at h
              obtain ⟨-, rfl⟩ := h
              refine ⟨⟨hi1, hi2⟩, ?_⟩
              simp only [handle_fits]
              exact fun d hd => hf d (List.mem_cons_of_mem _ hd)
            · rw [if_neg c1] at h hn
              by_cases c2 : dent.lstat_rc ≠ 0
              · rw [if_pos c2] at h
                simp only [Option.some.injEq, Prod.mk.injEq] at h
                obtain ⟨-, rfl⟩ := h
                exact window_inv_ended (by exact hi1) (by exact hi2) rfl _ _
              · simp [if_neg c2] at hn
        | null => simp [hh] at h
        | file_rb r => simp [hh] at h
        | file_wb r => simp [hh] at h
      | retrieve_transfer =>
        rw [ht] at hn h
        simp only [if_pos hp] at hn
        simp only [retrieve_transfer, if_pos hp, ftp_session_close_file] at h
        cases hr : ftp_session_read_file e s with
        | none => simp [hr] at h
        | some p =>
          obtain ⟨rc2, s2⟩ := p
          simp only [hr] at h hn
          have hw : s2.bufferpos ≤ s2.buffersize ∧ s2.buffersize ≤ XFER_BUFFERSIZE := by
            simp only [ftp_session_read_file] at hr
            split at hr
            · split_ifs at hr <;> simp only [Option.some.injEq, Prod.mk.injEq] at hr <;>
                (obtain ⟨-, rfl⟩ := hr; exact ⟨hi1, hi2⟩)
            · simp at hr
          by_cases c1 : rc2 ≤ 0
          · rw [if_pos c1] at h
            split_ifs at h <;> simp only [Option.some.injEq, Prod.mk.injEq] at h <;>
              (obtain ⟨-, rfl⟩ := h; exact window_inv_ended (by exact hw.1) (by exact hw.2) rfl _ _)
          · simp [if_neg c1] at hn
      | store_transfer =>
        rw [ht] at hn h
        simp only [if_pos hp] at hn
        simp only [store_transfer, if_pos hp, ftp_session_close_file] at h
        by_cases c1 : e.recv_rc ≤ 0
        · rw [if_pos c1] at h
          split_ifs at h <;> simp only [Option.some.injEq, Prod.mk.injEq] at h <;>
            obtain ⟨-, rfl⟩ := h
          · exact ⟨⟨hi1, hi2⟩, hfit⟩
          · exact window_inv_ended (by exact hi1) (by exact hi2) rfl _ _
          · exact window_inv_ended (by exact hi1) (by exact hi2) rfl _ _
        · simp [if_neg c1] at hn
    · cases tr <;> simp [ht, hp] at hn

/-- One call of the transfer routine with bounded answers keeps the window in
the buffer. -/
theorem call_transfer_window {e : XferEnv} {s s1 : ftp_session_t} {rc : Int}
    (hinv : window_inv s) (hfit : handle_fits s) (hb : answers_bounded e s)
    (h : call_transfer e s = some (rc, s1)) : window_inv s1 ∧ handle_fits s1 := by
  obtain ⟨hrecv, hread, hio⟩ := hb
  cases hs : transfer_io_state e s with
  | none => exact call_transfer_of_no_io hinv hfit hs h
  | some s2 =>
    simp only [hs] at hio
    obtain ⟨w1, w2, w3, -⟩ := io_state_window hinv hfit hrecv hread hs
    obtain ⟨tr, -, hc⟩ := call_transfer_of_io hs
    rw [hc] at h
    have := transfer_io_window tr w1 w2 w3 hio.1 hio.2
    rw [Option.some.inj h] at this
    exact this

/-- Any number of calls of the transfer routine with bounded answers keep the
window in the buffer. -/
theorem transfer_calls_window :
    ∀ (es : List XferEnv) (s0 s : ftp_session_t), window_inv s0 → handle_fits s0 →
      calls_bounded es s0 → transfer_calls es s0 = some s → window_inv s ∧ handle_fits s := by
  intro es
  induction es with
  | nil =>
    intro s0 s hinv hfit _ h
    simp only [transfer_calls, Option.some.injEq] at h
    subst h
    exact ⟨hinv, hfit⟩
  | cons e es ih =>
    intro s0 s hinv hfit hb h
    simp only [transfer_calls] at h
    simp only [calls_bounded] at hb
    cases hc : call_transfer e s0 with
    | none => simp [hc] at h
    | some p =>
      obtain ⟨rc, s1⟩ := p
      simp only [hc] at h hb
      obtain ⟨v1, v2⟩ := call_transfer_window hinv hfit hb.1 hc
      exact ih s1 s v1 v2 hb.2 h

set_option maxRecDepth 100000 in
theorem window_sample :
    (list_session.bufferpos = 0 ∧ list_session.buffersize = 0) ∧ handle_fits list_session ∧
      calls_bounded [send_ten, send_ten, send_ten, send_ten] list_session ∧
      (transfer_calls [send_ten, send_ten, send_ten, send_ten] list_session).isSome = true := by
  decide

/-! ## Claim about the window of the work buffer -/

/-- C27: let a session be armed (`bufferpos = buffersize = 0`), the entries of
its open directory, if any, fitting their C types, and let the transfer routine
be called any number of times, each `recv` and `fread` returning at most
`sizeof(buffer)` and each `send` and `fwrite` at most the count it is handed.
Then `bufferpos <= buffersize <= 32768` holds afterwards, and whenever the next
call, answered within the same bounds, gets to its `send` or `fwrite`, the
window it hands over is non-empty and lies inside the work buffer. -/
theorem C27_window_in_buffer (es : List XferEnv) (s0 s : ftp_session_t)
    (harm : s0.bufferpos = 0 ∧ s0.buffersize = 0) (hfit : handle_fits s0)
    (hb : calls_bounded es s0) (hrun : transfer_calls es s0 = some s) :
    s.bufferpos ≤ s.buffersize ∧ s.buffersize ≤ XFER_BUFFERSIZE ∧
      ∀ (e : XferEnv) (s1 : ftp_session_t), e.recv_rc ≤ (XFER_BUFFERSIZE : Int) →
        e.fread_rc ≤ XFER_BUFFERSIZE → transfer_io_state e s = some s1 →
        (∃ tr, s.transfer = some tr ∧ call_transfer e s = some (transfer_io tr e s1)) ∧
          0 < s1.buffersize - s1.bufferpos ∧
          s1.bufferpos + (s1.buffersize - s1.bufferpos) ≤ XFER_BUFFERSIZE := by
  have h0 : window_inv s0 := by
    simp only [window_inv, harm.1, harm.2, XFER_BUFFERSIZE]
    omega
  obtain ⟨hinv, hf⟩ := transfer_calls_window es s0 s h0 hfit hb hrun
  refine ⟨hinv.1, hinv.2, ?_⟩
  intro e s1 hrecv hread hio
  obtain ⟨w1, w2, -, -⟩ := io_state_window hinv hf hrecv hread hio
  exact ⟨call_transfer_of_io hio, by omega, by omega⟩

/-- C27 at a session armed by `PORT` and `LIST` in a directory with the
entries `.`, `..` and `f`, after four calls of `list_transfer` in which `send`
takes 10 bytes. -/
theorem C27_window_in_buffer_witness :
    ∃ s, transfer_calls [send_ten, send_ten, send_ten, send_ten] list_session = some s ∧
      s.bufferpos ≤ s.buffersize ∧ s.buffersize ≤ XFER_BUFFERSIZE ∧
      ∀ (e : XferEnv) (s1 : ftp_session_t), e.recv_rc ≤ (XFER_BUFFERSIZE : Int) →
        e.fread_rc ≤ XFER_BUFFERSIZE → transfer_io_state e s = some s1 →
        (∃ tr, s.transfer = some tr ∧ call_transfer e s = some (transfer_io tr e s1)) ∧
          0 < s1.buffersize - s1.bufferpos ∧
          s1.bufferpos + (s1.buffersize - s1.bufferpos) ≤ XFER_BUFFERSIZE :=
  (Option.isSome_iff_exists.mp window_sample.2.2.2).elim fun s hs =>
    ⟨s, hs, C27_window_in_buffer _ list_session s window_sample.1 window_sample.2.1
      window_sample.2.2.1 hs⟩

/-! ## The session list: unlinking and linking -/

theorem nodup_index_eq {ids : List Nat} (hN : ids.Nodup) {i j a : Nat}
    (hi : ids[i]? = some a) (hj : ids[j]? = some a) : i = j := by
  rw [List.nodup_iff_getElem?_ne_getElem?] at hN
  have hi2 := (List.getElem?_eq_some.mp hi).1
  have hj2 := (List.getElem?_eq_some.mp hj).1
  rcases Nat.lt_trichotomy i j with h | h | h
  · exact absurd (hi.trans hj.symm) (hN i j h hj2)
  · exact h
  · exact absurd (hj.trans hi.symm) (hN j i h hi2)

/-- The well-formed list without the node of index `k`, described node by
node: the list `ids.eraseIdx k` is well formed in every memory in which the
other nodes are as before except that the pointers to the node have been
replaced by the node's own pointers. -/
theorem wf_list_unlinked {st st1 : list_state} {ids : List Nat} {k p : Nat} {pp : Option Nat}
    (hwf : wf_list st ids) (hk : ids[k]? = some p)
    (hpp : pp = if k = 0 then ids.getLast? else ids[k - 1]?)
    (hs : st1.sessions = if k = 0 then ids[1]? else st.sessions)
    (hh : ∀ j a, ids[j]? = some a → j ≠ k → ∃ node, st1.heap a = some node ∧
      node.next = (if j + 1 = k then ids[k + 1]? else ids[j + 1]?) ∧
      node.prev = (if j = k + 1 ∨ (j = 0 ∧ k + 1 = ids.length) then pp
        else if j = 0 then ids.getLast? else ids[j - 1]?)) :
    wf_list st1 (ids.eraseIdx k) := by
  obtain ⟨hN, hS, -⟩ := hwf
  have hklt := (List.getElem?_eq_some.mp hk).1
  have hlen : (ids.eraseIdx k).length = ids.length - 1 := by
    rw [List.length_eraseIdx, if_pos hklt]
  refine ⟨hN.eraseIdx k, ?_, ?_⟩
  · rw [hs, List.head?_eq_getElem?, List.getElem?_eraseIdx]
    by_cases h0 : k = 0
    · subst h0
      simp
    · rw [if_neg h0, if_pos (by omega), hS, List.head?_eq_getElem?]
  · intro j a hj
    rw [List.getElem?_eraseIdx] at hj
    have hjl : j < ids.length - 1 := by
      by_cases hjk : j < k
      · omega
      · rw [if_neg hjk] at hj
        have := (List.getElem?_eq_some.mp hj).1
        omega
    rw [List.getLast?_eq_getElem?, hlen, List.getElem?_eraseIdx, List.getElem?_eraseIdx,
      List.getElem?_eraseIdx]
    rw [List.getLast?_eq_getElem?] at hh hpp
    by_cases hjk : j < k
    · rw [if_pos hjk] at hj
      obtain ⟨node, h1, h2, h3⟩ := hh j a hj (by omega)
      refine ⟨node, h1, ?_, ?_⟩
      · rw [h2]
        split_ifs <;> first | rfl | contradiction | (exfalso; omega) | (congr 1; omega)
      · rw [h3, hpp]
        split_ifs <;> first | rfl | contradiction | (exfalso; omega) | (congr 1; omega)
    · rw [if_neg hjk] at hj
      obtain ⟨node, h1, h2, h3⟩ := hh (j + 1) a hj (by omega)
      refine ⟨node, h1, ?_, ?_⟩
      · rw [h2]
        split_ifs <;> first | rfl | contradiction | (exfalso; omega)
      · rw [h3, hpp]
        split_ifs <;> first | rfl | contradiction | (exfalso; omega) | (congr 1; omega)

theorem nodup_index_ne {ids : List Nat} (hN : ids.Nodup) {i j a b : Nat}
    (hi : ids[i]? = some a) (hj : ids[j]? = some b) (hij : i ≠ j) : a ≠ b :=
  fun h => hij (nodup_index_eq hN hi (h ▸ hj))

/-- `ftp_session_destroy` on the node of index `k` of a well-formed list,
node by node: the node is freed, the pointer returned is its `next`, and in the
other nodes of the list the pointers to the node are replaced by the node's own
`next` and `prev`. -/
theorem destroy_pointwise {st : list_state} {ids : List Nat} {k p : Nat}
    (hwf : wf_list st ids) (hk : ids[k]? = some p) :
    ∃ st1, ftp_session_destroy st p = some (st1, ids[k + 1]?) ∧
      st1.sessions = (if k = 0 then ids[1]? else st.sessions) ∧ st1.heap p = none ∧
      (∀ b, b ∉ ids → st1.heap b = st.heap b) ∧
      ∀ j a node0, ids[j]? = some a → j ≠ k → st.heap a = some node0 →
        st1.heap a = some { node0 with
          next := if j + 1 = k then ids[k + 1]? else node0.next
          prev := if j = k + 1 ∨ (j = 0 ∧ k + 1 = ids.length) then
              (if k = 0 then ids.getLast? else ids[k - 1]?)
            else node0.prev } := by
  obtain ⟨hN, hS, hH⟩ := hwf
  obtain ⟨nodep, hp, hpn, hpp⟩ := hH k p hk
  have hklt := (List.getElem?_eq_some.mp hk).1
  have hpin : p ∈ ids := List.mem_iff_getElem?.mpr ⟨k, hk⟩
  by_cases hk0 : k = 0
  · subst hk0
    rw [if_pos rfl] at hpp
    have hS2 : st.sessions = some p := by rw [hS, List.head?_eq_getElem?, hk]
    cases hn : ids[1]? with
    | none =>
      rw [zero_add, hn] at hpn
      simp only [ftp_session_destroy, hp, hpn, hS2, ↓reduceIte, Function.update_same, zero_add,
        hn]
      refine ⟨_, rfl, rfl, ?_, ?_, ?_⟩
      · simp only [Function.update_same]
      · intro b hb
        have : b ≠ p := fun h => hb (h ▸ hpin)
        simp only [Function.update_apply, this, ↓reduceIte]
      · intro j a node0 hj hj0 _
        have := (List.getElem?_eq_some.mp hj).1
        have := List.getElem?_eq_none_iff.mp hn
        omega
    | some n =>
      rw [zero_add, hn] at hpn
      obtain ⟨noden, hnn, -, -⟩ := hH 1 n hn
      have hnp : n ≠ p := nodup_index_ne hN hn hk (by omega)
      simp only [ftp_session_destroy, hp, hpn, store_prev, Function.update_apply, hnp, hnp.symm,
        ↓reduceIte, hnn, hS2, zero_add, hn]
      refine ⟨_, rfl, rfl, ?_, ?_, ?_⟩
      · simp only [Function.update_same]
      · intro b hb
        have h1 : b ≠ p := fun h => hb (h ▸ hpin)
        have h2 : b ≠ n := fun h => hb (h ▸ List.mem_iff_getElem?.mpr ⟨1, hn⟩)
        simp only [Function.update_apply, h1, h2, ↓reduceIte]
      · intro j a node0 hj hj0 ha
        have hap : a ≠ p := nodup_index_ne hN hj hk hj0
        have hlen2 : ¬ (0 + 1 = ids.length ∧ j = 0) := by omega
        by_cases hj1 : j = 1
        · subst hj1
          have han : a = n := Option.some.inj (hj.symm.trans hn)
          subst han
          have e : noden = node0 := Option.some.inj (hnn.symm.trans ha)
          subst e
          simp [Function.update_apply, hap, hpp]
        · have han : a ≠ n := nodup_index_ne hN hj hn hj1
          have e1 : ¬ j + 1 = 0 := by omega
          simp [Function.update_apply, hap, han, ha, hj1, hj0]
  · rw [if_neg hk0] at hpp
    have h0lt : 0 < ids.length := by omega
    obtain ⟨h, hh0⟩ : ∃ h, ids[0]? = some h := ⟨_, List.getElem?_eq_getElem h0lt⟩
    obtain ⟨pr, hpr⟩ : ∃ pr, ids[k - 1]? = some pr :=
      ⟨_, List.getElem?_eq_getElem (by omega : k - 1 < ids.length)⟩
    have hS2 : st.sessions = some h := by rw [hS, List.head?_eq_getElem?, hh0]
    have hhp : h ≠ p := nodup_index_ne hN hh0 hk (by omega)
    have hprp : pr ≠ p := nodup_index_ne hN hpr hk (by omega)
    have hSp : ¬ (some h = some p) := fun e => hhp (Option.some.inj e)
    obtain ⟨nodeh, hnh, -, hhprev⟩ := hH 0 h hh0
    obtain ⟨nodepr, hnpr, -, -⟩ := hH (k - 1) pr hpr
    rw [if_pos rfl, List.getLast?_eq_getElem?] at hhprev
    rw [hpr] at hpp
    simp only [hk0, ↓reduceIte, hpr]
    cases hn : ids[k + 1]? with
    | none =>
      rw [hn] at hpn
      have hkl : k + 1 = ids.length := by
        have := List.getElem?_eq_none_iff.mp hn
        omega
      have hlast : ids[ids.length - 1]? = some p := by
        rw [← hkl, Nat.add_sub_cancel, hk]
      rw [hlast] at hhprev
      by_cases hhpr : h = pr
      · subst hhpr
        have e : nodepr = nodeh := Option.some.inj (hnpr.symm.trans hnh)
        subst e
        simp only [ftp_session_destroy, hp, hpn, hS2, hSp, ↓reduceIte, ftp_session_destroy_inner,
          Function.update_same, hpp, store_next, Function.update_apply, hhp, hhp.symm, hnh,
          hhprev, store_prev]
        refine ⟨_, rfl, rfl, ?_, ?_, ?_⟩
        · simp only [Function.update_same]
        · intro b hb
          have h1 : b ≠ p := fun e => hb (e ▸ hpin)
          have h2 : b ≠ h := fun e => hb (e ▸ List.mem_iff_getElem?.mpr ⟨0, hh0⟩)
          simp only [Function.update_apply, h1, h2, ↓reduceIte]
        · intro j a node0 hj hjk ha
          have hap : a ≠ p := nodup_index_ne hN hj hk hjk
          have hjlt := (List.getElem?_eq_some.mp hj).1
          by_cases hj0 : j = 0
          · subst hj0
            have e1 : a = h := Option.some.inj (hj.symm.trans hh0)
            subst e1
            have e2 : nodepr = node0 := Option.some.inj (hnh.symm.trans ha)
            subst e2
            have e3 : 0 + 1 = k := by
              have := nodup_index_eq hN hpr hh0
              omega
            simp [Function.update_apply, hap, hkl, e3]
          · have hah : a ≠ h := nodup_index_ne hN hj hh0 hj0
            have e3 : ¬ j + 1 = k := by
              intro e
              have : j = k - 1 := by omega
              rw [this] at hj
              exact hah (Option.some.inj (hj.symm.trans hpr))
            have e4 : ¬ j = k + 1 := by omega
            simp [Function.update_apply, hap, hah, ha, e3, e4, hj0]
      · have hk1 : ¬ 0 + 1 = k := by
          intro e
          have : k - 1 = 0 := by omega
          rw [this] at hpr
          exact hhpr (Option.some.inj (hh0.symm.trans hpr))
        simp only [ftp_session_destroy, hp, hpn, hS2, hSp, ↓reduceIte, ftp_session_destroy_inner,
          Function.update_same, hpp, store_next, Function.update_apply, hhp, hhp.symm, hnh,
          hhprev, store_prev, hprp, hprp.symm, hnpr, hhpr, Ne.symm hhpr]
        refine ⟨_, rfl, rfl, ?_, ?_, ?_⟩
        · simp only [Function.update_same]
        · intro b hb
          have h1 : b ≠ p := fun e => hb (e ▸ hpin)
          have h2 : b ≠ h := fun e => hb (e ▸ List.mem_iff_getElem?.mpr ⟨0, hh0⟩)
          have h3 : b ≠ pr := fun e => hb (e ▸ List.mem_iff_getElem?.mpr ⟨k - 1, hpr⟩)
          simp only [Function.update_apply, h1, h2, h3, ↓reduceIte]
        · intro j a node0 hj hjk ha
          have hap : a ≠ p := nodup_index_ne hN hj hk hjk
          have hjlt := (List.getElem?_eq_some.mp hj).1
          by_cases hj0 : j = 0
          · subst hj0
            have e1 : a = h := Option.some.inj (hj.symm.trans hh0)
            subst e1
            have e2 : nodeh = node0 := Option.some.inj (hnh.symm.trans ha)
            subst e2
            simp [Function.update_apply, hap, hkl, hk1, hhpr]
          · have hah : a ≠ h := nodup_index_ne hN hj hh0 hj0
            have e4 : ¬ j = k + 1 := by omega
            by_cases hjp : j + 1 = k
            · have e5 : j = k - 1 := by omega
              rw [e5] at hj
              have e1 : a = pr := Option.some.inj (hj.symm.trans hpr)
              subst e1
              have e2 : nodepr = node0 := Option.some.inj (hnpr.symm.trans ha)
              subst e2
              simp [Function.update_apply, hap, hah, hjp, e4, hj0]
            · have hapr : a ≠ pr := nodup_index_ne hN hj hpr (by omega)
              simp [Function.update_apply, hap, hah, hapr, ha, hjp, e4, hj0]
    | some n =>
      rw [hn] at hpn
      have hnlt := (List.getElem?_eq_some.mp hn).1
      obtain ⟨noden, hnn, -, -⟩ := hH (k + 1) n hn
      have hnp : n ≠ p := nodup_index_ne hN hn hk (by omega)
      have hnh2 : n ≠ h := nodup_index_ne hN hn hh0 (by omega)
      have hnpr2 : n ≠ pr := nodup_index_ne hN hn hpr (by omega)
      have hlast : ¬ (ids[ids.length - 1]? = some p) := by
        intro e
        have := nodup_index_eq hN e hk
        omega
      rw [← hhprev] at hlast
      have hkl : ¬ k + 1 = ids.length := by omega
      by_cases hhpr : h = pr
      · subst hhpr
        have e : nodepr = nodeh := Option.some.inj (hnpr.symm.trans hnh)
        subst e
        have hk1 : 0 + 1 = k := by
          have := nodup_index_eq hN hpr hh0
          omega
        simp only [ftp_session_destroy, hp, hpn, hS2, hSp, ↓reduceIte, ftp_session_destroy_inner,
          Function.update_same, hpp, store_next, Function.update_apply, hhp, hhp.symm, hnh,
          hlast, store_prev, hnp, hnp.symm, hnn, hnh2, hnh2.symm]
        refine ⟨_, rfl, rfl, ?_, ?_, ?_⟩
        · simp only [Function.update_same]
        · intro b hb
          have h1 : b ≠ p := fun e => hb (e ▸ hpin)
          have h2 : b ≠ h := fun e => hb (e ▸ List.mem_iff_getElem?.mpr ⟨0, hh0⟩)
          have h3 : b ≠ n := fun e => hb (e ▸ List.mem_iff_getElem?.mpr ⟨k + 1, hn⟩)
          simp only [Function.update_apply, h1, h2, h3, ↓reduceIte]
        · intro j a node0 hj hjk ha
          have hap : a ≠ p := nodup_index_ne hN hj hk hjk
          have hjlt := (List.getElem?_eq_some.mp hj).1
          by_cases hj0 : j = 0
          · subst hj0
            have e1 : a = h := Option.some.inj (hj.symm.trans hh0)
            subst e1
            have e2 : nodepr = node0 := Option.some.inj (hnh.symm.trans ha)
            subst e2
            have e3 : ¬ (0 = k + 1) := by omega
            simp [Function.update_apply, hap, hkl, hk1, e3]
          · have hah : a ≠ h := nodup_index_ne hN hj hh0 hj0
            have e3 : ¬ j + 1 = k := by omega
            by_cases hjn : j = k + 1
            · subst hjn
              have e1 : a = n := Option.some.inj (hj.symm.trans hn)
              subst e1
              have e2 : noden = node0 := Option.some.inj (hnn.symm.trans ha)
              subst e2
              simp [Function.update_apply, hap, hah, e3]
            · have han : a ≠ n := nodup_index_ne hN hj hn hjn
              simp [Function.update_apply, hap, hah, han, ha, e3, hjn, hj0]
      · have hk1 : ¬ 0 + 1 = k := by
          intro e
          have : k - 1 = 0 := by omega
          rw [this] at hpr
          exact hhpr (Option.some.inj (hh0.symm.trans hpr))
        simp only [ftp_session_destroy, hp, hpn, hS2, hSp, ↓reduceIte, ftp_session_destroy_inner,
          Function.update_same, hpp, store_next, Function.update_apply, hhp, hhp.symm, hnh,
          hlast, store_prev, hnp, hnp.symm, hnn, hnh2, hnh2.symm, hprp, hprp.symm, hnpr, hhpr,
          Ne.symm hhpr, hnpr2, hnpr2.symm]
        refine ⟨_, rfl, rfl, ?_, ?_, ?_⟩
        · simp only [Function.update_same]
        · intro b hb
          have h1 : b ≠ p := fun e => hb (e ▸ hpin)
          have h2 : b ≠ pr := fun e => hb (e ▸ List.mem_iff_getElem?.mpr ⟨k - 1, hpr⟩)
          have h3 : b ≠ n := fun e => hb (e ▸ List.mem_iff_getElem?.mpr ⟨k + 1, hn⟩)
          simp only [Function.update_apply, h1, h2, h3, ↓reduceIte]
        · intro j a node0 hj hjk ha
          have hap : a ≠ p := nodup_index_ne hN hj hk hjk
          have hjlt := (List.getElem?_eq_some.mp hj).1
          by_cases hjn : j = k + 1
          · subst hjn
            have e1 : a = n := Option.some.inj (hj.symm.trans hn)
            subst e1
            have e2 : noden = node0 := Option.some.inj (hnn.symm.trans ha)
            subst e2
            have e3 : ¬ k + 1 + 1 = k := by omega
            simp [Function.update_apply, hap, hnpr2, e3]
          · have han : a ≠ n := nodup_index_ne hN hj hn hjn
            by_cases hjp : j + 1 = k
            · have e5 : j = k - 1 := by omega
              rw [e5] at hj
              have e1 : a = pr := Option.some.inj (hj.symm.trans hpr)
              subst e1
              have e2 : nodepr = node0 := Option.some.inj (hnpr.symm.trans ha)
              subst e2
              simp [Function.update_apply, hap, han, hjp, hjn, hkl]
            · have hapr : a ≠ pr := nodup_index_ne hN hj hpr (by omega)
              simp [Function.update_apply, hap, han, hapr, ha, hjp, hjn, hkl]

/-- The result of `ftp_session_destroy` on a node of a well-formed list. -/
theorem destroy_wf {st : list_state} {ids : List Nat} {k p : Nat}
    (hwf : wf_list st ids) (hk : ids[k]? = some p) :
    ∃ st1, ftp_session_destroy st p = some (st1, ids[k + 1]?) ∧
      wf_list st1 (ids.eraseIdx k) ∧ st1.heap p = none ∧
      (∀ b, b ∉ ids → st1.heap b = st.heap b) ∧
      ∀ b, b ≠ p → (st1.heap b).map node_t.session = (st.heap b).map node_t.session := by
  obtain ⟨st1, h1, h2, h3, h4, h5⟩ := destroy_pointwise hwf hk
  refine ⟨st1, h1, ?_, h3, h4, ?_⟩
  · refine wf_list_unlinked hwf hk rfl h2 ?_
    intro j a hj hjk
    obtain ⟨node0, ha, hn, hp⟩ := hwf.2.2 j a hj
    refine ⟨_, h5 j a node0 hj hjk ha, ?_, ?_⟩
    · dsimp only
      rw [hn]
    · dsimp only
      rw [hp]
  · intro b hb
    by_cases hin : b ∈ ids
    · obtain ⟨j, hj⟩ := List.mem_iff_getElem?.mp hin
      have hjk : j ≠ k := fun e => hb (Option.some.inj ((e ▸ hj).symm.trans hk))
      obtain ⟨node0, ha, -, -⟩ := hwf.2.2 j b hj
      rw [h5 j b node0 hj hjk ha, ha]
      rfl
    · rw [h4 b hin]

/-- The linking block of `ftp_session_new` appends the new session, allocated
at an address that is not in the list and with `next` cleared, at the tail of a
well-formed list. -/
theorem link_wf {st : list_state} {ids : List Nat} {a : Nat} {node : node_t}
    (hwf : wf_list st ids) (ha : st.heap a = some node) (hnot : a ∉ ids)
    (hnn : node.next = none) :
    ∃ st1, ftp_session_new_link st a = some st1 ∧ wf_list st1 (ids ++ [a]) ∧
      ∀ b, (st1.heap b).map node_t.session = (st.heap b).map node_t.session := by
  obtain ⟨hN, hS, hH⟩ := hwf
  have hN2 : (ids ++ [a]).Nodup := by
    rw [List.nodup_append]
    refine ⟨hN, List.nodup_singleton a, ?_⟩
    intro x hx hx2
    rw [List.mem_singleton] at hx2
    exact hnot (hx2 ▸ hx)
  by_cases hlen : ids.length = 0
  · have hnil : ids = [] := List.length_eq_zero.mp hlen
    subst hnil
    have hS2 : st.sessions = none := hS
    simp only [ftp_session_new_link, hS2, store_prev, ha]
    refine ⟨_, rfl, ⟨hN2, rfl, ?_⟩, ?_⟩
    · intro i b hi
      have hi0 : i = 0 := by
        have := (List.getElem?_eq_some.mp hi).1
        simp only [List.nil_append, List.length_singleton] at this
        omega
      subst hi0
      have hb : b = a := by simpa using hi.symm
      subst hb
      exact ⟨_, Function.update_same _ _ _, by simp [hnn], by simp⟩
    · intro b
      by_cases hb : b = a
      · subst hb
        simp [ha]
      · simp [Function.update_apply, hb]
  · have h0lt : 0 < ids.length := by omega
    obtain ⟨h, hh0⟩ : ∃ h, ids[0]? = some h := ⟨_, List.getElem?_eq_getElem h0lt⟩
    obtain ⟨t, ht⟩ : ∃ t, ids[ids.length - 1]? = some t :=
      ⟨_, List.getElem?_eq_getElem (by omega : ids.length - 1 < ids.length)⟩
    have hS2 : st.sessions = some h := by rw [hS, List.head?_eq_getElem?, hh0]
    obtain ⟨nodeh, hnh, -, hhprev⟩ := hH 0 h hh0
    obtain ⟨nodet, hnt, -, -⟩ := hH (ids.length - 1) t ht
    rw [if_pos rfl, List.getLast?_eq_getElem?, ht] at hhprev
    have hha : h ≠ a := fun e => hnot (e ▸ List.mem_iff_getElem?.mpr ⟨0, hh0⟩)
    have hta : t ≠ a := fun e => hnot (e ▸ List.mem_iff_getElem?.mpr ⟨_, ht⟩)
    have hlast : (ids ++ [a]).getLast? = some a := List.getLast?_concat ids
    have key : ∀ i b, (ids ++ [a])[i]? = some b →
        (i < ids.length ∧ ids[i]? = some b ∧ b ≠ a) ∨ (i = ids.length ∧ b = a) := by
      intro i b hi
      by_cases c : i < ids.length
      · rw [List.getElem?_append_left c] at hi
        exact Or.inl ⟨c, hi, fun e => hnot (e ▸ List.mem_iff_getElem?.mpr ⟨i, hi⟩)⟩
      · have hil := (List.getElem?_eq_some.mp hi).1
        simp only [List.length_append, List.length_singleton] at hil
        have e : i = ids.length := by omega
        subst e
        rw [List.getElem?_concat_length] at hi
        exact Or.inr ⟨rfl, (Option.some.inj hi).symm⟩
    have hnext : ∀ i, i < ids.length → (ids ++ [a])[i + 1]? =
        if i + 1 = ids.length then some a else ids[i + 1]? := by
      intro i hi
      by_cases c : i + 1 = ids.length
      · rw [if_pos c, c, List.getElem?_concat_length]
      · rw [if_neg c, List.getElem?_append_left (by omega)]
    have hprev : ∀ i, 0 < i → i ≤ ids.length → (ids ++ [a])[i - 1]? = ids[i - 1]? := by
      intro i hi hi2
      rw [List.getElem?_append_left (by omega)]
    by_cases hht : h = t
    · subst hht
      have e : nodet = nodeh := Option.some.inj (hnt.symm.trans hnh)
      subst e
      have hl1 : ids.length = 1 := by
        have := nodup_index_eq hN hh0 ht
        omega
      simp only [ftp_session_new_link, hS2, hnh, hhprev, store_next, store_prev,
        Function.update_apply, hha, hha.symm, ↓reduceIte, ha, Function.update_same]
      refine ⟨_, rfl, ⟨hN2, ?_, ?_⟩, ?_⟩
      · rw [List.head?_eq_getElem?, List.getElem?_append_left h0lt, hh0]
      · intro i b hi
        rw [hlast]
        rcases key i b hi with ⟨c1, c2, c3⟩ | ⟨c1, c2⟩
        · have hi0 : i = 0 := by omega
          subst hi0
          have hb : b = h := Option.some.inj (c2.symm.trans hh0)
          subst hb
          rw [hnext 0 c1]
          simp [Function.update_apply, hl1]
        · subst c1 c2
          rw [hprev _ h0lt (le_refl _), ht]
          have e1 : ¬ ids.length = 0 := hlen
          have e2 : (ids ++ [b])[ids.length + 1]? = none :=
            List.getElem?_eq_none (by simp)
          simp [Function.update_apply, hha.symm, e1, e2, hnn]
      · intro b
        by_cases hb : b = a
        · subst hb
          simp [Function.update_apply, hha.symm, ha]
        · by_cases hb2 : b = h
          · subst hb2
            simp [Function.update_apply, hnh]
          · simp [Function.update_apply, hb, hb2]
    · have hl1 : ¬ ids.length - 1 = 0 := by
        intro e
        rw [e] at ht
        exact hht (Option.some.inj (hh0.symm.trans ht))
      simp only [ftp_session_new_link, hS2, hnh, hhprev, store_next, store_prev,
        Function.update_apply, hha, hha.symm, ↓reduceIte, ha, Function.update_same, hnt, hht,
        Ne.symm hht, hta, hta.symm]
      refine ⟨_, rfl, ⟨hN2, ?_, ?_⟩, ?_⟩
      · rw [List.head?_eq_getElem?, List.getElem?_append_left h0lt, hh0]
      · intro i b hi
        rw [hlast]
        rcases key i b hi with ⟨c1, c2, c3⟩ | ⟨c1, c2⟩
        · obtain ⟨node0, hb0, hbn, hbp⟩ := hH i b c2
          rw [hnext i c1]
          by_cases hi0 : i = 0
          · subst hi0
            have hb : b = h := Option.some.inj (c2.symm.trans hh0)
            subst hb
            have e : nodeh = node0 := Option.some.inj (hnh.symm.trans hb0)
            subst e
            have e1 : ¬ 0 + 1 = ids.length := by omega
            simp [Function.update_apply, e1, hbn]
          · have hbh : b ≠ h := nodup_index_ne hN c2 hh0 hi0
            rw [if_neg hi0, hprev i (by omega) (by omega)]
            rw [if_neg hi0] at hbp
            by_cases hil : i + 1 = ids.length
            · have e5 : i = ids.length - 1 := by omega
              rw [e5] at c2
              have hb : b = t := Option.some.inj (c2.symm.trans ht)
              subst hb
              have e : nodet = node0 := Option.some.inj (hnt.symm.trans hb0)
              subst e
              simp [Function.update_apply, hbh, c3, hil, hbp]
            · have hbt : b ≠ t := nodup_index_ne hN c2 ht (by omega)
              simp [Function.update_apply, hbh, c3, hbt, hb0, hil, hbn, hbp]
        · subst c1 c2
          rw [hprev _ h0lt (le_refl _), ht]
          have e1 : ¬ ids.length = 0 := hlen
          have e2 : (ids ++ [b])[ids.length + 1]? = none :=
            List.getElem?_eq_none (by simp)
          simp [Function.update_apply, hha.symm, e1, e2, hnn]
      · intro b
        by_cases hb : b = a
        · subst hb
          simp [Function.update_apply, hha.symm, ha]
        · by_cases hb2 : b = h
          · subst hb2
            simp [Function.update_apply, hnh, hb]
          · by_cases hb3 : b = t
            · subst hb3
              simp [Function.update_apply, hnt, hb, hb2]
            · simp [Function.update_apply, hb, hb2, hb3]

/-- Well-formedness looks only at `sessions` and at the links of the nodes of
the list. -/
theorem wf_list_congr {st st1 : list_state} {ids : List Nat} (hwf : wf_list st ids)
    (hs : st1.sessions = st.sessions)
    (hh : ∀ b ∈ ids, ∀ node, st.heap b = some node →
      ∃ node1, st1.heap b = some node1 ∧ node1.next = node.next ∧ node1.prev = node.prev) :
    wf_list st1 ids := by
  obtain ⟨hN, hS, hH⟩ := hwf
  refine ⟨hN, hs.trans hS, ?_⟩
  intro i a hi
  obtain ⟨node, h1, h2, h3⟩ := hH i a hi
  obtain ⟨node1, g1, g2, g3⟩ := hh a (List.mem_iff_getElem?.mpr ⟨i, hi⟩) node h1
  exact ⟨node1, g1, g2.trans h2, g3.trans h3⟩

/-- A change of the session at `p` keeps the list well formed. -/
theorem with_session_wf {st : list_state} {ids : List Nat} {p : Nat} {node : node_t}
    (hwf : wf_list st ids) (hp : st.heap p = some node) (f : ftp_session_t → ftp_session_t) :
    ∃ st1, with_session st p f = some st1 ∧ wf_list st1 ids ∧
      st1.heap p = some { node with session := f node.session } ∧
      ∀ b, b ≠ p → st1.heap b = st.heap b := by
  simp only [with_session, hp]
  refine ⟨_, rfl, ?_, Function.update_same _ _ _, ?_⟩
  · refine wf_list_congr hwf rfl ?_
    intro b _ nodeb hb
    by_cases c : b = p
    · subst c
      have e : node = nodeb := Option.some.inj (hp.symm.trans hb)
      subst e
      exact ⟨_, Function.update_same _ _ _, rfl, rfl⟩
    · exact ⟨nodeb, by simp only [Function.update_apply, c, ↓reduceIte, hb], rfl, rfl⟩
  · intro b hb
    simp only [Function.update_apply, hb, ↓reduceIte]

theorem eraseIdx_concat (ids : List Nat) (a : Nat) : (ids ++ [a]).eraseIdx ids.length = ids := by
  rw [List.eraseIdx_append_of_length_le (le_refl _), Nat.sub_self]
  simp

/-- `ftp_session_new` with the session list: when the session comes to exist
it is appended at the tail of the well-formed list; otherwise the list is as
before and nothing stays allocated. -/
theorem new_in_list_wf {env : Env} {junk : ftp_session_t} {a : Nat} {st : list_state}
    {ids : List Nat} (hwf : wf_list st ids) (ha : st.heap a = none) :
    ∃ st1, ftp_session_new_in_list env junk a st = some st1 ∧
      (∀ b, b ≠ a → (st1.heap b).map node_t.session = (st.heap b).map node_t.session) ∧
      match ftp_session_new env junk with
      | some s => wf_list st1 (ids ++ [a]) ∧ (st1.heap a).map node_t.session = some s
      | none => wf_list st1 ids ∧ st1.heap a = none := by
  have hnot : a ∉ ids := by
    intro hin
    obtain ⟨i, hi⟩ := List.mem_iff_getElem?.mp hin
    obtain ⟨node, h1, -, -⟩ := hwf.2.2 i a hi
    rw [ha] at h1
    simp at h1
  simp only [ftp_session_new_in_list, ftp_session_new]
  by_cases c1 : env.accept_rc < 0
  · simp only [c1, ↓reduceIte]
    exact ⟨st, rfl, fun _ _ => rfl, hwf, ha⟩
  · by_cases c2 : (!env.malloc_ok) = true
    · simp only [c1, c2, ↓reduceIte]
      exact ⟨st, rfl, fun _ _ => rfl, hwf, ha⟩
    · simp only [c1, c2, ↓reduceIte]
      generalize hs0 : ({ junk with
        cwd := ['/']
        peer_addr := { junk.peer_addr with sin_addr := 0 }
        cmd_fd := env.accept_rc
        pasv_fd := -1
        data_fd := -1
        flags := ⟨false, false, false, false, false, false⟩
        state := .COMMAND_STATE
        transfer := none
        events := [] } : ftp_session_t) = s0
      have hwf0 : wf_list
          { st with
            heap := Function.update st.heap a (some { session := s0, next := none, prev := none }) }
          ids := by
        refine wf_list_congr hwf rfl ?_
        intro b hb nodeb hnb
        have hba : b ≠ a := fun e => hnot (e ▸ hb)
        exact ⟨nodeb, by simp only [Function.update_apply, hba, ↓reduceIte, hnb], rfl, rfl⟩
      obtain ⟨st1, hl, hwf1, hses1⟩ := link_wf hwf0 (Function.update_same _ _ _) hnot rfl
      have ha1 : ∃ node1, st1.heap a = some node1 ∧ node1.session = s0 := by
        have := hses1 a
        simp only [Function.update_same, Option.map_some'] at this
        cases hx : st1.heap a with
        | none => simp [hx] at this
        | some node1 =>
          rw [hx] at this
          exact ⟨node1, rfl, by simpa using this⟩
      obtain ⟨node1, hn1, hn1s⟩ := ha1
      have hother : ∀ b, b ≠ a →
          (st1.heap b).map node_t.session = (st.heap b).map node_t.session := by
        intro b hb
        rw [hses1 b]
        simp only [Function.update_apply, hb, ↓reduceIte]
      have hidx : (ids ++ [a])[ids.length]? = some a := List.getElem?_concat_length ids a
      simp only [hl]
      by_cases c3 : env.getsockname_rc = 0
      swap
      · simp only [c3, ne_eq, not_false_eq_true, ↓reduceIte]
        obtain ⟨st2, hw, hwf2, -, hsame2⟩ := with_session_wf hwf1 hn1
          (fun s => ftp_send_response s 451 "Failed to get connection info\r\n".toList)
        obtain ⟨st3, hd, hwf3, hfree, -, hses3⟩ := destroy_wf hwf2 hidx
        rw [eraseIdx_concat] at hwf3
        simp only [hw, hd, Option.map_some']
        refine ⟨st3, rfl, ?_, hwf3, hfree⟩
        intro b hb
        rw [hses3 b hb, hsame2 b hb, hother b hb]
      · simp only [c3, ne_eq, not_true_eq_false, ↓reduceIte]
        obtain ⟨st2, hw, hwf2, hnew2, hsame2⟩ := with_session_wf hwf1 hn1
          (fun s => ftp_send_response { s with pasv_addr := env.sockname }
            200 "Hello!\r\n".toList)
        simp only [hw]
        by_cases c4 : env.greeting_rc ≤ 0
        · simp only [c4, ↓reduceIte]
          obtain ⟨st3, hd, hwf3, hfree, -, hses3⟩ := destroy_wf hwf2 hidx
          rw [eraseIdx_concat] at hwf3
          simp only [hd, Option.map_some']
          refine ⟨st3, rfl, ?_, hwf3, hfree⟩
          intro b hb
          rw [hses3 b hb, hsame2 b hb, hother b hb]
        · simp only [c4, ↓reduceIte]
          refine ⟨st2, rfl, ?_, hwf2, ?_⟩
          · intro b hb
            rw [hsame2 b hb, hother b hb]
          · rw [hnew2, Option.map_some', hn1s]
            subst hs0
            rfl

theorem follows_next_of_wf {st : list_state} {ids : List Nat} (hwf : wf_list st ids) :
    ∀ (rest pre : List Nat), ids = pre ++ rest → follows_next st.heap rest.head? rest := by
  intro rest
  induction rest with
  | nil =>
    intro pre _
    exact trivial
  | cons a r ih =>
    intro pre he
    have hi : ids[pre.length]? = some a := by
      rw [he, List.getElem?_append_right (le_refl _), Nat.sub_self]
      exact List.getElem?_cons_zero
    obtain ⟨node, h1, h2, -⟩ := hwf.2.2 _ a hi
    refine ⟨rfl, node, h1, ?_⟩
    have hn : node.next = r.head? := by
      rw [h2, he, List.getElem?_append_right (by omega), List.head?_eq_getElem?]
      have : pre.length + 1 - pre.length = 1 := by omega
      rw [this]
      exact List.getElem?_cons_succ
    rw [hn]
    exact ih (pre ++ [a]) (by rw [he, List.append_assoc]; rfl)

/-- A well-formed list is well formed in the words of the specification. -/
theorem wf_list_spec {st : list_state} {ids : List Nat} (hwf : wf_list st ids) :
    spec_well_formed st ids := by
  obtain ⟨hN, hS, hH⟩ := hwf
  refine ⟨?_, ?_, ?_⟩
  · rw [hS]
    cases ids <;> simp
  · intro h node hh hn
    have h0 : ids[0]? = some h := by rw [← List.head?_eq_getElem?, ← hS, hh]
    obtain ⟨node1, g1, -, g3⟩ := hH 0 h h0
    rw [if_pos rfl] at g3
    rw [← g3, Option.some.inj (hn.symm.trans g1)]
  · have := follows_next_of_wf ⟨hN, hS, hH⟩ ids [] rfl
    rw [← hS] at this
    exact this

theorem three_sessions_wf : wf_list three_sessions [1, 2, 3] := by
  refine ⟨by decide, rfl, ?_⟩
  intro i a hi
  have hi3 := (List.getElem?_eq_some.mp hi).1
  simp only [List.length_cons, List.length_nil] at hi3
  interval_cases i <;> simp at hi <;> subst hi <;> exact ⟨_, rfl, rfl, rfl⟩

/-! ## Claim about the session list -/

/-- C21: let the session list be well formed, with the sessions at the
addresses `ids` in list order.  For the session `p` at any index `k` of the
list (head, middle, tail or only node), `ftp_session_destroy` returns the
successor of `p` (null for the tail), frees `p` and leaves a well-formed list
that holds the other sessions, unchanged, in their order.  `ftp_session_new`,
given a fresh address `a` by `malloc`, leaves the other sessions unchanged and,
when the new session comes to exist, a well-formed list with the new session
appended at the tail; when it does not, the list is as before. -/
theorem C21_session_list (st : list_state) (ids : List Nat) (k p a : Nat) (env : Env)
    (junk : ftp_session_t) (hwf : wf_list st ids) (hk : ids[k]? = some p)
    (ha : st.heap a = none) :
    (∃ st1, ftp_session_destroy st p = some (st1, ids[k + 1]?) ∧
        wf_list st1 (ids.eraseIdx k) ∧ spec_well_formed st1 (ids.eraseIdx k) ∧
        st1.heap p = none ∧
        ∀ b, b ≠ p → (st1.heap b).map node_t.session = (st.heap b).map node_t.session) ∧
      ∃ st2, ftp_session_new_in_list env junk a st = some st2 ∧
        (∀ b, b ≠ a → (st2.heap b).map node_t.session = (st.heap b).map node_t.session) ∧
        match ftp_session_new env junk with
        | some s =>
          wf_list st2 (ids ++ [a]) ∧ spec_well_formed st2 (ids ++ [a]) ∧
            (st2.heap a).map node_t.session = some s
        | none => wf_list st2 ids ∧ st2.heap a = none := by
  constructor
  · obtain ⟨st1, h1, h2, h3, -, h5⟩ := destroy_wf hwf hk
    exact ⟨st1, h1, h2, wf_list_spec h2, h3, h5⟩
  · obtain ⟨st2, h1, h2, h3⟩ := @new_in_list_wf env junk a st ids hwf ha
    refine ⟨st2, h1, h2, ?_⟩
    cases hn : ftp_session_new env junk with
    | none =>
      rw [hn] at h3
      exact h3
    | some s =>
      rw [hn] at h3
      exact ⟨h3.1, wf_list_spec h3.1, h3.2⟩

/-- C21 at the list of three sessions at the addresses 1, 2 and 3: the
session in the middle is destroyed, and a new session is allocated at the
address 4. -/
theorem C21_session_list_witness :
    (∃ st1, ftp_session_destroy three_sessions 2 = some (st1, some 3) ∧
        wf_list st1 [1, 3] ∧ spec_well_formed st1 [1, 3] ∧ st1.heap 2 = none ∧
        ∀ b, b ≠ 2 →
          (st1.heap b).map node_t.session = (three_sessions.heap b).map node_t.session) ∧
      ∃ st2, ftp_session_new_in_list env_new zero_session 4 three_sessions = some st2 ∧
        (∀ b, b ≠ 4 →
          (st2.heap b).map node_t.session = (three_sessions.heap b).map node_t.session) ∧
        match ftp_session_new env_new zero_session with
        | some s =>
          wf_list st2 [1, 2, 3, 4] ∧ spec_well_formed st2 [1, 2, 3, 4] ∧
            (st2.heap 4).map node_t.session = some s
        | none => wf_list st2 [1, 2, 3] ∧ st2.heap 4 = none :=
  C21_session_list three_sessions [1, 2, 3] 1 2 4 env_new zero_session three_sessions_wf rfl rfl

/-! ## The walk over the session list -/

theorem session_at_update (st : list_state) (p : Nat) (node : node_t) (a : Nat) :
    session_at { st with heap := Function.update st.heap p (some node) } a =
      if a = p then some node.session else session_at st a := by
  simp only [session_at, Function.update_apply]
  split_ifs <;> rfl

/-- One turn of the walk on the session at the head of the part of the list
not yet polled: the list stays well formed, the session is kept if its
`cmd_fd` is still open and removed otherwise, the pointer returned is the next
session of the list, and the other sessions are as before. -/
theorem poll_in_list_step (w fuel : Nat) (inp : PollIn) {st : list_state} {kept rest : List Nat}
    {p : Nat} {s0 s : ftp_session_t} (hwf : wf_list st (kept ++ p :: rest))
    (hs0 : session_at st p = some s0) (hs : ftp_session_poll w fuel inp s0 = some s) :
    ∃ st1, ftp_session_poll_in_list w fuel inp st p = some (st1, rest.head?) ∧
      (∀ b, b ≠ p → session_at st1 b = session_at st b) ∧
      (0 ≤ s.cmd_fd → wf_list st1 (kept ++ p :: rest) ∧ session_at st1 p = some s) ∧
      (¬ 0 ≤ s.cmd_fd → wf_list st1 (kept ++ rest) ∧ st1.heap p = none) := by
  have hidx : (kept ++ p :: rest)[kept.length]? = some p := by
    rw [List.getElem?_append_right (le_refl _), Nat.sub_self]
    exact List.getElem?_cons_zero
  have hnextidx : (kept ++ p :: rest)[kept.length + 1]? = rest.head? := by
    rw [List.getElem?_append_right (by omega), List.head?_eq_getElem?]
    have : kept.length + 1 - kept.length = 1 := by omega
    rw [this]
    exact List.getElem?_cons_succ
  obtain ⟨node, hn, hnext, -⟩ := hwf.2.2 _ p hidx
  have e0 : node.session = s0 := by
    simp only [session_at, hn, Option.map_some', Option.some.injEq] at hs0
    exact hs0
  obtain ⟨st2, hw, hwf2, hnew2, hsame2⟩ := with_session_wf hwf hn (fun _ => s)
  have hst2 : st2 = { st with
      heap := Function.update st.heap p (some { node with session := s }) } := by
    simp only [with_session, hn, Option.some.injEq] at hw
    exact hw.symm
  have hses2 : ∀ b, b ≠ p → session_at st2 b = session_at st b := by
    intro b hb
    simp only [session_at, hsame2 b hb]
  by_cases hc : 0 ≤ s.cmd_fd
  · refine ⟨st2, ?_, hses2, ?_, fun h => absurd hc h⟩
    · simp only [ftp_session_poll_in_list, hn, e0, hs, ge_iff_le, hc, ↓reduceIte, hst2, hnext,
        hnextidx]
    · intro _
      exact ⟨hwf2, by simp only [session_at, hnew2, Option.map_some']⟩
  · obtain ⟨st3, hd, hwf3, hfree, -, hses3⟩ := destroy_wf hwf2 hidx
    have he : (kept ++ p :: rest).eraseIdx kept.length = kept ++ rest := by
      rw [List.eraseIdx_append_of_length_le (le_refl _), Nat.sub_self]
      rfl
    rw [he] at hwf3
    rw [hnextidx] at hd
    refine ⟨st3, ?_, ?_, fun h => absurd h hc, fun _ => ⟨hwf3, hfree⟩⟩
    · simp only [ftp_session_poll_in_list, hn, e0, hs, ge_iff_le, hc, ↓reduceIte]
      rw [← hst2]
      exact hd
    · intro b hb
      simp only [session_at, hses3 b hb]
      exact hses2 b hb

theorem survives_congr (w fuel : Nat) (polls : Nat → PollIn) {st st1 : list_state} {a : Nat}
    (h : session_at st1 a = session_at st a) :
    survives w fuel polls st1 a = survives w fuel polls st a := by
  simp only [survives, h]

/-- The walk over the part of the list not yet polled, when every poll
returns: every session of that part is polled once, in list order; the list
stays well formed and keeps exactly the sessions that are still connected. -/
theorem walk_complete (w fuel : Nat) (polls : Nat → PollIn) :
    ∀ (rest kept : List Nat) (st : list_state) (n : Nat) (polled : List Nat),
      wf_list st (kept ++ rest) → rest.length ≤ n →
      (∀ a ∈ rest, ∃ s0 s, session_at st a = some s0 ∧
        ftp_session_poll w fuel (polls a) s0 = some s) →
      ∃ st1, ftp_loop_walk w fuel polls n st rest.head? polled = some (st1, polled ++ rest) ∧
        wf_list st1 (kept ++ rest.filter (survives w fuel polls st)) ∧
        (∀ b, b ∉ rest → session_at st1 b = session_at st b) ∧
        ∀ a ∈ rest, ∀ s0, session_at st a = some s0 →
          session_at st1 a =
            if survives w fuel polls st a = true then ftp_session_poll w fuel (polls a) s0
            else none := by
  intro rest
  induction rest with
  | nil =>
    intro kept st n polled hwf _ _
    refine ⟨st, ?_, ?_, fun _ _ => rfl, ?_⟩
    · cases n <;> simp [ftp_loop_walk]
    · simpa using hwf
    · intro a ha
      simp at ha
  | cons p r ih =>
    intro kept st n polled hwf hn hret
    obtain ⟨m, rfl⟩ : ∃ m, n = m + 1 := ⟨n - 1, by simp only [List.length_cons] at hn; omega⟩
    have hpr : p ∉ r := by
      have := hwf.1
      rw [List.nodup_append] at this
      exact (List.nodup_cons.mp this.2.1).1
    obtain ⟨s0, s, hs0, hs⟩ := hret p (List.mem_cons_self _ _)
    obtain ⟨st1, hstep, hses1, hkeep, hdrop⟩ := poll_in_list_step w fuel (polls p) hwf hs0 hs
    have hsesr : ∀ a ∈ r, session_at st1 a = session_at st a := by
      intro a ha
      exact hses1 a (fun e => hpr (e ▸ ha))
    have hret1 : ∀ a ∈ r, ∃ s0 s, session_at st1 a = some s0 ∧
        ftp_session_poll w fuel (polls a) s0 = some s := by
      intro a ha
      obtain ⟨t0, t, g1, g2⟩ := hret a (List.mem_cons_of_mem _ ha)
      exact ⟨t0, t, (hsesr a ha).trans g1, g2⟩
    have hfilter : r.filter (survives w fuel polls st1) = r.filter (survives w fuel polls st) :=
      List.filter_congr (fun a ha => survives_congr w fuel polls (hsesr a ha))
    have hwalk : ftp_loop_walk w fuel polls (m + 1) st (p :: r).head? polled =
        ftp_loop_walk w fuel polls m st1 r.head? (polled ++ [p]) := by
      simp only [List.head?_cons, ftp_loop_walk, hstep]
    have hlen : r.length ≤ m := by
      simp only [List.length_cons] at hn
      omega
    by_cases hc : 0 ≤ s.cmd_fd
    · obtain ⟨hwf1, hp1⟩ := hkeep hc
      have hsp : survives w fuel polls st p = true := by
        simp only [survives, hs0, hs, hc, decide_True]
      have hwf1b : wf_list st1 ((kept ++ [p]) ++ r) := by
        rw [List.append_assoc]
        exact hwf1
      obtain ⟨st2, g1, g2, g3, g4⟩ := ih (kept ++ [p]) st1 m (polled ++ [p]) hwf1b hlen hret1
      refine ⟨st2, ?_, ?_, ?_, ?_⟩
      · rw [hwalk, g1, List.append_assoc]
        rfl
      · rw [List.filter_cons_of_pos hsp, ← hfilter]
        rw [List.append_assoc] at g2
        exact g2
      · intro b hb
        rw [List.mem_cons, not_or] at hb
        rw [g3 b hb.2, hses1 b hb.1]
      · intro a ha t0 ht0
        rcases List.mem_cons.mp ha with e | har
        · subst e
          rw [g3 a hpr, hp1, if_pos hsp]
          rw [hs0] at ht0
          rw [← Option.some.inj ht0, hs]
        · rw [g4 a har t0 ((hsesr a har).trans ht0), survives_congr w fuel polls (hsesr a har)]
    · obtain ⟨hwf1, hp1⟩ := hdrop hc
      have hsp : ¬ survives w fuel polls st p = true := by
        simp only [survives, hs0, hs, hc, decide_False, Bool.false_eq_true, not_false_eq_true]
      obtain ⟨st2, g1, g2, g3, g4⟩ := ih kept st1 m (polled ++ [p]) hwf1 hlen hret1
      refine ⟨st2, ?_, ?_, ?_, ?_⟩
      · rw [hwalk, g1, List.append_assoc]
        rfl
      · rw [List.filter_cons_of_neg hsp, ← hfilter]
        exact g2
      · intro b hb
        rw [List.mem_cons, not_or] at hb
        rw [g3 b hb.2, hses1 b hb.1]
      · intro a ha t0 ht0
        rcases List.mem_cons.mp ha with e | har
        · subst e
          rw [g3 a hpr, if_neg hsp]
          simp only [session_at, hp1, Option.map_none']
        · rw [g4 a har t0 ((hsesr a har).trans ht0), survives_congr w fuel polls (hsesr a har)]

/-- One walk of `ftp_loop` over a well-formed list in which every poll
returns: the walk ends within as many turns as the list has sessions, it has
polled each session of the list once, in list order, and afterwards the list
is well formed and holds exactly the sessions whose `cmd_fd` is still open,
each as its poll left it; the others are freed. -/
theorem walk_polls_each_once (w fuel n : Nat) (polls : Nat → PollIn) {st : list_state}
    {ids : List Nat} (hwf : wf_list st ids) (hn : ids.length ≤ n)
    (hret : ∀ a ∈ ids, ∃ s0 s, session_at st a = some s0 ∧
      ftp_session_poll w fuel (polls a) s0 = some s) :
    ∃ st1, ftp_loop_walk w fuel polls n st st.sessions [] = some (st1, ids) ∧
      wf_list st1 (ids.filter (survives w fuel polls st)) ∧
      (∀ a ∈ ids.filter (survives w fuel polls st), ∃ s0 s, session_at st a = some s0 ∧
        ftp_session_poll w fuel (polls a) s0 = some s ∧ 0 ≤ s.cmd_fd ∧
        session_at st1 a = some s) ∧
      ∀ a ∈ ids, a ∉ ids.filter (survives w fuel polls st) → st1.heap a = none ∧
        ∃ s0 s, session_at st a = some s0 ∧ ftp_session_poll w fuel (polls a) s0 = some s ∧
          s.cmd_fd < 0 := by
  obtain ⟨st1, g1, g2, -, g4⟩ := walk_complete w fuel polls ids [] st n [] hwf hn hret
  rw [← hwf.2.1] at g1
  refine ⟨st1, g1, g2, ?_, ?_⟩
  · intro a ha
    rw [List.mem_filter] at ha
    obtain ⟨s0, s, h1, h2⟩ := hret a ha.1
    have hsv := ha.2
    refine ⟨s0, s, h1, h2, ?_, ?_⟩
    · simpa only [survives, h1, h2, decide_eq_true_eq] using hsv
    · rw [g4 a ha.1 s0 h1, if_pos hsv, h2]
  · intro a ha hna
    rw [List.mem_filter, not_and] at hna
    have hsv := hna ha
    obtain ⟨s0, s, h1, h2⟩ := hret a ha
    have hx := g4 a ha s0 h1
    rw [if_neg hsv] at hx
    refine ⟨?_, s0, s, h1, h2, ?_⟩
    · simp only [session_at, Option.map_eq_none'] at hx
      exact hx
    · have : ¬ 0 ≤ s.cmd_fd := by
        simpa only [survives, h1, h2, decide_eq_true_eq] using hsv
      omega

/-! ## Claim about the walk over the session list -/

set_option maxRecDepth 10000 in
theorem bsearch_cwd_line :
    bsearch (command_name (command_line "CWD /..a\r\n".toList)) ftp_commands =
      some ⟨"CWD".toList, .CWD⟩ := by
  decide

/-- A new session that receives the line `CWD /..a`: the poll never returns. -/
theorem poll_cwd_hangs (w fuel : Nat) :
    ftp_session_poll w fuel (poll_line env_ok "CWD /..a\r\n") session0 = none := by
  have hb := bsearch_cwd_line
  have ha : command_args (command_line "CWD /..a\r\n".toList) = "/..a".toList := by decide
  have hv : validate_path_scan fuel "/..a".toList = none :=
    @validate_path_scan_none_of_match "/..a".toList "/..a".toList [] 'a' (by decide)
      (by decide) (by decide) fuel
  have hlen : ¬ (List.take CMD_BUFFERSIZE "CWD /..a\r\n".toList).length = 0 := by decide
  have hdd : ¬ "/..a".toList = ['.', '.'] := by decide
  have hst : session0.state = .COMMAND_STATE := rfl
  have h1 : (poll_line env_ok "CWD /..a\r\n").poll_rc = 1 := rfl
  have h2 : (poll_line env_ok "CWD /..a\r\n").revents = ⟨true, false, false, false, false⟩ := rfl
  have h3 : (poll_line env_ok "CWD /..a\r\n").recv = some "CWD /..a\r\n".toList := rfl
  have hr : ftp_session_read_command w fuel (some "CWD /..a\r\n".toList) env_ok session0 =
      none := by
    simp only [ftp_session_read_command, hlen, ↓reduceIte, hb, ha, call_handler, CWD, hdd,
      build_path, validate_path, hv]
  have h4 : (poll_line env_ok "CWD /..a\r\n").env = env_ok := rfl
  simp only [ftp_session_poll, h1, h2, h3, h4, hst, hr, Int.reduceLT, gt_iff_lt, ↓reduceIte,
    true_or, Bool.false_eq_true, or_self]

theorem one_session_wf : wf_list one_session [1] := by
  refine ⟨by decide, rfl, ?_⟩
  intro i a hi
  have hi3 := (List.getElem?_eq_some.mp hi).1
  simp only [List.length_cons, List.length_nil] at hi3
  interval_cases i
  simp at hi
  subst hi
  exact ⟨_, rfl, rfl, rfl⟩

/-- C22 (defect in the code): the well-formed list holds one new session,
which receives the line `CWD /..a` in this tick.  The walk of `ftp_loop` polls
it and the poll never returns (`validate_path` loops for ever), so the walk
does not terminate: no bound on the turns of the walk and no fuel make
`ftp_loop` return. -/
theorem C22_walk_does_not_terminate (w fuel n : Nat) :
    ftp_session_new env_new zero_session = some session0 ∧ wf_list one_session [1] ∧
      session_at one_session 1 = some session0 ∧
      ftp_loop_walk w fuel cwd_hang_tick.polls n one_session one_session.sessions [] = none ∧
      ftp_loop w fuel n cwd_hang_tick one_session = none := by
  have hw : ftp_loop_walk w fuel cwd_hang_tick.polls n one_session one_session.sessions [] =
      none := by
    have hh : one_session.heap 1 = some ⟨session0, none, some 1⟩ := rfl
    cases n with
    | zero => rfl
    | succ m =>
      show ftp_loop_walk w fuel cwd_hang_tick.polls (m + 1) one_session (some 1) [] = none
      simp only [ftp_loop_walk, ftp_session_poll_in_list, hh, cwd_hang_tick, poll_cwd_hangs]
  refine ⟨by decide, one_session_wf, rfl, hw, ?_⟩
  have h0 : ¬ cwd_hang_tick.poll_rc < 0 := by decide
  have h1 : ¬ (cwd_hang_tick.poll_rc > 0 ∧ cwd_hang_tick.POLLIN = true) := by decide
  simp only [ftp_loop, h0, h1, ↓reduceIte, hw]

end FTP
